import Mathlib

/-! # argparse

A shallow embedding of `argparse.go` (package `argparse`) and the properties of
its flag decoder.

* Go strings are lists of characters.  Every string operation the decoder uses
  (`SplitN` on `=`, `Split` on `,`, `Trim` of `-`, `HasPrefix`, digit scanning)
  cuts at ASCII bytes, so it acts on characters as it acts on UTF-8 bytes.
* A `reflect.Value` that designates storage is a `Ref`: a static type and a
  location (an allocated object and a path of field indices inside it).
* The record lives in a `Store` of cells indexed by location.  A cell that was
  never written holds the zero value of its type and reads as `none`.
* Library functions whose definition is outside the repository and that are not
  needed in closed form (`time.ParseInLocation`, `strconv.ParseFloat`, the
  `float32` conversion, `strconv.Quote`, the Unicode lower-case table) are
  fields of `Lib`; every theorem holds for every `Lib`.
* `log.Printf`, `log.Println` and `fmt.Println` only write diagnostics and are
  left out.
-/

namespace Argparse

/-- A Go string. -/
abbrev GoString := List Char

/-! ## Package `strings` -/

/-- The Go function `strings.HasPrefix(s, pre)`. -/
def HasPrefix (s pre : GoString) : Bool := pre.isPrefixOf s

/-- The Go function `strings.Trim(s, cutset)`: `s` without its leading and trailing
characters that occur in `cutset`. -/
def Trim (s cutset : GoString) : GoString :=
  ((s.dropWhile (fun c => cutset.contains c)).reverse.dropWhile
    (fun c => cutset.contains c)).reverse

/-- The Go call `strings.SplitN(s, sep, 2)` for a one-character separator: the
first component is `parts[0]`; the second is `some parts[1]` when
`len(parts) == 2` (the separator occurs) and `none` when `len(parts) == 1`. -/
def SplitN2 (sep : Char) : GoString → GoString × Option GoString
  | [] => ([], none)
  | c :: cs =>
    if c = sep then ([], some cs)
    else ((c :: (SplitN2 sep cs).1), (SplitN2 sep cs).2)

/-- Loop of `Split`: `cur` holds the characters of the current piece, reversed. -/
def splitLoop (sep : Char) : GoString → GoString → List GoString
  | [], cur => [cur.reverse]
  | c :: cs, cur =>
    if c = sep then cur.reverse :: splitLoop sep cs []
    else splitLoop sep cs (c :: cur)

/-- The Go function `strings.Split(s, sep)` for a one-character separator; the
empty string splits into one empty piece. -/
def Split (s : GoString) (sep : Char) : List GoString := splitLoop sep s []

/-- The Go function `strings.Join(elems, sep)`. -/
def Join (elems : List GoString) (sep : GoString) : GoString := List.intercalate sep elems

/-- Lower case of an ASCII letter, other ASCII characters unchanged. -/
def asciiLower (c : Char) : Char :=
  if 65 ≤ c.toNat ∧ c.toNat ≤ 90 then Char.ofNat (c.toNat + 32) else c

/-! ## Library functions taken as parameters -/

/-- An instant: seconds since the Unix epoch and nanoseconds within the second. -/
structure Time where
  sec : Int
  nsec : Nat
deriving DecidableEq

/-- The two causes of a `*strconv.NumError`. -/
inductive NumErrKind where
  | ErrSyntax
  | ErrRange
deriving DecidableEq

/-- Library functions used by the decoder and left abstract. -/
structure Lib where
  /-- The call `time.ParseInLocation(layout, v, time.Local)`; `none` when it
  returns an error. -/
  ParseInLocation : GoString → GoString → Option Time
  /-- The call `strconv.ParseFloat(s, 64)`: the bits of the float64 and the error, if any. -/
  ParseFloat : GoString → Nat × Option NumErrKind
  /-- The conversion `float32(x)` of a float64, both given by their bits. -/
  toFloat32 : Nat → Nat
  /-- The function `strconv.Quote`. -/
  Quote : GoString → GoString
  /-- The function `unicode.ToLower` on characters outside ASCII. -/
  unicodeLower : Char → Char

/-- The Go function `strings.ToLower(s)`. -/
def ToLower (lib : Lib) (s : GoString) : GoString :=
  s.map (fun c => if c.toNat < 128 then asciiLower c else lib.unicodeLower c)

/-! ## Package `strconv`: integers -/

/-- The constant `maxUint64` of `strconv`. -/
def maxUint64 : Nat := 2 ^ 64 - 1

/-- The digit a byte stands for in `strconv.ParseUint`: `c - '0'` for `'0'..'9'`,
`lower(c) - 'a' + 10` when `'a' <= lower(c) <= 'z'` with `lower(c) = c | 0x20`;
`none` is the `default` case (a syntax error).  A character outside ASCII is
made of bytes `>= 0x80`, which all fall in the `default` case. -/
def digitOf (c : Char) : Option Nat :=
  if 48 ≤ c.toNat ∧ c.toNat ≤ 57 then some (c.toNat - 48)
  else if c.toNat < 128 ∧ 97 ≤ (c.toNat ||| 32) ∧ (c.toNat ||| 32) ≤ 122 then
    some ((c.toNat ||| 32) - 97 + 10)
  else none

/-- The digit loop of `strconv.ParseUint` for `2 <= base <= 36` (so no
underscores): returns the value and the error. `n` is a `uint64`. -/
def parseUintLoop (base bitSize : Nat) : GoString → Nat → Nat × Option NumErrKind
  | [], n => (n, none)
  | c :: cs, n =>
    match digitOf c with
    | none => (0, some NumErrKind.ErrSyntax)
    | some d =>
      if d ≥ base then (0, some NumErrKind.ErrSyntax)
      else if n ≥ maxUint64 / base + 1 then (2 ^ bitSize - 1, some NumErrKind.ErrRange)
      else
        let n0 := (n * base) % 2 ^ 64
        let n1 := (n0 + d) % 2 ^ 64
        if n1 < n0 ∨ n1 > 2 ^ bitSize - 1 then (2 ^ bitSize - 1, some NumErrKind.ErrRange)
        else parseUintLoop base bitSize cs n1

/-- The Go function `strconv.ParseUint(s, base, bitSize)` for `2 <= base <= 36` and
`1 <= bitSize <= 64`. -/
def ParseUint (s : GoString) (base bitSize : Nat) : Nat × Option NumErrKind :=
  if s = [] then (0, some NumErrKind.ErrSyntax) else parseUintLoop base bitSize s 0

/-- The conversion `int64(x)`: the value of `x` wrapped to 64 bits, two's complement. -/
def toInt64 (x : Int) : Int := (x + 2 ^ 63) % 2 ^ 64 - 2 ^ 63

/-- The Go function `strconv.ParseInt(s, base, bitSize)` for `2 <= base <= 36` and
`1 <= bitSize <= 64`. -/
def ParseInt (s : GoString) (base bitSize : Nat) : Int × Option NumErrKind :=
  match s with
  | [] => (0, some NumErrKind.ErrSyntax)
  | c :: cs =>
    let neg := (c = '-')
    let s1 := if c = '+' ∨ c = '-' then cs else s
    let r := ParseUint s1 base bitSize
    if r.2 = some NumErrKind.ErrSyntax then (0, some NumErrKind.ErrSyntax)
    else
      let cutoff : Nat := 2 ^ (bitSize - 1)
      if ¬ neg ∧ r.1 ≥ cutoff then ((cutoff : Int) - 1, some NumErrKind.ErrRange)
      else if neg ∧ r.1 > cutoff then (- (cutoff : Int), some NumErrKind.ErrRange)
      else
        let n := toInt64 (r.1 : Int)
        (if neg then toInt64 (- n) else n, none)

/-! ## The repository: numeric and time parsing -/

/-- The layouts of `parseTime`, in order (`time.UnixDate`, `time.RFC1123` and
`time.RFC1123Z` written out). -/
def layouts : List GoString :=
  [ "2006-01-02T15:04:05Z0700".toList,
    "2006-01-02T15:04:05Z07:00".toList,
    "2006-01-02 15:04:05Z0700".toList,
    "2006-01-02 15:04:05Z07:00".toList,
    "2006-01-02 15:04:05 -0700".toList,
    "2006-01-02 15:04:05 -07:00".toList,
    "2006-01-02 15:04:05 MST".toList,
    "2006-01-02 15:04:05".toList,
    "2006-01-02".toList,
    "Mon Jan _2 15:04:05 MST 2006".toList,
    "Mon, 02 Jan 2006 15:04:05 MST".toList,
    "Mon, 02 Jan 2006 15:04:05 -0700".toList,
    "1/2/2006 15:04:05 -0700".toList,
    "1/2/2006 15:04:05 -07:00".toList,
    "1/2/2006 15:04:05 MST".toList,
    "1/2/2006 3:04:05 PM".toList,
    "1/2/2006 3:04:05 PM".toList,
    "1/2/2006 3:04:05 PM".toList,
    "1/2/2006".toList,
    "1/2/06".toList ]

/-- Errors: `errors.Errorf` with its formatted message, `errors.Wrap`/`Wrapf` of a
cause with a formatted message, and `*strconv.NumError` with its function name,
its input and its cause. -/
inductive Err where
  | errorf (msg : GoString)
  | wrap (cause : Err) (msg : GoString)
  | num (fn : GoString) (input : GoString) (kind : NumErrKind)
deriving DecidableEq

/-- The method `Error()`: the message of an error. -/
def Err.Error (lib : Lib) : Err → GoString
  | Err.errorf msg => msg
  | Err.wrap cause msg => msg ++ ": ".toList ++ cause.Error lib
  | Err.num fn input kind =>
    "strconv.".toList ++ fn ++ ": parsing ".toList ++ lib.Quote input ++ ": ".toList ++
      (match kind with
       | NumErrKind.ErrSyntax => "invalid syntax".toList
       | NumErrKind.ErrRange => "value out of range".toList)

/-- The loop of `parseTime` over the layouts: the first layout that parses wins. -/
def parseTimeLoop (lib : Lib) (v : GoString) : List GoString → Except Err Time
  | [] => Except.error (Err.errorf ("can't parse ".toList ++ v ++ " as a time stamp".toList))
  | layout :: rest =>
    match lib.ParseInLocation layout v with
    | some t => Except.ok t
    | none => parseTimeLoop lib v rest

/-- The function `parseTime` of the repository. -/
def parseTime (lib : Lib) (v : GoString) : Except Err Time := parseTimeLoop lib v layouts

/-- The function `parseInt` of the repository: value and error of `strconv.ParseInt`
in base 16 after a `0x`, else base 10, always with `bitSize` 64. -/
def parseInt (v : GoString) : Int × Option Err :=
  if HasPrefix v "0x".toList then
    ((ParseInt (v.drop 2) 16 64).1,
      (ParseInt (v.drop 2) 16 64).2.map (Err.num "ParseInt".toList (v.drop 2)))
  else ((ParseInt v 10 64).1, (ParseInt v 10 64).2.map (Err.num "ParseInt".toList v))

/-- The function `parseUint` of the repository. -/
def parseUint (v : GoString) : Nat × Option Err :=
  if HasPrefix v "0x".toList then
    ((ParseUint (v.drop 2) 16 64).1,
      (ParseUint (v.drop 2) 16 64).2.map (Err.num "ParseUint".toList (v.drop 2)))
  else ((ParseUint v 10 64).1, (ParseUint v 10 64).2.map (Err.num "ParseUint".toList v))

/-! ## Types, values and the store -/

/-- The kinds of `reflect.Kind` that the model covers. -/
inductive Kind where
  | Bool | Int | Int8 | Int16 | Int32 | Int64
  | Uint | Uint8 | Uint16 | Uint32 | Uint64
  | Float32 | Float64 | Map | Ptr | Slice | String | Struct
deriving DecidableEq

/-- Go types.  A struct type is referred to by its name (as `%T` prints it) and its
fields are declared in a `TypeEnv`, so that a struct may point to itself;
`time` is the struct type `time.Time`. -/
inductive GoType where
  | bool | int | int8 | int16 | int32 | int64
  | uint | uint8 | uint16 | uint32 | uint64
  | float32 | float64 | string
  | slice (elem : GoType)
  | map (key val : GoType)
  | ptr (elem : GoType)
  | time
  | struct (name : GoString)
deriving DecidableEq

/-- The method `Kind()` of a type. -/
def GoType.Kind : GoType → Kind
  | GoType.bool => Kind.Bool
  | GoType.int => Kind.Int
  | GoType.int8 => Kind.Int8
  | GoType.int16 => Kind.Int16
  | GoType.int32 => Kind.Int32
  | GoType.int64 => Kind.Int64
  | GoType.uint => Kind.Uint
  | GoType.uint8 => Kind.Uint8
  | GoType.uint16 => Kind.Uint16
  | GoType.uint32 => Kind.Uint32
  | GoType.uint64 => Kind.Uint64
  | GoType.float32 => Kind.Float32
  | GoType.float64 => Kind.Float64
  | GoType.string => Kind.String
  | GoType.slice _ => Kind.Slice
  | GoType.map _ _ => Kind.Map
  | GoType.ptr _ => Kind.Ptr
  | GoType.time => Kind.Struct
  | GoType.struct _ => Kind.Struct

/-- The method `Elem()` of a pointer or slice type (Go panics on the other types
of the model except maps; the decoder calls it on pointer and slice types only). -/
def GoType.Elem : GoType → GoType
  | GoType.slice e => e
  | GoType.ptr e => e
  | GoType.map _ v => v
  | t => t

/-- The name of a type as the verb `%T` prints it. -/
def GoType.typeName : GoType → GoString
  | GoType.bool => "bool".toList
  | GoType.int => "int".toList
  | GoType.int8 => "int8".toList
  | GoType.int16 => "int16".toList
  | GoType.int32 => "int32".toList
  | GoType.int64 => "int64".toList
  | GoType.uint => "uint".toList
  | GoType.uint8 => "uint8".toList
  | GoType.uint16 => "uint16".toList
  | GoType.uint32 => "uint32".toList
  | GoType.uint64 => "uint64".toList
  | GoType.float32 => "float32".toList
  | GoType.float64 => "float64".toList
  | GoType.string => "string".toList
  | GoType.slice e => "[]".toList ++ e.typeName
  | GoType.map k v => "map[".toList ++ k.typeName ++ "]".toList ++ v.typeName
  | GoType.ptr e => "*".toList ++ e.typeName
  | GoType.time => "time.Time".toList
  | GoType.struct name => name

/-- The width in bits of an integer type; `int` and `uint` have 64 bits (a 64-bit
platform, `strconv.IntSize = 64`).  Other types: 0. -/
def GoType.bits : GoType → Nat
  | GoType.int8 => 8
  | GoType.uint8 => 8
  | GoType.int16 => 16
  | GoType.uint16 => 16
  | GoType.int32 => 32
  | GoType.uint32 => 32
  | GoType.int => 64
  | GoType.int64 => 64
  | GoType.uint => 64
  | GoType.uint64 => 64
  | _ => 0

/-- The conversion `intN(x)` that `reflect.Value.SetInt` applies for a target of
`w` bits: `x` wrapped to `w` bits, two's complement. -/
def wrapInt (w : Nat) (x : Int) : Int := (x + 2 ^ (w - 1)) % 2 ^ w - 2 ^ (w - 1)

/-- The conversion `uintN(x)` that `reflect.Value.SetUint` applies for a target of
`w` bits. -/
def wrapUint (w : Nat) (x : Nat) : Nat := x % 2 ^ w

/-- The values held by the cells of a record: a field of a basic type, of type
`time.Time`, a slice, or a pointer (`none` is `nil`, `some a` points to object `a`). -/
inductive Value where
  | bool (b : Bool)
  | int (v : Int)
  | uint (v : Nat)
  | float (fbits : Nat)
  | str (s : GoString)
  | time (t : Time)
  | slice (elems : List Value)
  | ptr (target : Option Nat)

/-- A storage location: an allocated object and the path of field indices from the
object to the field (inline structs nest, pointers start a new object). -/
structure Loc where
  obj : Nat
  path : List Nat
deriving DecidableEq

/-- The memory: the cells, and the number of objects allocated so far.  A cell
that reads `none` holds the zero value of its type. -/
structure Store where
  cells : Loc → Option Value
  next : Nat

/-- Reading a cell. -/
def Store.read (st : Store) (l : Loc) : Option Value := st.cells l

/-- Writing a cell (`Set`, `SetBool`, `SetInt`, ... on a settable value). -/
def Store.write (st : Store) (l : Loc) (v : Value) : Store :=
  { st with cells := fun k => if k = l then some v else st.cells k }

/-- A `reflect.Value` that designates storage: its type and its location. -/
structure Ref where
  typ : GoType
  loc : Loc
deriving DecidableEq

/-- A field of a struct type, as `reflect.StructField` gives it: `argTag` is
`Tag.Get("arg")` (empty when the key is absent), `PkgPath` is empty exactly for
an exported field. -/
structure StructField where
  Name : GoString
  PkgPath : GoString
  Typ : GoType
  argTag : GoString
  Anonymous : Bool
deriving DecidableEq

/-- The declarations of the struct types, by name. -/
abbrev TypeEnv := GoString → List StructField

/-- The fields of `time.Time`: all unexported. -/
def timeFields : List StructField :=
  [ { Name := "wall".toList, PkgPath := "time".toList, Typ := GoType.uint64,
      argTag := [], Anonymous := false },
    { Name := "ext".toList, PkgPath := "time".toList, Typ := GoType.int64,
      argTag := [], Anonymous := false },
    { Name := "loc".toList, PkgPath := "time".toList,
      Typ := GoType.ptr (GoType.struct "time.Location".toList),
      argTag := [], Anonymous := false } ]

/-- The fields `rt.Field(0) .. rt.Field(rt.NumField()-1)` of a struct type.  (Go
panics on `NumField` of a type that is not a struct; `makeArgMap` only recurses
into struct types and is entered with the record.) -/
def fieldsOf (env : TypeEnv) : GoType → List StructField
  | GoType.struct name => env name
  | GoType.time => timeFields
  | _ => []

/-- The Go expression `rv.Field(i)` where `rf = rv.Type().Field(i)`. -/
def Ref.Field (rv : Ref) (i : Nat) (rf : StructField) : Ref :=
  { typ := rf.Typ, loc := { obj := rv.loc.obj, path := rv.loc.path ++ [i] } }

/-! ## `parseInto` -/

/-- The loop of the `Slice` case of `parseInto`: `f sv` is `parseInto(s.Index(i), sv)`. -/
def parseElems (f : GoString → Except Err Value) : Nat → List GoString → Except Err (List Value)
  | _, [] => Except.ok []
  | i, sv :: rest =>
    match f sv with
    | Except.error e =>
      Except.error (Err.wrap e ("error parsing list element ".toList ++ Nat.toDigits 10 i))
    | Except.ok x =>
      match parseElems f (i + 1) rest with
      | Except.error e => Except.error e
      | Except.ok xs => Except.ok (x :: xs)

/-- The function `parseInto(rv, vals...)` for a target of type `t`: the error, or
the value that the call stores in `rv` (by `SetString`, `SetUint`, `SetInt`,
`SetFloat` or `Set`; the target is written only on success). -/
def parseInto (lib : Lib) : GoType → List GoString → Except Err Value
  | t, vals =>
    if t.Kind ≠ Kind.Slice ∧ vals.length ≠ 1 then
      Except.error (Err.errorf ("can't set a scalar to ".toList ++
        Nat.toDigits 10 vals.length ++ " values".toList))
    else
      match t with
      | GoType.string => Except.ok (Value.str (vals.headD []))
      | GoType.uint | GoType.uint8 | GoType.uint16 | GoType.uint32 | GoType.uint64 =>
        match (parseUint (vals.headD [])).2 with
        | some err => Except.error (Err.wrap err "error parsing uint".toList)
        | none => Except.ok (Value.uint (wrapUint t.bits (parseUint (vals.headD [])).1))
      | GoType.int | GoType.int8 | GoType.int16 | GoType.int32 | GoType.int64 =>
        match (parseInt (vals.headD [])).2 with
        | some err => Except.error (Err.wrap err "error parsing int".toList)
        | none => Except.ok (Value.int (wrapInt t.bits (parseInt (vals.headD [])).1))
      | GoType.float32 =>
        match (lib.ParseFloat (vals.headD [])).2 with
        | some k => Except.error
            (Err.wrap (Err.num "ParseFloat".toList (vals.headD []) k) "error parsing float".toList)
        | none => Except.ok (Value.float (lib.toFloat32 (lib.ParseFloat (vals.headD [])).1))
      | GoType.float64 =>
        match (lib.ParseFloat (vals.headD [])).2 with
        | some k => Except.error
            (Err.wrap (Err.num "ParseFloat".toList (vals.headD []) k) "error parsing float".toList)
        | none => Except.ok (Value.float (lib.ParseFloat (vals.headD [])).1)
      | GoType.slice e =>
        match parseElems (fun sv => parseInto lib e [sv]) 0 vals with
        | Except.error err => Except.error err
        | Except.ok xs => Except.ok (Value.slice xs)
      | GoType.time =>
        match parseTime lib (vals.headD []) with
        | Except.error err => Except.error (Err.wrap err "error parsing time".toList)
        | Except.ok tm => Except.ok (Value.time tm)
      | t0 => Except.error (Err.errorf ("don't know how to parse into ".toList ++ t0.typeName))

/-! ## `makeArgMap` -/

/-- A Go `map[string]reflect.Value`: a list of bindings with distinct keys. -/
abbrev ArgMap := List (GoString × Ref)

/-- The assignment `m[k] = v`. -/
def ArgMap.set (m : ArgMap) (k : GoString) (v : Ref) : ArgMap :=
  (k, v) :: m.filter (fun e => e.1 != k)

/-- The lookup `m[k]` with its presence flag. -/
def ArgMap.get (m : ArgMap) (k : GoString) : Option Ref := m.lookup k

/-- The loop `for k, v := range xm` with body `m[k] = v`, ranging over the bindings
of `xm` in the order `entries`. -/
def mergePlain (m : ArgMap) (entries : List (GoString × Ref)) : ArgMap :=
  entries.foldl (fun acc kv => acc.set kv.1 kv.2) m

/-- The loop `for k, v := range xm` with body `m[tag+"-"+k] = v`, ranging over the
bindings of `xm` in the order `entries`. -/
def mergeTagged (tag : GoString) (m : ArgMap) (entries : List (GoString × Ref)) : ArgMap :=
  entries.foldl (fun acc kv => acc.set (tag ++ "-".toList ++ kv.1) kv.2) m

/-- The body of the loop of `makeArgMap` for field `i`, described by `rf`, of the
struct `rv`; `sub` is the recursive call of `makeArgMap`.  `none`: the recursive
call did not return. -/
def fieldStep (lib : Lib) (sub : Store → Ref → Option (ArgMap × Store)) (rv : Ref)
    (i : Nat) (rf : StructField) (m : ArgMap) (st : Store) : Option (ArgMap × Store) :=
  if rf.PkgPath ≠ [] then some (m, st)
  else if rf.argTag = "-".toList then some (m, st)
  else
    let tag := if rf.argTag = [] then ToLower lib rf.Name else Trim rf.argTag "-".toList
    if rf.Typ = GoType.time then some (m.set tag (rv.Field i rf), st)
    else if rf.Typ.Kind = Kind.Struct then
      match sub st (rv.Field i rf) with
      | none => none
      | some (xm, st1) =>
        if rf.Anonymous then some (mergePlain m xm, st1)
        else some (mergeTagged tag m xm, st1)
    else if rf.Typ.Kind = Kind.Ptr ∧ rf.Typ.Elem.Kind = Kind.Struct then
      let xv : Ref × Store :=
        match st.read (rv.Field i rf).loc with
        | some (Value.ptr (some a)) =>
          ({ typ := rf.Typ.Elem, loc := { obj := a, path := [] } }, st)
        | _ =>
          ({ typ := rf.Typ.Elem, loc := { obj := st.next, path := [] } },
            { st with next := st.next + 1 })
      match sub xv.2 xv.1 with
      | none => none
      | some (xm, st1) =>
        if rf.Anonymous then some (mergePlain m xm, st1)
        else some (mergeTagged tag m xm, st1)
    else some (m.set tag (rv.Field i rf), st)

/-- The loop `for i := 0; i < n; i++` of `makeArgMap` over the fields that remain,
the first of which has index `i`. -/
def fieldsLoop (lib : Lib) (sub : Store → Ref → Option (ArgMap × Store)) (rv : Ref) :
    List StructField → Nat → ArgMap → Store → Option (ArgMap × Store)
  | [], _, m, st => some (m, st)
  | rf :: rest, i, m, st =>
    match fieldStep lib sub rv i rf m st with
    | none => none
    | some (m1, st1) => fieldsLoop lib sub rv rest (i + 1) m1 st1

/-- The function `makeArgMap(rv)`: the mapping, and the store after the
allocations of `reflect.New`.  `fuel` bounds the depth of the recursion; `none`:
the recursion is deeper than `fuel`. -/
def makeArgMap (lib : Lib) (env : TypeEnv) : Nat → Store → Ref → Option (ArgMap × Store)
  | 0, _, _ => none
  | fuel + 1, st, rv =>
    fieldsLoop lib (fun st1 rv1 => makeArgMap lib env fuel st1 rv1) rv
      (fieldsOf env rv.typ) 0 [] st

/-! ## `parseArgs` -/

/-- What a call of `parseArgs` leaves: the error returned (`none` is `nil`) and the store. -/
structure Outcome where
  err : Option Err
  store : Store

/-- The normalized flag name of a token: `strings.Trim(strings.SplitN(a, "=", 2)[0], "-")`. -/
def flagOf (a : GoString) : GoString := Trim (SplitN2 '=' a).1 "-".toList

/-- The inner loop of the `Slice` case of `parseArgs`, from index `i` with the
values `vals` collected so far: the values and the index at which it stops.
`fuel` is the number of tokens from `i` on, `n - i`. -/
def collect (m : ArgMap) (args : List GoString) :
    Nat → Nat → List GoString → List GoString × Nat
  | 0, i, vals => (vals, i)
  | fuel + 1, i, vals =>
    match args[i]? with
    | none => (vals, i)
    | some a =>
      if HasPrefix a "-".toList ∧ (m.get (flagOf a)).isSome then (vals, i)
      else collect m args fuel (i + 1) (vals ++ [a])

/-- The loop `for i < n` of `parseArgs` from index `i`.  `fuel` bounds the number
of iterations; `none`: the loop needs more than `fuel` iterations. -/
def parseLoop (lib : Lib) (m : ArgMap) (args : List GoString) :
    Nat → Nat → Store → Option Outcome
  | fuel, i, st =>
    match args[i]? with
    | none => some { err := none, store := st }
    | some a =>
      match fuel with
      | 0 => none
      | fuel1 + 1 =>
        match m.get (flagOf a) with
        | none =>
          some { err := some (Err.errorf
                  ("Unknown arg '".toList ++ (SplitN2 '=' a).1 ++ "'".toList)),
                 store := st }
        | some rf =>
          match rf.typ.Kind with
          | Kind.Bool => parseLoop lib m args fuel1 (i + 1) (st.write rf.loc (Value.bool true))
          | Kind.Slice =>
            let vals0 : List GoString :=
              match (SplitN2 '=' a).2 with
              | some inl => Split inl ','
              | none => []
            let r := collect m args (args.length - (i + 1)) (i + 1) vals0
            match parseInto lib rf.typ r.1 with
            | Except.error err =>
              some { err := some (Err.wrap err ("error parsing arg ".toList ++ (SplitN2 '=' a).1 ++
                      " (".toList ++ Join r.1 " ".toList ++ ") into ".toList ++ rf.typ.typeName)),
                     store := st }
            | Except.ok v => parseLoop lib m args fuel1 r.2 (st.write rf.loc v)
          | _ =>
            let r : GoString × Nat :=
              match (SplitN2 '=' a).2 with
              | some inl => (inl, i + 1)
              | none =>
                match args[i + 1]? with
                | some nxt => (nxt, i + 2)
                | none => ([], i + 1)
            match parseInto lib rf.typ [r.1] with
            | Except.error err =>
              some { err := some (Err.wrap err ("error parsing arg ".toList ++ (SplitN2 '=' a).1 ++
                      " (".toList ++ r.1 ++ ") into ".toList ++ rf.typ.typeName)),
                     store := st }
            | Except.ok v => parseLoop lib m args fuel1 r.2 (st.write rf.loc v)

/-- The function `parseArgs(recv, args)`, where `recv` points to the record `rv`.
`fuel` bounds the depth of the recursion of `makeArgMap`; the loop over the tokens
gets one unit of fuel per token. -/
def parseArgs (lib : Lib) (env : TypeEnv) (fuel : Nat) (st : Store) (rv : Ref)
    (args : List GoString) : Option Outcome :=
  match makeArgMap lib env fuel st rv with
  | none => none
  | some (m, st1) => parseLoop lib m args args.length 0 st1

/-! ## The records of `argparse_test.go` -/

/-- An exported field. -/
def exported (name : String) (t : GoType) (tag : String) : StructField :=
  { Name := name.toList, PkgPath := [], Typ := t, argTag := tag.toList, Anonymous := false }

/-- The struct type `SubArgs` of the tests. -/
def subArgsFields : List StructField :=
  [ exported "Bool" GoType.bool "bool",
    exported "String" GoType.string "string",
    exported "Int" GoType.int "",
    exported "Uint16s" (GoType.slice GoType.uint16) "uints",
    exported "Float32s" (GoType.slice GoType.float32) "f32s" ]

/-- The struct type `Args` of the tests. -/
def argsFields : List StructField :=
  [ exported "Int8" GoType.int8 "i8",
    exported "Int16" GoType.int16 "i16",
    exported "Int32" GoType.int32 "i32",
    exported "Int64" GoType.int64 "i64",
    exported "Uint" GoType.uint "",
    exported "Uint8" GoType.uint8 "u8",
    exported "Uint16" GoType.uint16 "u16",
    exported "Uint32" GoType.uint32 "u32",
    exported "Uint64" GoType.uint64 "u64",
    exported "Float32" GoType.float32 "f32",
    exported "Float64" GoType.float64 "f",
    exported "String" GoType.string "string",
    exported "Strings" (GoType.slice GoType.string) "",
    exported "Ints" (GoType.slice GoType.int) "",
    exported "Sub" (GoType.struct "argparse.SubArgs".toList) "sub",
    exported "Ignored" GoType.string "-",
    { Name := "private".toList, PkgPath := "argparse".toList, Typ := GoType.string,
      argTag := "private".toList, Anonymous := false },
    exported "Map" (GoType.map GoType.string GoType.string) "map",
    exported "Subs" (GoType.slice (GoType.struct "argparse.SubArgs".toList)) "subs",
    exported "Times" (GoType.slice GoType.time) "times",
    exported "Time" GoType.time "time" ]

/-- The declarations of the tests. -/
def testEnv : TypeEnv := fun name =>
  if name = "argparse.Args".toList then argsFields
  else if name = "argparse.SubArgs".toList then subArgsFields
  else []

/-- The record `args := &Args` (all fields zero) of the tests is object 0. -/
def argsRef : Ref := { typ := GoType.struct "argparse.Args".toList, loc := { obj := 0, path := [] } }

/-- A store with one object, all of whose cells hold zero values. -/
def zeroStore : Store := { cells := fun _ => none, next := 1 }

/-! ## Named parts of `parseArgs` and their description -/

/-- The values collected by the `Slice` case of `parseArgs` for the flag token `a`
at index `i`, and the index at which the inner loop stops. -/
def sliceOperands (m : ArgMap) (args : List GoString) (i : Nat) (a : GoString) :
    List GoString × Nat :=
  collect m args (args.length - (i + 1)) (i + 1)
    (match (SplitN2 '=' a).2 with
     | some inl => Split inl ','
     | none => [])

/-- The value taken by the scalar case of `parseArgs` for the flag token `a` at
index `i`, and the index after it. -/
def scalarOperand (args : List GoString) (i : Nat) (a : GoString) : GoString × Nat :=
  match (SplitN2 '=' a).2 with
  | some inl => (inl, i + 1)
  | none =>
    match args[i + 1]? with
    | some nxt => (nxt, i + 2)
    | none => ([], i + 1)

/-- A token that ends the operands of a list flag: it starts with `-` and its flag
part, dashes stripped, is a key of the mapping. -/
def endsList (m : ArgMap) (a : GoString) : Bool :=
  HasPrefix a "-".toList && (m.get (flagOf a)).isSome

/-- The maximal run of tokens from index `i` on that do not end a list. -/
def listRun (m : ArgMap) (args : List GoString) (i : Nat) : List GoString :=
  (args.drop i).takeWhile (fun a => !endsList m a)

/-- The message of the error `parseArgs` returns when coercion of `vals` fails for
the flag part `p` and a target of type `t`. -/
def argErr (err : Err) (p : GoString) (vals : GoString) (t : GoType) : Err :=
  Err.wrap err ("error parsing arg ".toList ++ p ++ " (".toList ++ vals ++
    ") into ".toList ++ t.typeName)

/-- A library in which no time and no float parses; it serves to run the decoder
on concrete inputs without times and floats. -/
def nullLib : Lib :=
  { ParseInLocation := fun _ _ => none
    ParseFloat := fun _ => (0, some NumErrKind.ErrSyntax)
    toFloat32 := fun x => x
    Quote := fun s => s
    unicodeLower := fun c => c }

/-- The flag token with flag part `p` and, when `inl` is `some v`, the inline
value `v` after an `=`. -/
def token (p : GoString) (inl : Option GoString) : GoString :=
  match inl with
  | none => p
  | some v => p ++ '=' :: v

/-- The values that the inline part of a list flag contributes. -/
def inlineValues (inl : Option GoString) : List GoString :=
  match inl with
  | none => []
  | some v => Split v ','

/-- A binding of a mapping whose target is in object 0. -/
def leaf (key : String) (t : GoType) (path : List Nat) : GoString × Ref :=
  (key.toList, { typ := t, loc := { obj := 0, path := path } })

/-- The mapping of the record `Args` of the tests. -/
def argsMap : ArgMap :=
  [ leaf "time" GoType.time [20],
    leaf "times" (GoType.slice GoType.time) [19],
    leaf "subs" (GoType.slice (GoType.struct "argparse.SubArgs".toList)) [18],
    leaf "map" (GoType.map GoType.string GoType.string) [17],
    leaf "sub-bool" GoType.bool [14, 0],
    leaf "sub-string" GoType.string [14, 1],
    leaf "sub-int" GoType.int [14, 2],
    leaf "sub-uints" (GoType.slice GoType.uint16) [14, 3],
    leaf "sub-f32s" (GoType.slice GoType.float32) [14, 4],
    leaf "ints" (GoType.slice GoType.int) [13],
    leaf "strings" (GoType.slice GoType.string) [12],
    leaf "string" GoType.string [11],
    leaf "f" GoType.float64 [10],
    leaf "f32" GoType.float32 [9],
    leaf "u64" GoType.uint64 [8],
    leaf "u32" GoType.uint32 [7],
    leaf "u16" GoType.uint16 [6],
    leaf "u8" GoType.uint8 [5],
    leaf "uint" GoType.uint [4],
    leaf "i64" GoType.int64 [3],
    leaf "i32" GoType.int32 [2],
    leaf "i16" GoType.int16 [1],
    leaf "i8" GoType.int8 [0] ]

/-- The record `struct` with the fields `Nums []int` and `Other string` of the
example of a list flag followed by a negative number. -/
def numsFields : List StructField :=
  [ exported "Nums" (GoType.slice GoType.int) "",
    exported "Other" GoType.string "" ]

/-- The declarations of the example of `numsFields`. -/
def numsEnv : TypeEnv := fun name =>
  if name = "main.Opts".toList then numsFields else []

/-- The record of the example of `numsFields` is object 0. -/
def numsRef : Ref := { typ := GoType.struct "main.Opts".toList, loc := { obj := 0, path := [] } }

/-- The mapping of the record of `numsFields`. -/
def numsMap : ArgMap :=
  [ leaf "other" GoType.string [1],
    leaf "nums" (GoType.slice GoType.int) [0] ]

/-! ## Numerals -/

/-- The number that the digits `cs` denote in base `base`, continuing from `acc`. -/
def digitsValue (base : Nat) (cs : GoString) (acc : Nat) : Nat :=
  cs.foldl (fun a c => a * base + (digitOf c).getD 0) acc

/-- The signed integer types. -/
def signedTypes : List GoType :=
  [GoType.int, GoType.int8, GoType.int16, GoType.int32, GoType.int64]

/-- The unsigned integer types. -/
def unsignedTypes : List GoType :=
  [GoType.uint, GoType.uint8, GoType.uint16, GoType.uint32, GoType.uint64]

/-- The largest value of an integer type. -/
def GoType.maxValue (t : GoType) : Nat :=
  if t ∈ signedTypes then 2 ^ (t.bits - 1) - 1 else 2 ^ t.bits - 1

/-- The value `n` as a field of the integer type `t` holds it. -/
def numValue (t : GoType) (n : Nat) : Value :=
  if t ∈ signedTypes then Value.int (n : Int) else Value.uint n

/-- A record `struct` with one field `Sub *SubArgs`, tagged `sub`. -/
def ptrFields : List StructField :=
  [ exported "Sub" (GoType.ptr (GoType.struct "argparse.SubArgs".toList)) "sub" ]

/-- The declarations of the example of `ptrFields`. -/
def ptrEnv : TypeEnv := fun name =>
  if name = "main.Conf".toList then ptrFields else testEnv name

/-- The record of the example of `ptrFields` is object 0. -/
def ptrRef : Ref := { typ := GoType.struct "main.Conf".toList, loc := { obj := 0, path := [] } }

/-- The store in which the record of `ptrFields` has a nil `Sub`. -/
def nilStore : Store := zeroStore.write { obj := 0, path := [0] } (Value.ptr none)

/-- The store in which the `Sub` of the record of `ptrFields` points to object 1. -/
def setStore : Store :=
  { cells := (zeroStore.write { obj := 0, path := [0] } (Value.ptr (some 1))).cells, next := 2 }

/-- The mapping of the record of `ptrFields`: the fields of the `SubArgs` that is
object 1. -/
def ptrMap : ArgMap :=
  [ ("sub-bool".toList, { typ := GoType.bool, loc := { obj := 1, path := [0] } }),
    ("sub-string".toList, { typ := GoType.string, loc := { obj := 1, path := [1] } }),
    ("sub-int".toList, { typ := GoType.int, loc := { obj := 1, path := [2] } }),
    ("sub-uints".toList, { typ := GoType.slice GoType.uint16, loc := { obj := 1, path := [3] } }),
    ("sub-f32s".toList, { typ := GoType.slice GoType.float32, loc := { obj := 1, path := [4] } }) ]

/-- The keys of a mapping. -/
def ArgMap.keys (m : ArgMap) : List GoString := m.map Prod.fst

/-- The flag name that `makeArgMap` derives for a field: its tag without its leading
and trailing dashes, or the lower-cased identifier when it has no tag. -/
def flagName (lib : Lib) (rf : StructField) : GoString :=
  if rf.argTag = [] then ToLower lib rf.Name else Trim rf.argTag "-".toList

/-- A record `struct` with one named field `Sub` of the struct type `Inner`, which
has one field `Count int`; neither has a tag. -/
def countEnv : TypeEnv := fun name =>
  if name = "main.Outer".toList then [exported "Sub" (GoType.struct "main.Inner".toList) ""]
  else if name = "main.Inner".toList then [exported "Count" GoType.int ""]
  else []

/-- A record `struct` that embeds `SubArgs`. -/
def embedEnv : TypeEnv := fun name =>
  if name = "main.Embeds".toList then
    [ { Name := "SubArgs".toList, PkgPath := [], Typ := GoType.struct "argparse.SubArgs".toList,
        argTag := [], Anonymous := true } ]
  else testEnv name

/-- The record of type `main.Outer` of `countEnv` is object 0. -/
def countRef : Ref := { typ := GoType.struct "main.Outer".toList, loc := { obj := 0, path := [] } }

/-- The record of type `main.Embeds` of `embedEnv` is object 0. -/
def embedRef : Ref := { typ := GoType.struct "main.Embeds".toList, loc := { obj := 0, path := [] } }

/-! ## Flag occurrences -/

/-- What the flag token `a` followed by the tokens `post` takes: its target, the
values passed to coercion and the tokens that remain after it; `none` when the
token is not a known flag. -/
def occurrence (m : ArgMap) (a : GoString) (post : List GoString) :
    Option (Ref × List GoString × List GoString) :=
  match m.get (flagOf a) with
  | none => none
  | some rf =>
    if rf.typ.Kind = Kind.Bool then some (rf, [], post)
    else if rf.typ.Kind = Kind.Slice then
      some (rf, inlineValues (SplitN2 '=' a).2 ++ post.takeWhile (fun t => !endsList m t),
        post.dropWhile (fun t => !endsList m t))
    else
      match (SplitN2 '=' a).2, post with
      | some v, _ => some (rf, [v], post)
      | none, nxt :: rest => some (rf, [nxt], rest)
      | none, [] => some (rf, [[]], [])

/-- The value that an occurrence with target `rf` and values `vals` stores: `true`
for a boolean, else the values coerced to the type of the target. -/
def occurrenceValue (lib : Lib) (rf : Ref) (vals : List GoString) : Except Err Value :=
  if rf.typ.Kind = Kind.Bool then Except.ok (Value.bool true) else parseInto lib rf.typ vals

/-- The value that the flag occurrences of `args`, read from left to right, leave in
the cell `l`: the value of the last occurrence whose target is `l`, and `none` when
there is none.  It does not depend on the store.  `fuel` bounds the number of
occurrences. -/
def lastValue (lib : Lib) (m : ArgMap) (l : Loc) : Nat → List GoString → Option Value
  | 0, _ => none
  | _ + 1, [] => none
  | fuel + 1, a :: post =>
    match occurrence m a post with
    | none => none
    | some (rf, vals, rest) =>
      match occurrenceValue lib rf vals with
      | Except.error _ => none
      | Except.ok v =>
        match lastValue lib m l fuel rest with
        | some w => some w
        | none => if rf.loc = l then some v else none

/-! ## Errors of coercion -/

/-- The arity error of `parseInto` for `n` values. -/
def arityErr (n : Nat) : Err :=
  Err.errorf ("can't set a scalar to ".toList ++ Nat.toDigits 10 n ++ " values".toList)

/-- The cause of an error, as `errors.Cause` gives it: the innermost wrapped error. -/
def Err.cause : Err → Err
  | Err.wrap c _ => c.cause
  | e => e

/-- The error of `parseInto` for a target whose type it does not handle. -/
def unsupportedErr (t : GoType) : Err :=
  Err.errorf ("don't know how to parse into ".toList ++ t.typeName)

/-! ## Well-formed numerals -/

/-- The character `c` is a digit of the base. -/
def isDigitOf (base : Nat) (c : Char) : Bool :=
  match digitOf c with
  | some d => decide (d < base)
  | none => false

/-- The base that `parseInt` and `parseUint` select for an operand: 16 after a
leading `0x`, else 10. -/
def numeralBase (v : GoString) : Nat := if HasPrefix v "0x".toList then 16 else 10

/-- The part of an operand that is read in the selected base: what follows a
leading `0x`, else the whole operand. -/
def numeralBody (v : GoString) : GoString := if HasPrefix v "0x".toList then v.drop 2 else v

/-- A string without its leading sign, if it has one. -/
def dropSign : GoString → GoString
  | c :: cs => if c = '+' ∨ c = '-' then cs else c :: cs
  | [] => []

/-- An operand that is not a numeral for an unsigned kind: it has no digit or has a
character that is not a digit of the selected base. -/
def malformedUnsigned (v : GoString) : Prop :=
  numeralBody v = [] ∨ ∃ c ∈ numeralBody v, isDigitOf (numeralBase v) c = false

/-- An operand that is not a numeral for a signed kind: apart from one leading sign,
it has no digit or has a character that is not a digit of the selected base. -/
def malformedSigned (v : GoString) : Prop :=
  dropSign (numeralBody v) = [] ∨
    ∃ c ∈ dropSign (numeralBody v), isDigitOf (numeralBase v) c = false

/-! ## Rendering of integers -/

/-- The base-10 rendering of an integer, as `strconv.FormatInt(v, 10)` and
`strconv.FormatUint(v, 10)` give it: the decimal digits, after a `-` for a negative
value. -/
def formatInt : Int → GoString
  | Int.ofNat n => Nat.toDigits 10 n
  | Int.negSucc n => '-' :: Nat.toDigits 10 (n + 1)

/-- The smallest value of an integer type. -/
def GoType.minValue (t : GoType) : Int :=
  if t ∈ signedTypes then - 2 ^ (t.bits - 1) else 0

/-- The cell content for the integer `v` in a field of the integer type `t`. -/
def intValue (t : GoType) (v : Int) : Value :=
  if t ∈ signedTypes then Value.int v else Value.uint v.toNat

/-- A run of `k` dashes. -/
def dashes (k : Nat) : GoString := List.replicate k '-'

/-! ## The order of `range` over a map, and the reachable fields -/

/-- The function `makeArgMap` with the iteration order of `range` made explicit:
the loop `for k, v := range xm` over the mapping `xm` returned for the sub-record
`rv1` yields the bindings in the order `ord rv1 xm`. -/
def makeArgMapOrd (lib : Lib) (env : TypeEnv) (ord : Ref → ArgMap → List (GoString × Ref)) :
    Nat → Store → Ref → Option (ArgMap × Store)
  | 0, _, _ => none
  | fuel + 1, st, rv =>
    fieldsLoop lib
      (fun st1 rv1 =>
        match makeArgMapOrd lib env ord fuel st1 rv1 with
        | none => none
        | some r => some (ord rv1 r.1, r.2))
      rv (fieldsOf env rv.typ) 0 [] st

/-- The fields that the loop body of `makeArgMap` reaches through field `i` of `rv`,
each with the flag name it is written under, appended to `w` in the order of the
walk; `sub` lists the fields reached in a sub-record. -/
def reachStep (lib : Lib) (sub : Store → Ref → Option (List (GoString × Ref) × Store))
    (rv : Ref) (i : Nat) (rf : StructField) (w : List (GoString × Ref)) (st : Store) :
    Option (List (GoString × Ref) × Store) :=
  if rf.PkgPath ≠ [] then some (w, st)
  else if rf.argTag = "-".toList then some (w, st)
  else
    let tag := if rf.argTag = [] then ToLower lib rf.Name else Trim rf.argTag "-".toList
    if rf.Typ = GoType.time then some (w ++ [(tag, rv.Field i rf)], st)
    else if rf.Typ.Kind = Kind.Struct then
      match sub st (rv.Field i rf) with
      | none => none
      | some (xw, st1) =>
        if rf.Anonymous then some (w ++ xw, st1)
        else some (w ++ xw.map (fun kv => (tag ++ "-".toList ++ kv.1, kv.2)), st1)
    else if rf.Typ.Kind = Kind.Ptr ∧ rf.Typ.Elem.Kind = Kind.Struct then
      let xv : Ref × Store :=
        match st.read (rv.Field i rf).loc with
        | some (Value.ptr (some a)) =>
          ({ typ := rf.Typ.Elem, loc := { obj := a, path := [] } }, st)
        | _ =>
          ({ typ := rf.Typ.Elem, loc := { obj := st.next, path := [] } },
            { st with next := st.next + 1 })
      match sub xv.2 xv.1 with
      | none => none
      | some (xw, st1) =>
        if rf.Anonymous then some (w ++ xw, st1)
        else some (w ++ xw.map (fun kv => (tag ++ "-".toList ++ kv.1, kv.2)), st1)
    else some (w ++ [(tag, rv.Field i rf)], st)

/-- The fields reached through the fields that remain, the first of which has
index `i`. -/
def reachLoop (lib : Lib) (sub : Store → Ref → Option (List (GoString × Ref) × Store))
    (rv : Ref) :
    List StructField → Nat → List (GoString × Ref) → Store →
      Option (List (GoString × Ref) × Store)
  | [], _, w, st => some (w, st)
  | rf :: rest, i, w, st =>
    match reachStep lib sub rv i rf w st with
    | none => none
    | some (w1, st1) => reachLoop lib sub rv rest (i + 1) w1 st1

/-- The leaf fields reachable from the record `rv`, each with its flag name, in
depth-first field declaration order (a name can occur more than once), and the store
after the walk.  `fuel` bounds the depth. -/
def reachableFields (lib : Lib) (env : TypeEnv) :
    Nat → Store → Ref → Option (List (GoString × Ref) × Store)
  | 0, _, _ => none
  | fuel + 1, st, rv =>
    reachLoop lib (fun st1 rv1 => reachableFields lib env fuel st1 rv1) rv
      (fieldsOf env rv.typ) 0 [] st

/-- The field that comes last under the name `k` in the list `w`. -/
def lastWrite (w : List (GoString × Ref)) (k : GoString) : Option Ref := w.reverse.lookup k

/-- A record `struct` with two fields tagged `x`, and a record with a field tagged
`sub-int` after a field `Sub SubArgs` tagged `sub`, and one with these two fields in
the other order. -/
def dupEnv : TypeEnv := fun name =>
  if name = "main.Dup".toList then
    [ exported "A" GoType.int "x", exported "B" GoType.int "x" ]
  else if name = "main.SubFirst".toList then
    [ exported "Sub" (GoType.struct "argparse.SubArgs".toList) "sub",
      exported "Other" GoType.int "sub-int" ]
  else if name = "main.SubLast".toList then
    [ exported "Other" GoType.int "sub-int",
      exported "Sub" (GoType.struct "argparse.SubArgs".toList) "sub" ]
  else testEnv name

/-- The record of type `name`, as object 0. -/
def recordRef (name : String) : Ref :=
  { typ := GoType.struct name.toList, loc := { obj := 0, path := [] } }

/-! ## Record types that point to themselves -/

/-- The declarations `type Node struct { Next *Node }`, and
`type Ping struct { Pong *Pong }` with `type Pong struct { Ping *Ping }`. -/
def nodeEnv : TypeEnv := fun name =>
  if name = "main.Node".toList then
    [ exported "Next" (GoType.ptr (GoType.struct "main.Node".toList)) "" ]
  else if name = "main.Ping".toList then
    [ exported "Pong" (GoType.ptr (GoType.struct "main.Pong".toList)) "" ]
  else if name = "main.Pong".toList then
    [ exported "Ping" (GoType.ptr (GoType.struct "main.Ping".toList)) "" ]
  else []

/-! # Properties -/

/-! ## The loop of `parseArgs`, one iteration at a time -/

theorem parseLoop_done (lib : Lib) (m : ArgMap) (args : List GoString) (fuel i : Nat)
    (st : Store) (h : args[i]? = none) :
    parseLoop lib m args fuel i st = some { err := none, store := st } := by
  unfold parseLoop
  simp only [h]

theorem parseLoop_unknown (lib : Lib) (m : ArgMap) (args : List GoString) (fuel i : Nat)
    (st : Store) (a : GoString) (ha : args[i]? = some a) (hm : m.get (flagOf a) = none) :
    parseLoop lib m args (fuel + 1) i st =
      some { err := some (Err.errorf
               ("Unknown arg '".toList ++ (SplitN2 '=' a).1 ++ "'".toList)),
             store := st } := by
  rw [parseLoop]
  simp only [ha, hm]

theorem parseLoop_bool (lib : Lib) (m : ArgMap) (args : List GoString) (fuel i : Nat)
    (st : Store) (a : GoString) (rf : Ref) (ha : args[i]? = some a)
    (hm : m.get (flagOf a) = some rf) (hk : rf.typ.Kind = Kind.Bool) :
    parseLoop lib m args (fuel + 1) i st =
      parseLoop lib m args fuel (i + 1) (st.write rf.loc (Value.bool true)) := by
  rw [parseLoop]
  simp only [ha, hm, hk]

theorem parseLoop_slice (lib : Lib) (m : ArgMap) (args : List GoString) (fuel i : Nat)
    (st : Store) (a : GoString) (rf : Ref) (ha : args[i]? = some a)
    (hm : m.get (flagOf a) = some rf) (hk : rf.typ.Kind = Kind.Slice) :
    parseLoop lib m args (fuel + 1) i st =
      match parseInto lib rf.typ (sliceOperands m args i a).1 with
      | Except.error err =>
        some { err := some (argErr err (SplitN2 '=' a).1
                 (Join (sliceOperands m args i a).1 " ".toList) rf.typ),
               store := st }
      | Except.ok v =>
        parseLoop lib m args fuel (sliceOperands m args i a).2 (st.write rf.loc v) := by
  rw [parseLoop]
  simp only [ha, hm, hk, sliceOperands, argErr]

theorem parseLoop_scalar (lib : Lib) (m : ArgMap) (args : List GoString) (fuel i : Nat)
    (st : Store) (a : GoString) (rf : Ref) (ha : args[i]? = some a)
    (hm : m.get (flagOf a) = some rf) (hb : rf.typ.Kind ≠ Kind.Bool)
    (hs : rf.typ.Kind ≠ Kind.Slice) :
    parseLoop lib m args (fuel + 1) i st =
      match parseInto lib rf.typ [(scalarOperand args i a).1] with
      | Except.error err =>
        some { err := some (argErr err (SplitN2 '=' a).1 (scalarOperand args i a).1 rf.typ),
               store := st }
      | Except.ok v =>
        parseLoop lib m args fuel (scalarOperand args i a).2 (st.write rf.loc v) := by
  rw [parseLoop]
  simp only [ha, hm, scalarOperand, argErr]
/-! ## Strings -/

theorem SplitN2_of_not_mem (sep : Char) (a : GoString) (h : sep ∉ a) :
    SplitN2 sep a = (a, none) := by
  induction a with
  | nil => rfl
  | cons c cs ih =>
    have hc : c ≠ sep := fun e => h (by simp [e])
    have hcs : sep ∉ cs := fun e => h (by simp [e])
    simp [SplitN2, hc, ih hcs]

theorem SplitN2_append (sep : Char) (p r : GoString) (h : sep ∉ p) :
    SplitN2 sep (p ++ sep :: r) = (p, some r) := by
  induction p with
  | nil => simp [SplitN2]
  | cons c cs ih =>
    have hc : c ≠ sep := fun e => h (by simp [e])
    have hcs : sep ∉ cs := fun e => h (by simp [e])
    simp [SplitN2, hc, ih hcs]

theorem flagOf_of_not_mem (p : GoString) (h : '=' ∉ p) : flagOf p = Trim p "-".toList := by
  simp [flagOf, SplitN2_of_not_mem _ _ h]

theorem flagOf_append (p r : GoString) (h : '=' ∉ p) :
    flagOf (p ++ '=' :: r) = Trim p "-".toList := by
  simp [flagOf, SplitN2_append _ _ _ h]

theorem Trim_dashes (k : Nat) (f : GoString) (hh : f.head? ≠ some '-')
    (hl : f.getLast? ≠ some '-') :
    Trim (List.replicate k '-' ++ f) "-".toList = f := by
  have h1 : (List.replicate k '-' ++ f).dropWhile (fun c => "-".toList.contains c) = f := by
    induction k with
    | zero =>
      cases f with
      | nil => rfl
      | cons c cs =>
        have : c ≠ '-' := fun e => hh (by simp [e])
        simp [List.dropWhile, this]
    | succ k ih => simpa [List.replicate_succ, List.dropWhile] using ih
  have h2 : f.reverse.dropWhile (fun c => "-".toList.contains c) = f.reverse := by
    cases hr : f.reverse with
    | nil => rfl
    | cons c cs =>
      have hlast : f.getLast? = some c := by
        rw [List.getLast?_eq_head?_reverse, hr]; rfl
      have : c ≠ '-' := fun e => hl (by rw [hlast, e])
      simp [List.dropWhile, this]
  unfold Trim
  rw [h1, h2, List.reverse_reverse]

/-! ## The inner loop of the `Slice` case -/

theorem collect_eq (m : ArgMap) (args : List GoString) :
    ∀ (fuel i : Nat) (vals : List GoString), args.length - i ≤ fuel →
      collect m args fuel i vals =
        (vals ++ listRun m args i, i + (listRun m args i).length) := by
  intro fuel
  induction fuel with
  | zero =>
    intro i vals h
    have hi : args.length ≤ i := by omega
    simp [collect, listRun, List.drop_eq_nil_of_le hi]
  | succ fuel ih =>
    intro i vals h
    by_cases hi : i < args.length
    · have hd : args.drop i = args[i] :: args.drop (i + 1) := List.drop_eq_getElem_cons hi
      have hget : args[i]? = some args[i] := List.getElem?_eq_getElem hi
      rw [collect]
      simp only [hget]
      by_cases hb : endsList m args[i] = true
      · have hb1 := hb
        simp only [endsList, Bool.and_eq_true] at hb1
        have hrun : listRun m args i = [] := by
          rw [listRun, hd, List.takeWhile_cons]
          simp [hb]
        rw [if_pos hb1, hrun]
        simp
      · have hb1 := hb
        simp only [endsList, Bool.and_eq_true, not_and] at hb1
        have hcond : ¬ (HasPrefix args[i] "-".toList = true ∧
            (m.get (flagOf args[i])).isSome = true) := fun hc => hb1 hc.1 hc.2
        rw [if_neg hcond, ih (i + 1) (vals ++ [args[i]]) (by omega)]
        have hrun : listRun m args i = args[i] :: listRun m args (i + 1) := by
          rw [listRun, hd, List.takeWhile_cons]
          simp [hb, listRun]
        rw [hrun]
        simp [Nat.add_assoc, Nat.add_comm]
    · have hi1 : args.length ≤ i := by omega
      have hget : args[i]? = none := List.getElem?_eq_none hi1
      rw [collect]
      simp [hget, listRun, List.drop_eq_nil_of_le hi1]

theorem sliceOperands_eq (m : ArgMap) (args : List GoString) (i : Nat) (a : GoString) :
    sliceOperands m args i a =
      ((match (SplitN2 '=' a).2 with
        | some inl => Split inl ','
        | none => []) ++ listRun m args (i + 1),
       i + 1 + (listRun m args (i + 1)).length) := by
  unfold sliceOperands
  rw [collect_eq m args _ _ _ (le_refl _)]

theorem parseLoop_zero (lib : Lib) (m : ArgMap) (args : List GoString) (i : Nat)
    (st : Store) (a : GoString) (ha : args[i]? = some a) :
    parseLoop lib m args 0 i st = none := by
  rw [parseLoop]
  simp only [ha]

theorem getElem?_shift (pre rest : List GoString) (j : Nat) :
    (pre ++ rest)[pre.length + j]? = rest[j]? := by
  rw [List.getElem?_append_right (by omega)]
  congr 1
  omega

theorem listRun_shift (m : ArgMap) (pre rest : List GoString) (j : Nat) :
    listRun m (pre ++ rest) (pre.length + j) = listRun m rest j := by
  unfold listRun
  rw [← List.drop_drop, List.drop_left]

theorem sliceOperands_shift (m : ArgMap) (pre rest : List GoString) (j : Nat) (a : GoString) :
    sliceOperands m (pre ++ rest) (pre.length + j) a =
      ((sliceOperands m rest j a).1, pre.length + (sliceOperands m rest j a).2) := by
  rw [sliceOperands_eq, sliceOperands_eq, Nat.add_assoc, listRun_shift]
  simp [Nat.add_assoc]

theorem scalarOperand_shift (pre rest : List GoString) (j : Nat) (a : GoString) :
    scalarOperand (pre ++ rest) (pre.length + j) a =
      ((scalarOperand rest j a).1, pre.length + (scalarOperand rest j a).2) := by
  unfold scalarOperand
  rw [Nat.add_assoc, getElem?_shift]
  cases (SplitN2 '=' a).2 with
  | some inl => simp [Nat.add_assoc]
  | none =>
    cases rest[j + 1]? with
    | some nxt => simp [Nat.add_assoc]
    | none => simp [Nat.add_assoc]

/-- The loop from an index on only depends on the tokens from that index on. -/
theorem parseLoop_shift (lib : Lib) (m : ArgMap) (pre rest : List GoString) :
    ∀ (fuel j : Nat) (st : Store),
      parseLoop lib m (pre ++ rest) fuel (pre.length + j) st = parseLoop lib m rest fuel j st := by
  intro fuel
  induction fuel with
  | zero =>
    intro j st
    cases hj : rest[j]? with
    | none =>
      rw [parseLoop_done _ _ _ _ _ _ hj,
        parseLoop_done _ _ _ _ _ _ ((getElem?_shift pre rest j).trans hj)]
    | some a =>
      rw [parseLoop_zero _ _ _ _ _ a hj,
        parseLoop_zero _ _ _ _ _ a ((getElem?_shift pre rest j).trans hj)]
  | succ fuel ih =>
    intro j st
    cases hj : rest[j]? with
    | none =>
      rw [parseLoop_done _ _ _ _ _ _ hj,
        parseLoop_done _ _ _ _ _ _ ((getElem?_shift pre rest j).trans hj)]
    | some a =>
      have hj1 := (getElem?_shift pre rest j).trans hj
      cases hm : m.get (flagOf a) with
      | none =>
        rw [parseLoop_unknown _ _ _ _ _ _ a hj hm, parseLoop_unknown _ _ _ _ _ _ a hj1 hm]
      | some rf =>
        by_cases hb : rf.typ.Kind = Kind.Bool
        · rw [parseLoop_bool _ _ _ _ _ _ a rf hj hm hb, parseLoop_bool _ _ _ _ _ _ a rf hj1 hm hb,
            Nat.add_assoc, ih]
        · by_cases hs : rf.typ.Kind = Kind.Slice
          · rw [parseLoop_slice _ _ _ _ _ _ a rf hj hm hs,
              parseLoop_slice _ _ _ _ _ _ a rf hj1 hm hs, sliceOperands_shift]
            cases parseInto lib rf.typ (sliceOperands m rest j a).1 with
            | error err => rfl
            | ok v => exact ih _ _
          · rw [parseLoop_scalar _ _ _ _ _ _ a rf hj hm hb hs,
              parseLoop_scalar _ _ _ _ _ _ a rf hj1 hm hb hs, scalarOperand_shift]
            cases parseInto lib rf.typ [(scalarOperand rest j a).1] with
            | error err => rfl
            | ok v => exact ih _ _

/-! ## The loop of `parseArgs` on a token list split at the current flag -/

theorem SplitN2_token (p : GoString) (inl : Option GoString) (hp : '=' ∉ p) :
    SplitN2 '=' (token p inl) = (p, inl) := by
  cases inl with
  | none => exact SplitN2_of_not_mem _ _ hp
  | some v => exact SplitN2_append _ _ _ hp

theorem flagOf_token (p : GoString) (inl : Option GoString) (hp : '=' ∉ p) :
    flagOf (token p inl) = Trim p "-".toList := by
  simp [flagOf, SplitN2_token p inl hp]

theorem getElem?_at (pre post : List GoString) (a : GoString) :
    (pre ++ a :: post)[pre.length]? = some a := by
  have h := getElem?_shift pre (a :: post) 0
  simpa using h

theorem parseLoop_after (lib : Lib) (m : ArgMap) (pre post : List GoString) (fuel : Nat)
    (st : Store) :
    parseLoop lib m (pre ++ post) fuel pre.length st = parseLoop lib m post fuel 0 st := by
  have h := parseLoop_shift lib m pre post fuel 0 st
  simpa using h

theorem parseLoop_at_unknown (lib : Lib) (m : ArgMap) (pre post : List GoString) (fuel : Nat)
    (st : Store) (p : GoString) (inl : Option GoString) (hp : '=' ∉ p)
    (hm : m.get (Trim p "-".toList) = none) :
    parseLoop lib m (pre ++ token p inl :: post) (fuel + 1) pre.length st =
      some { err := some (Err.errorf ("Unknown arg '".toList ++ p ++ "'".toList)),
             store := st } := by
  rw [parseLoop_unknown lib m _ fuel _ st (token p inl) (getElem?_at _ _ _)
    (by rw [flagOf_token p inl hp]; exact hm), SplitN2_token p inl hp]

theorem parseLoop_at_bool (lib : Lib) (m : ArgMap) (pre post : List GoString) (fuel : Nat)
    (st : Store) (p : GoString) (inl : Option GoString) (rf : Ref) (hp : '=' ∉ p)
    (hm : m.get (Trim p "-".toList) = some rf) (hk : rf.typ.Kind = Kind.Bool) :
    parseLoop lib m (pre ++ token p inl :: post) (fuel + 1) pre.length st =
      parseLoop lib m post fuel 0 (st.write rf.loc (Value.bool true)) := by
  rw [parseLoop_bool lib m _ fuel _ st (token p inl) rf (getElem?_at _ _ _)
    (by rw [flagOf_token p inl hp]; exact hm) hk]
  have h := parseLoop_after lib m (pre ++ [token p inl]) post fuel
    (st.write rf.loc (Value.bool true))
  simpa using h

theorem parseLoop_at_slice (lib : Lib) (m : ArgMap) (pre post : List GoString) (fuel : Nat)
    (st : Store) (p : GoString) (inl : Option GoString) (rf : Ref) (hp : '=' ∉ p)
    (hm : m.get (Trim p "-".toList) = some rf) (hk : rf.typ.Kind = Kind.Slice) :
    parseLoop lib m (pre ++ token p inl :: post) (fuel + 1) pre.length st =
      match parseInto lib rf.typ
          (inlineValues inl ++ post.takeWhile (fun a => !endsList m a)) with
      | Except.error err =>
        some { err := some (argErr err p
                 (Join (inlineValues inl ++ post.takeWhile (fun a => !endsList m a))
                   " ".toList) rf.typ),
               store := st }
      | Except.ok v =>
        parseLoop lib m (post.dropWhile (fun a => !endsList m a)) fuel 0
          (st.write rf.loc v) := by
  have hrun : listRun m (pre ++ token p inl :: post) (pre.length + 1) =
      post.takeWhile (fun a => !endsList m a) := by
    unfold listRun
    have : pre ++ token p inl :: post = (pre ++ [token p inl]) ++ post := by simp
    rw [this]
    have hl : pre.length + 1 = (pre ++ [token p inl]).length := by simp
    rw [hl, List.drop_left]
  have hops : sliceOperands m (pre ++ token p inl :: post) pre.length (token p inl) =
      (inlineValues inl ++ post.takeWhile (fun a => !endsList m a),
        pre.length + 1 + (post.takeWhile (fun a => !endsList m a)).length) := by
    rw [sliceOperands_eq, hrun, SplitN2_token p inl hp]
    cases inl <;> rfl
  rw [parseLoop_slice lib m _ fuel _ st (token p inl) rf (getElem?_at _ _ _)
    (by rw [flagOf_token p inl hp]; exact hm) hk, hops, SplitN2_token p inl hp]
  cases parseInto lib rf.typ
      (inlineValues inl ++ post.takeWhile (fun a => !endsList m a)) with
  | error err => rfl
  | ok v =>
    have h := parseLoop_after lib m
      (pre ++ token p inl :: post.takeWhile (fun a => !endsList m a))
      (post.dropWhile (fun a => !endsList m a)) fuel (st.write rf.loc v)
    simp only [List.append_assoc, List.cons_append, List.takeWhile_append_dropWhile,
      List.length_append, List.length_cons] at h
    simpa [Nat.add_assoc, Nat.add_comm, Nat.add_left_comm] using h

theorem parseLoop_at_inline (lib : Lib) (m : ArgMap) (pre post : List GoString) (fuel : Nat)
    (st : Store) (p v : GoString) (rf : Ref) (hp : '=' ∉ p)
    (hm : m.get (Trim p "-".toList) = some rf) (hb : rf.typ.Kind ≠ Kind.Bool)
    (hs : rf.typ.Kind ≠ Kind.Slice) :
    parseLoop lib m (pre ++ token p (some v) :: post) (fuel + 1) pre.length st =
      match parseInto lib rf.typ [v] with
      | Except.error err => some { err := some (argErr err p v rf.typ), store := st }
      | Except.ok x => parseLoop lib m post fuel 0 (st.write rf.loc x) := by
  rw [parseLoop_scalar lib m _ fuel _ st (token p (some v)) rf (getElem?_at _ _ _)
    (by rw [flagOf_token p _ hp]; exact hm) hb hs]
  simp only [scalarOperand, SplitN2_token p (some v) hp]
  cases parseInto lib rf.typ [v] with
  | error err => rfl
  | ok x =>
    have h := parseLoop_after lib m (pre ++ [token p (some v)]) post fuel (st.write rf.loc x)
    simpa using h

theorem parseLoop_at_next (lib : Lib) (m : ArgMap) (pre post : List GoString) (fuel : Nat)
    (st : Store) (p nxt : GoString) (rf : Ref) (hp : '=' ∉ p)
    (hm : m.get (Trim p "-".toList) = some rf) (hb : rf.typ.Kind ≠ Kind.Bool)
    (hs : rf.typ.Kind ≠ Kind.Slice) :
    parseLoop lib m (pre ++ token p none :: nxt :: post) (fuel + 1) pre.length st =
      match parseInto lib rf.typ [nxt] with
      | Except.error err => some { err := some (argErr err p nxt rf.typ), store := st }
      | Except.ok x => parseLoop lib m post fuel 0 (st.write rf.loc x) := by
  rw [parseLoop_scalar lib m _ fuel _ st (token p none) rf (getElem?_at _ _ _)
    (by rw [flagOf_token p _ hp]; exact hm) hb hs]
  have hn : (pre ++ token p none :: nxt :: post)[pre.length + 1]? = some nxt := by
    have h := getElem?_at (pre ++ [token p none]) post nxt
    simpa using h
  simp only [scalarOperand, SplitN2_token p none hp, hn]
  cases parseInto lib rf.typ [nxt] with
  | error err => rfl
  | ok x =>
    have h := parseLoop_after lib m (pre ++ [token p none, nxt]) post fuel (st.write rf.loc x)
    simpa using h

theorem parseLoop_at_last (lib : Lib) (m : ArgMap) (pre : List GoString) (fuel : Nat)
    (st : Store) (p : GoString) (rf : Ref) (hp : '=' ∉ p)
    (hm : m.get (Trim p "-".toList) = some rf) (hb : rf.typ.Kind ≠ Kind.Bool)
    (hs : rf.typ.Kind ≠ Kind.Slice) :
    parseLoop lib m (pre ++ [token p none]) (fuel + 1) pre.length st =
      match parseInto lib rf.typ [[]] with
      | Except.error err => some { err := some (argErr err p [] rf.typ), store := st }
      | Except.ok x => some { err := none, store := st.write rf.loc x } := by
  rw [parseLoop_scalar lib m _ fuel _ st (token p none) rf (getElem?_at _ _ _)
    (by rw [flagOf_token p _ hp]; exact hm) hb hs]
  have hn : (pre ++ [token p none])[pre.length + 1]? = none := by
    simp
  simp only [scalarOperand, SplitN2_token p none hp, hn]
  cases parseInto lib rf.typ [[]] with
  | error err => rfl
  | ok x =>
    exact parseLoop_done _ _ _ _ _ _ hn

/-! ## The mappings of the example records -/

set_option maxHeartbeats 1000000 in
theorem makeArgMap_args (lib : Lib) (st : Store) :
    makeArgMap lib testEnv 2 st argsRef = some (argsMap, st) := by
  simp [makeArgMap, fieldsOf, testEnv, argsFields, subArgsFields, fieldsLoop, fieldStep,
    exported, ArgMap.set, mergeTagged, mergePlain, ToLower, asciiLower, Trim, argsRef,
    Ref.Field, GoType.Kind, argsMap, leaf]

theorem makeArgMap_nums (lib : Lib) (st : Store) :
    makeArgMap lib numsEnv 1 st numsRef = some (numsMap, st) := by
  rfl

/-! ## C1 -/

/-- C1: when `parseArgs` processes a list-typed flag, the values it collects are the
inline value split on `,` (when the token has an `=`) followed by the maximal run
`run` of the tokens that follow: no token of `run` both starts with `-` and has a
flag part (the text before the first `=`, dashes stripped) that is a key of the
mapping, and `run` ends at the end of the input or before the first such token,
where decoding resumes.  A dash-prefixed token that is not a known flag is kept.
With `nums` a list of int and `other` a string, the tokens
`--nums -5 10 --other x` give `nums = [-5, 10]` and `other = "x"`. -/
theorem list_flag_operands (lib : Lib) (m : ArgMap) (pre post : List GoString) (fuel : Nat)
    (st : Store) (p : GoString) (inl : Option GoString) (rf : Ref) (hp : '=' ∉ p)
    (hm : m.get (Trim p "-".toList) = some rf) (hk : rf.typ.Kind = Kind.Slice) :
    (∃ run rest : List GoString, post = run ++ rest ∧
      (∀ t ∈ run, ¬ (HasPrefix t "-".toList = true ∧ (m.get (flagOf t)).isSome = true)) ∧
      (rest = [] ∨ ∃ t rest1, rest = t :: rest1 ∧ HasPrefix t "-".toList = true ∧
        (m.get (flagOf t)).isSome = true) ∧
      parseLoop lib m (pre ++ token p inl :: post) (fuel + 1) pre.length st =
        match parseInto lib rf.typ (inlineValues inl ++ run) with
        | Except.error err =>
          some { err := some (argErr err p (Join (inlineValues inl ++ run) " ".toList) rf.typ),
                 store := st }
        | Except.ok v => parseLoop lib m rest fuel 0 (st.write rf.loc v)) ∧
    (∀ st0 : Store,
      parseArgs lib numsEnv 1 st0 numsRef
          ["--nums".toList, "-5".toList, "10".toList, "--other".toList, "x".toList] =
        some { err := none,
               store := (st0.write { obj := 0, path := [0] }
                   (Value.slice [Value.int (-5), Value.int 10])).write
                 { obj := 0, path := [1] } (Value.str "x".toList) }) := by
  refine ⟨⟨post.takeWhile (fun a => !endsList m a), post.dropWhile (fun a => !endsList m a),
    (List.takeWhile_append_dropWhile _ _).symm, ?_, ?_,
    parseLoop_at_slice lib m pre post fuel st p inl rf hp hm hk⟩, ?_⟩
  · intro t ht hc
    have h := List.mem_takeWhile_imp ht
    have he : endsList m t = true := by
      unfold endsList
      rw [hc.1, hc.2]
      rfl
    rw [he] at h
    exact absurd h (by decide)
  · cases hd : post.dropWhile (fun a => !endsList m a) with
    | nil => exact Or.inl rfl
    | cons t rest1 =>
      refine Or.inr ⟨t, rest1, rfl, ?_⟩
      have h := List.head_dropWhile_not (fun a => !endsList m a) post
      simp only [hd] at h
      have h2 := h (by simp)
      simp only [List.head_cons] at h2
      cases he : endsList m t with
      | false => rw [he] at h2; exact absurd h2 (by decide)
      | true =>
        unfold endsList at he
        exact (Bool.and_eq_true _ _).mp he
  · intro st0
    unfold parseArgs
    rw [makeArgMap_nums]
    rfl

/-- The hypotheses of `list_flag_operands` hold for the flag `--sub-uints=1,2` of the
record `Args` followed by `-3`, `4` and `--i8`. -/
theorem list_flag_operands_witness :
    '=' ∉ "--sub-uints".toList ∧
    argsMap.get (Trim "--sub-uints".toList "-".toList) =
      some (leaf "sub-uints" (GoType.slice GoType.uint16) [14, 3]).2 ∧
    (leaf "sub-uints" (GoType.slice GoType.uint16) [14, 3]).2.typ.Kind = Kind.Slice ∧
    ∃ run rest : List GoString,
      ["-3".toList, "4".toList, "--i8".toList, "5".toList] = run ++ rest ∧
      (∀ t ∈ run, ¬ (HasPrefix t "-".toList = true ∧ (argsMap.get (flagOf t)).isSome = true)) ∧
      (rest = [] ∨ ∃ t rest1, rest = t :: rest1 ∧ HasPrefix t "-".toList = true ∧
        (argsMap.get (flagOf t)).isSome = true) ∧
      parseLoop nullLib argsMap
          ([] ++ token "--sub-uints".toList (some "1,2".toList) ::
            ["-3".toList, "4".toList, "--i8".toList, "5".toList]) (4 + 1)
          ([] : List GoString).length zeroStore =
        match parseInto nullLib (leaf "sub-uints" (GoType.slice GoType.uint16) [14, 3]).2.typ
            (inlineValues (some "1,2".toList) ++ run) with
        | Except.error err =>
          some { err := some (argErr err "--sub-uints".toList
                   (Join (inlineValues (some "1,2".toList) ++ run) " ".toList)
                   (leaf "sub-uints" (GoType.slice GoType.uint16) [14, 3]).2.typ),
                 store := zeroStore }
        | Except.ok v =>
          parseLoop nullLib argsMap rest 4 0
            (zeroStore.write (leaf "sub-uints" (GoType.slice GoType.uint16) [14, 3]).2.loc v) :=
  ⟨by decide, by decide!, rfl,
    (list_flag_operands nullLib argsMap [] ["-3".toList, "4".toList, "--i8".toList, "5".toList]
      4 zeroStore "--sub-uints".toList (some "1,2".toList)
      (leaf "sub-uints" (GoType.slice GoType.uint16) [14, 3]).2
      (by decide) (by decide!) rfl).1⟩

/-! ## C2 -/

/-- C2: for a flag whose target is neither a boolean nor a list (string, signed or
unsigned integer, float, timestamp), the value passed to `parseInto` is the inline
value when the token has an `=`, and decoding resumes at the next token; otherwise
it is the next token, verbatim whatever it is, and decoding resumes after it;
with neither it is the empty string, so that a string flag given as the last token
is set to the empty string and decoding succeeds.  For `Args`, `--string --i8`
stores `--i8` in `String`. -/
theorem scalar_flag_operand (lib : Lib) (m : ArgMap) (pre : List GoString) (fuel : Nat)
    (st : Store) (p : GoString) (rf : Ref) (hp : '=' ∉ p)
    (hm : m.get (Trim p "-".toList) = some rf) (hb : rf.typ.Kind ≠ Kind.Bool)
    (hs : rf.typ.Kind ≠ Kind.Slice) :
    (∀ (v : GoString) (post : List GoString),
      parseLoop lib m (pre ++ (p ++ '=' :: v) :: post) (fuel + 1) pre.length st =
        match parseInto lib rf.typ [v] with
        | Except.error err => some { err := some (argErr err p v rf.typ), store := st }
        | Except.ok x => parseLoop lib m post fuel 0 (st.write rf.loc x)) ∧
    (∀ (nxt : GoString) (post : List GoString),
      parseLoop lib m (pre ++ p :: nxt :: post) (fuel + 1) pre.length st =
        match parseInto lib rf.typ [nxt] with
        | Except.error err => some { err := some (argErr err p nxt rf.typ), store := st }
        | Except.ok x => parseLoop lib m post fuel 0 (st.write rf.loc x)) ∧
    (parseLoop lib m (pre ++ [p]) (fuel + 1) pre.length st =
        match parseInto lib rf.typ [[]] with
        | Except.error err => some { err := some (argErr err p [] rf.typ), store := st }
        | Except.ok x => some { err := none, store := st.write rf.loc x }) ∧
    (rf.typ = GoType.string →
      parseLoop lib m (pre ++ [p]) (fuel + 1) pre.length st =
        some { err := none, store := st.write rf.loc (Value.str []) }) ∧
    (∀ st0 : Store,
      parseArgs lib testEnv 2 st0 argsRef ["--string".toList, "--i8".toList] =
        some { err := none,
               store := st0.write { obj := 0, path := [11] } (Value.str "--i8".toList) }) := by
  refine ⟨fun v post => parseLoop_at_inline lib m pre post fuel st p v rf hp hm hb hs,
    fun nxt post => parseLoop_at_next lib m pre post fuel st p nxt rf hp hm hb hs,
    parseLoop_at_last lib m pre fuel st p rf hp hm hb hs, ?_, ?_⟩
  · intro ht
    have h := parseLoop_at_last lib m pre fuel st p rf hp hm hb hs
    rw [ht] at h
    exact h
  · intro st0
    unfold parseArgs
    rw [makeArgMap_args]
    rfl

/-- The hypotheses of `scalar_flag_operand` hold for the flag `--string` of the
record `Args`; given last, it sets the field to the empty string. -/
theorem scalar_flag_operand_witness :
    '=' ∉ "--string".toList ∧
    argsMap.get (Trim "--string".toList "-".toList) = some (leaf "string" GoType.string [11]).2 ∧
    (leaf "string" GoType.string [11]).2.typ.Kind ≠ Kind.Bool ∧
    (leaf "string" GoType.string [11]).2.typ.Kind ≠ Kind.Slice ∧
    parseLoop nullLib argsMap ([] ++ ["--string".toList]) (0 + 1) ([] : List GoString).length
        zeroStore =
      some { err := none,
             store := zeroStore.write (leaf "string" GoType.string [11]).2.loc (Value.str []) } :=
  ⟨by decide, by decide!, by decide, by decide,
    (scalar_flag_operand nullLib argsMap [] 0 zeroStore "--string".toList
      (leaf "string" GoType.string [11]).2 (by decide) (by decide!) (by decide)
      (by decide)).2.2.2.1 rfl⟩

/-! ## C3 -/

/-- C3: when `parseArgs` reaches a flag token whose normalized name is not a key of
the mapping, it returns at once the error `Unknown arg '<flag part>'` (the flag
part as typed, dashes kept, inline value dropped) and the record is the one the
earlier tokens produced: unchanged for `--nope=1` alone, and with `Int8 = 1`
retained for `--i8=1 --nope=1`. -/
theorem unknown_flag_error (lib : Lib) (m : ArgMap) (pre post : List GoString) (fuel : Nat)
    (st : Store) (p : GoString) (inl : Option GoString) (hp : '=' ∉ p)
    (hm : m.get (Trim p "-".toList) = none) :
    parseLoop lib m (pre ++ token p inl :: post) (fuel + 1) pre.length st =
      some { err := some (Err.errorf ("Unknown arg '".toList ++ p ++ "'".toList)),
             store := st } ∧
    (∀ st0 : Store,
      parseArgs lib testEnv 2 st0 argsRef ["--nope=1".toList] =
        some { err := some (Err.errorf "Unknown arg '--nope'".toList), store := st0 }) ∧
    (∀ st0 : Store,
      parseArgs lib testEnv 2 st0 argsRef ["--i8=1".toList, "--nope=1".toList] =
        some { err := some (Err.errorf "Unknown arg '--nope'".toList),
               store := st0.write { obj := 0, path := [0] } (Value.int 1) }) := by
  refine ⟨parseLoop_at_unknown lib m pre post fuel st p inl hp hm, ?_, ?_⟩
  · intro st0
    unfold parseArgs
    rw [makeArgMap_args]
    rfl
  · intro st0
    unfold parseArgs
    rw [makeArgMap_args]
    rfl

/-- The hypotheses of `unknown_flag_error` hold for the token `--junk=10` of the
tests and the record `Args`. -/
theorem unknown_flag_error_witness :
    '=' ∉ "--junk".toList ∧
    argsMap.get (Trim "--junk".toList "-".toList) = none ∧
    parseLoop nullLib argsMap ([] ++ token "--junk".toList (some "10".toList) :: [])
        (0 + 1) ([] : List GoString).length zeroStore =
      some { err := some (Err.errorf ("Unknown arg '".toList ++ "--junk".toList ++ "'".toList)),
             store := zeroStore } :=
  ⟨by decide, by decide!,
    (unknown_flag_error nullLib argsMap [] [] 0 zeroStore "--junk".toList (some "10".toList)
      (by decide) (by decide!)).1⟩

/-! ## C9 -/

/-- C9: a flag token whose target is a boolean sets the field to true and consumes
that token only: decoding resumes at the token that follows, which is processed
as a flag token; the inline value, if any, is discarded, so that the outcome with
`--f=v` is the outcome with `--f`.  This holds in particular for the tokens made
of dashes, a key `f` of the mapping and, optionally, `=` and any string.  In the
tests, `-sub-bool -sub-string=foo` sets `Sub.Bool` and then `Sub.String`. -/
theorem bool_flag_sets_true (lib : Lib) (m : ArgMap) (pre post : List GoString) (fuel : Nat)
    (st : Store) (p : GoString) (inl : Option GoString) (rf : Ref) (hp : '=' ∉ p)
    (hm : m.get (Trim p "-".toList) = some rf) (hk : rf.typ.Kind = Kind.Bool) :
    parseLoop lib m (pre ++ token p inl :: post) (fuel + 1) pre.length st =
      parseLoop lib m post fuel 0 (st.write rf.loc (Value.bool true)) ∧
    parseLoop lib m (pre ++ token p inl :: post) (fuel + 1) pre.length st =
      parseLoop lib m (pre ++ p :: post) (fuel + 1) pre.length st ∧
    (∀ (f : GoString) (k : Nat) (v : Option GoString) (r : Ref), '=' ∉ f →
      f.head? ≠ some '-' → f.getLast? ≠ some '-' → m.get f = some r →
      r.typ.Kind = Kind.Bool →
      parseLoop lib m (pre ++ token (List.replicate k '-' ++ f) v :: post) (fuel + 1)
          pre.length st =
        parseLoop lib m post fuel 0 (st.write r.loc (Value.bool true))) ∧
    (∀ st0 : Store,
      parseArgs lib testEnv 2 st0 argsRef ["-sub-bool".toList, "-sub-string=foo".toList] =
        some { err := none,
               store := (st0.write { obj := 0, path := [14, 0] } (Value.bool true)).write
                 { obj := 0, path := [14, 1] } (Value.str "foo".toList) }) := by
  refine ⟨parseLoop_at_bool lib m pre post fuel st p inl rf hp hm hk, ?_, ?_, ?_⟩
  · rw [parseLoop_at_bool lib m pre post fuel st p inl rf hp hm hk]
    exact (parseLoop_at_bool lib m pre post fuel st p none rf hp hm hk).symm
  · intro f k v r hf hh hl hr hrk
    have hpf : '=' ∉ List.replicate k '-' ++ f := by
      intro hmem
      rcases List.mem_append.mp hmem with h1 | h1
      · exact absurd (List.eq_of_mem_replicate h1) (by decide)
      · exact hf h1
    exact parseLoop_at_bool lib m pre post fuel st _ v r hpf
      (by rw [Trim_dashes k f hh hl]; exact hr) hrk
  · intro st0
    unfold parseArgs
    rw [makeArgMap_args]
    rfl

/-- The hypotheses of `bool_flag_sets_true` hold for the flag `-sub-bool` of the
record `Args`. -/
theorem bool_flag_sets_true_witness :
    '=' ∉ "-sub-bool".toList ∧
    argsMap.get (Trim "-sub-bool".toList "-".toList) = some (leaf "sub-bool" GoType.bool [14, 0]).2 ∧
    (leaf "sub-bool" GoType.bool [14, 0]).2.typ.Kind = Kind.Bool ∧
    parseLoop nullLib argsMap
        ([] ++ token "-sub-bool".toList (some "false".toList) :: ["-sub-string=foo".toList])
        (1 + 1) ([] : List GoString).length zeroStore =
      parseLoop nullLib argsMap ["-sub-string=foo".toList] 1 0
        (zeroStore.write (leaf "sub-bool" GoType.bool [14, 0]).2.loc (Value.bool true)) :=
  ⟨by decide, by decide!, by decide,
    (bool_flag_sets_true nullLib argsMap [] ["-sub-string=foo".toList] 1 zeroStore
      "-sub-bool".toList (some "false".toList) (leaf "sub-bool" GoType.bool [14, 0]).2
      (by decide) (by decide!) (by decide)).1⟩

/-! ## The digit loop of `strconv.ParseUint` -/

theorem digitsValue_ge (base : Nat) (hb : 1 ≤ base) (cs : GoString) :
    ∀ acc : Nat, acc ≤ digitsValue base cs acc := by
  induction cs with
  | nil => intro acc; exact le_refl _
  | cons c cs ih =>
    intro acc
    have h1 : acc ≤ acc * base + (digitOf c).getD 0 :=
      le_trans (Nat.le_mul_of_pos_right acc hb) (Nat.le_add_right _ _)
    exact le_trans h1 (ih _)

theorem digitsValue_append (base : Nat) (xs ys : GoString) (acc : Nat) :
    digitsValue base (xs ++ ys) acc = digitsValue base ys (digitsValue base xs acc) := by
  simp [digitsValue, List.foldl_append]

/-- On a string of digits of the base, the loop returns the number denoted when it
is below `2 ^ 64` and a range error otherwise. -/
theorem parseUintLoop_digits (base : Nat) (hb : 2 ≤ base) (hb36 : base ≤ 36) (cs : GoString) :
    ∀ acc : Nat, acc < 2 ^ 64 → (∀ c ∈ cs, ∃ d, digitOf c = some d ∧ d < base) →
      parseUintLoop base 64 cs acc =
        if digitsValue base cs acc < 2 ^ 64 then (digitsValue base cs acc, none)
        else (2 ^ 64 - 1, some NumErrKind.ErrRange) := by
  induction cs with
  | nil =>
    intro acc hacc _
    have h0 : digitsValue base [] acc = acc := rfl
    rw [parseUintLoop, h0, if_pos hacc]
  | cons c cs ih =>
    intro acc hacc hv
    obtain ⟨d, hd, hdb⟩ := hv c (List.mem_cons_self _ _)
    have hrest : ∀ c1 ∈ cs, ∃ d, digitOf c1 = some d ∧ d < base :=
      fun c1 h1 => hv c1 (List.mem_cons_of_mem _ h1)
    have hval : digitsValue base (c :: cs) acc = digitsValue base cs (acc * base + d) := by
      simp [digitsValue, hd]
    have hmono := digitsValue_ge base (by omega) cs (acc * base + d)
    rw [parseUintLoop, hval]
    simp only [hd]
    have hnd : ¬ d ≥ base := by omega
    rw [if_neg hnd]
    by_cases hcut : acc ≥ maxUint64 / base + 1
    · have hlt : maxUint64 / base < acc := by omega
      have hmul : maxUint64 < acc * base := (Nat.div_lt_iff_lt_mul (by omega)).mp hlt
      have hbig : ¬ digitsValue base cs (acc * base + d) < 2 ^ 64 := by
        unfold maxUint64 at hmul
        omega
      rw [if_pos hcut, if_neg hbig]
    · have hle : acc ≤ maxUint64 / base := by omega
      have hmul : acc * base ≤ maxUint64 := by
        have := Nat.mul_le_mul_right base hle
        exact le_trans this (Nat.div_mul_le_self _ _)
      unfold maxUint64 at hmul
      rw [if_neg hcut]
      have hn0 : acc * base % 2 ^ 64 = acc * base := Nat.mod_eq_of_lt (by omega)
      simp only [hn0]
      by_cases hsum : acc * base + d < 2 ^ 64
      · have hn1 : (acc * base + d) % 2 ^ 64 = acc * base + d := Nat.mod_eq_of_lt hsum
        have hc2 : ¬ ((acc * base + d) % 2 ^ 64 < acc * base ∨
            (acc * base + d) % 2 ^ 64 > 2 ^ 64 - 1) := by
          rw [hn1]; omega
        rw [if_neg hc2, hn1]
        exact ih _ hsum hrest
      · have hd64 : d < 2 ^ 64 := by omega
        have hn1 : (acc * base + d) % 2 ^ 64 = acc * base + d - 2 ^ 64 := by
          rw [Nat.mod_eq_sub_mod (by omega)]
          exact Nat.mod_eq_of_lt (by omega)
        have hc2 : (acc * base + d) % 2 ^ 64 < acc * base ∨
            (acc * base + d) % 2 ^ 64 > 2 ^ 64 - 1 := by
          rw [hn1]; left; omega
        have hbig : ¬ digitsValue base cs (acc * base + d) < 2 ^ 64 := by omega
        rw [if_pos hc2, if_neg hbig]

/-! ## The digits that `Nat.toDigits` writes -/

theorem digitOf_digitChar (d : Nat) (hd : d < 16) : digitOf (Nat.digitChar d) = some d := by
  interval_cases d <;> rfl

theorem digitOf_asciiLower (c : Char) : digitOf (asciiLower c) = digitOf c := by
  unfold asciiLower
  by_cases h : 65 ≤ c.toNat ∧ c.toNat ≤ 90
  · rw [if_pos h]
    obtain ⟨h1, h2⟩ := h
    have hc : c = Char.ofNat c.toNat := by simp
    generalize c.toNat = n at h1 h2 hc
    subst hc
    interval_cases n <;> rfl
  · rw [if_neg h]

/-- With enough fuel, `Nat.toDigitsCore` puts in front of `ds` a nonempty string of
digit characters of the base that denotes `n`. -/
theorem toDigitsCore_spec (base : Nat) (hb : 2 ≤ base) (hb16 : base ≤ 16) (fuel : Nat) :
    ∀ (n : Nat) (ds : List Char), n < fuel →
      ∃ cs : List Char, Nat.toDigitsCore base fuel n ds = cs ++ ds ∧ cs ≠ [] ∧
        (∀ c ∈ cs, ∃ d, d < base ∧ c = Nat.digitChar d) ∧
        ∀ acc : Nat, digitsValue base cs acc = acc * base ^ cs.length + n := by
  induction fuel with
  | zero => intro n ds h; exact absurd h (Nat.not_lt_zero _)
  | succ fuel ih =>
    intro n ds hn
    have hmod : n % base < base := Nat.mod_lt _ (by omega)
    have hdig : digitOf (Nat.digitChar (n % base)) = some (n % base) :=
      digitOf_digitChar _ (by omega)
    rw [Nat.toDigitsCore]
    by_cases h0 : n / base = 0
    · simp only [h0, if_true]
      have hlt : n < base := by
        by_contra hcon
        have h1 : 0 < n / base := Nat.div_pos (by omega) (by omega)
        omega
      refine ⟨[Nat.digitChar (n % base)], rfl, by simp, ?_, ?_⟩
      · intro c hc
        refine ⟨n % base, hmod, ?_⟩
        simpa using hc
      · intro acc
        have hm : n % base = n := Nat.mod_eq_of_lt hlt
        rw [hm] at hdig ⊢
        simp [digitsValue, hdig]
    · simp only [h0, if_false]
      have hpos : 0 < n := by
        by_contra hcon
        have : n = 0 := by omega
        subst this
        simp at h0
      have hdiv : n / base < n := Nat.div_lt_self hpos (by omega)
      obtain ⟨cs, hcs, _, hvalid, hval⟩ :=
        ih (n / base) (Nat.digitChar (n % base) :: ds) (by omega)
      refine ⟨cs ++ [Nat.digitChar (n % base)], by simp [hcs], by simp, ?_, ?_⟩
      · intro c hc
        rcases List.mem_append.mp hc with h1 | h1
        · exact hvalid c h1
        · refine ⟨n % base, hmod, ?_⟩
          simpa using h1
      · intro acc
        rw [digitsValue_append, hval acc]
        have hlast : ∀ a : Nat, digitsValue base [Nat.digitChar (n % base)] a =
            a * base + n % base := by
          intro a
          simp [digitsValue, hdig]
        rw [hlast, List.length_append, List.length_singleton, pow_succ]
        have hdm := Nat.div_add_mod n base
        calc (acc * base ^ cs.length + n / base) * base + n % base
            = acc * (base ^ cs.length * base) + (base * (n / base) + n % base) := by ring
          _ = acc * (base ^ cs.length * base) + n := by rw [hdm]

theorem toDigits_spec (base : Nat) (hb : 2 ≤ base) (hb16 : base ≤ 16) (n : Nat) :
    Nat.toDigits base n ≠ [] ∧
      (∀ c ∈ Nat.toDigits base n, ∃ d, d < base ∧ c = Nat.digitChar d) ∧
      digitsValue base (Nat.toDigits base n) 0 = n := by
  obtain ⟨cs, hcs, hne, hvalid, hval⟩ :=
    toDigitsCore_spec base hb hb16 (n + 1) n [] (Nat.lt_succ_self n)
  have heq : Nat.toDigits base n = cs := by
    unfold Nat.toDigits
    rw [hcs, List.append_nil]
  rw [heq]
  refine ⟨hne, hvalid, ?_⟩
  rw [hval 0]
  simp

/-! ## `strconv.ParseUint` and `strconv.ParseInt` on numerals -/

theorem digitsValue_map_lower (base : Nat) (cs : GoString) :
    ∀ acc : Nat, digitsValue base (cs.map asciiLower) acc = digitsValue base cs acc := by
  induction cs with
  | nil => intro acc; rfl
  | cons c cs ih =>
    intro acc
    have h1 : digitsValue base ((c :: cs).map asciiLower) acc =
        digitsValue base (cs.map asciiLower) (acc * base + (digitOf (asciiLower c)).getD 0) := rfl
    have h2 : digitsValue base (c :: cs) acc =
        digitsValue base cs (acc * base + (digitOf c).getD 0) := rfl
    rw [h1, h2, digitOf_asciiLower, ih]

/-- A string that is, up to the case of its letters, the digits of `n` in the base. -/
theorem numeral_spec (base : Nat) (hb : 2 ≤ base) (hb16 : base ≤ 16) (n : Nat) (cs : GoString)
    (hcs : cs.map asciiLower = Nat.toDigits base n) :
    cs ≠ [] ∧ (∀ c ∈ cs, ∃ d, d < base ∧ asciiLower c = Nat.digitChar d) ∧
      (∀ c ∈ cs, ∃ d, digitOf c = some d ∧ d < base) ∧ digitsValue base cs 0 = n := by
  obtain ⟨hne, hvalid, hval⟩ := toDigits_spec base hb hb16 n
  have hv : ∀ c ∈ cs, ∃ d, d < base ∧ asciiLower c = Nat.digitChar d := by
    intro c hc
    have : asciiLower c ∈ Nat.toDigits base n := by
      rw [← hcs]; exact List.mem_map_of_mem _ hc
    exact hvalid _ this
  refine ⟨?_, hv, ?_, ?_⟩
  · intro h
    rw [h] at hcs
    exact hne hcs.symm
  · intro c hc
    obtain ⟨d, hd, hcd⟩ := hv c hc
    refine ⟨d, ?_, hd⟩
    rw [← digitOf_asciiLower, hcd]
    exact digitOf_digitChar d (by omega)
  · rw [← digitsValue_map_lower, hcs]
    exact hval

theorem ParseUint_numeral (base : Nat) (hb : 2 ≤ base) (hb16 : base ≤ 16) (n : Nat)
    (cs : GoString) (hcs : cs.map asciiLower = Nat.toDigits base n) :
    ParseUint cs base 64 =
      if n < 2 ^ 64 then (n, none) else (2 ^ 64 - 1, some NumErrKind.ErrRange) := by
  obtain ⟨hne, _, hdig, hval⟩ := numeral_spec base hb hb16 n cs hcs
  unfold ParseUint
  rw [if_neg hne, parseUintLoop_digits base hb (by omega) cs 0 (by norm_num) hdig, hval]

theorem not_sign_of_digit (c : Char) (h : ∃ d, d < 16 ∧ asciiLower c = Nat.digitChar d) :
    c ≠ '+' ∧ c ≠ '-' ∧ c ≠ 'x' := by
  obtain ⟨d, hd, hcd⟩ := h
  refine ⟨?_, ?_, ?_⟩ <;>
  · rintro rfl
    interval_cases d <;> exact absurd hcd (by decide)

theorem ParseInt_numeral (base : Nat) (hb : 2 ≤ base) (hb16 : base ≤ 16) (n : Nat)
    (cs : GoString) (hcs : cs.map asciiLower = Nat.toDigits base n) :
    ParseInt cs base 64 =
      if n < 2 ^ 63 then ((n : Int), none) else (2 ^ 63 - 1, some NumErrKind.ErrRange) := by
  obtain ⟨hne, hv, _, _⟩ := numeral_spec base hb hb16 n cs hcs
  have hu := ParseUint_numeral base hb hb16 n cs hcs
  cases cs with
  | nil => exact absurd rfl hne
  | cons c rest =>
    obtain ⟨d, hd, hcd⟩ := hv c (List.mem_cons_self _ _)
    obtain ⟨hplus, hminus, _⟩ := not_sign_of_digit c ⟨d, by omega, hcd⟩
    unfold ParseInt
    simp only [hplus, hminus, or_self, if_false]
    by_cases h64 : n < 2 ^ 64
    · rw [if_pos h64] at hu
      rw [hu]
      by_cases h63 : n < 2 ^ 63
      · have ht : toInt64 (n : Int) = n := by unfold toInt64; omega
        have hc : ¬ (¬ False ∧ n ≥ 2 ^ (64 - 1)) := by
          intro h; have := h.2; norm_num at this; omega
        have hc2 : ¬ (False ∧ n > 2 ^ (64 - 1)) := fun h => h.1
        simp only [hc, hc2, if_false, ht, if_pos h63]
        simp
      · have hc : ¬ False ∧ n ≥ 2 ^ (64 - 1) := by
          refine ⟨id, ?_⟩; norm_num; omega
        simp only [hc, if_true, if_neg h63]
        simp
    · rw [if_neg h64] at hu
      rw [hu]
      have h63 : ¬ n < 2 ^ 63 := by omega
      have hc : ¬ False ∧ 2 ^ 64 - 1 ≥ 2 ^ (64 - 1) := by
        refine ⟨id, ?_⟩; norm_num
      simp only [hc, if_true, if_neg h63]
      simp

theorem ParseInt_neg_numeral (base : Nat) (hb : 2 ≤ base) (hb16 : base ≤ 16) (n : Nat)
    (cs : GoString) (hcs : cs.map asciiLower = Nat.toDigits base n) :
    ParseInt ('-' :: cs) base 64 =
      if n ≤ 2 ^ 63 then (- (n : Int), none) else (- 2 ^ 63, some NumErrKind.ErrRange) := by
  have hu := ParseUint_numeral base hb hb16 n cs hcs
  unfold ParseInt
  simp only [or_true, if_true]
  by_cases h64 : n < 2 ^ 64
  · rw [if_pos h64] at hu
    rw [hu]
    by_cases h63 : n ≤ 2 ^ 63
    · have ht : toInt64 (- toInt64 (n : Int)) = - (n : Int) := by unfold toInt64; omega
      have hc : ¬ (¬ True ∧ n ≥ 2 ^ (64 - 1)) := fun h => h.1 trivial
      have hc2 : ¬ (True ∧ n > 2 ^ (64 - 1)) := by
        intro h; have := h.2; norm_num at this; omega
      simp only [hc, hc2, if_false, ht, if_pos h63]
      simp
    · have hc : ¬ (¬ True ∧ n ≥ 2 ^ (64 - 1)) := fun h => h.1 trivial
      have hc2 : True ∧ n > 2 ^ (64 - 1) := by
        refine ⟨trivial, ?_⟩; norm_num; omega
      simp only [hc, hc2, if_false, if_true, if_neg h63]
      simp
  · rw [if_neg h64] at hu
    rw [hu]
    have h63 : ¬ n ≤ 2 ^ 63 := by omega
    have hc : ¬ (¬ True ∧ 2 ^ 64 - 1 ≥ 2 ^ (64 - 1)) := fun h => h.1 trivial
    have hc2 : True ∧ 2 ^ 64 - 1 > 2 ^ (64 - 1) := by
      refine ⟨trivial, ?_⟩; norm_num
    simp only [hc, hc2, if_false, if_true, if_neg h63]
    simp

/-! ## `parseInt`, `parseUint` and `parseInto` on numerals -/

theorem HasPrefix_0x_append (hx : GoString) : HasPrefix ("0x".toList ++ hx) "0x".toList = true := by
  simp [HasPrefix]

theorem HasPrefix_0x_of_no_x (cs : GoString) (h : ∀ c ∈ cs, c ≠ 'x') :
    HasPrefix cs "0x".toList = false := by
  cases cs with
  | nil => rfl
  | cons a t =>
    cases t with
    | nil => simp [HasPrefix, List.isPrefixOf]
    | cons b u =>
      have hb : b ≠ 'x' := h b (by simp)
      have hb1 : ¬ ('x' = b) := fun e => hb e.symm
      simp [HasPrefix, List.isPrefixOf, hb1]

theorem HasPrefix_0x_decimal (n : Nat) : HasPrefix (Nat.toDigits 10 n) "0x".toList = false := by
  apply HasPrefix_0x_of_no_x
  intro c hc
  obtain ⟨d, hd, hcd⟩ := (toDigits_spec 10 (by norm_num) (by norm_num) n).2.1 c hc
  subst hcd
  interval_cases d <;> decide

theorem HasPrefix_0x_neg (cs : GoString) : HasPrefix ('-' :: cs) "0x".toList = false := by
  cases cs <;> simp [HasPrefix, List.isPrefixOf]

theorem map_lower_decimal (n : Nat) :
    (Nat.toDigits 10 n).map asciiLower = Nat.toDigits 10 n := by
  have h := (toDigits_spec 10 (by norm_num) (by norm_num) n).2.1
  have : ∀ c ∈ Nat.toDigits 10 n, asciiLower c = c := by
    intro c hc
    obtain ⟨d, hd, hcd⟩ := h c hc
    subst hcd
    interval_cases d <;> decide
  calc (Nat.toDigits 10 n).map asciiLower = (Nat.toDigits 10 n).map id :=
        List.map_congr_left this
    _ = Nat.toDigits 10 n := List.map_id _

theorem parseUint_hex (n : Nat) (hx : GoString) (hhx : hx.map asciiLower = Nat.toDigits 16 n)
    (hn : n < 2 ^ 64) : parseUint ("0x".toList ++ hx) = (n, none) := by
  have h := ParseUint_numeral 16 (by norm_num) (by norm_num) n hx hhx
  rw [if_pos hn] at h
  unfold parseUint
  rw [if_pos (HasPrefix_0x_append hx)]
  have hd : ("0x".toList ++ hx).drop 2 = hx := rfl
  rw [hd, h]
  rfl

theorem parseUint_dec (n : Nat) :
    parseUint (Nat.toDigits 10 n) =
      if n < 2 ^ 64 then (n, none)
      else (2 ^ 64 - 1,
        some (Err.num "ParseUint".toList (Nat.toDigits 10 n) NumErrKind.ErrRange)) := by
  have h := ParseUint_numeral 10 (by norm_num) (by norm_num) n _ (map_lower_decimal n)
  unfold parseUint
  rw [HasPrefix_0x_decimal n, h]
  by_cases hn : n < 2 ^ 64
  · simp only [if_pos hn]
    rfl
  · simp only [if_neg hn]
    rfl

theorem parseInt_hex (n : Nat) (hx : GoString) (hhx : hx.map asciiLower = Nat.toDigits 16 n)
    (hn : n < 2 ^ 63) : parseInt ("0x".toList ++ hx) = ((n : Int), none) := by
  have h := ParseInt_numeral 16 (by norm_num) (by norm_num) n hx hhx
  rw [if_pos hn] at h
  unfold parseInt
  rw [if_pos (HasPrefix_0x_append hx)]
  have hd : ("0x".toList ++ hx).drop 2 = hx := rfl
  rw [hd, h]
  rfl

theorem parseInt_dec (n : Nat) :
    parseInt (Nat.toDigits 10 n) =
      if n < 2 ^ 63 then ((n : Int), none)
      else (2 ^ 63 - 1,
        some (Err.num "ParseInt".toList (Nat.toDigits 10 n) NumErrKind.ErrRange)) := by
  have h := ParseInt_numeral 10 (by norm_num) (by norm_num) n _ (map_lower_decimal n)
  unfold parseInt
  rw [HasPrefix_0x_decimal n, h]
  by_cases hn : n < 2 ^ 63
  · simp only [if_pos hn]
    rfl
  · simp only [if_neg hn]
    rfl

theorem parseInt_neg_dec (n : Nat) :
    parseInt ('-' :: Nat.toDigits 10 n) =
      if n ≤ 2 ^ 63 then (- (n : Int), none)
      else (- 2 ^ 63,
        some (Err.num "ParseInt".toList ('-' :: Nat.toDigits 10 n) NumErrKind.ErrRange)) := by
  have h := ParseInt_neg_numeral 10 (by norm_num) (by norm_num) n _ (map_lower_decimal n)
  unfold parseInt
  rw [HasPrefix_0x_neg, h]
  by_cases hn : n ≤ 2 ^ 63
  · simp only [if_pos hn]
    rfl
  · simp only [if_neg hn]
    rfl

theorem parseInto_signed (lib : Lib) (t : GoType) (ht : t ∈ signedTypes) (s : GoString) :
    parseInto lib t [s] =
      match (parseInt s).2 with
      | some err => Except.error (Err.wrap err "error parsing int".toList)
      | none => Except.ok (Value.int (wrapInt t.bits (parseInt s).1)) := by
  simp only [signedTypes, List.mem_cons, List.mem_singleton, List.not_mem_nil, or_false] at ht
  rcases ht with rfl | rfl | rfl | rfl | rfl <;> rfl

theorem parseInto_unsigned (lib : Lib) (t : GoType) (ht : t ∈ unsignedTypes) (s : GoString) :
    parseInto lib t [s] =
      match (parseUint s).2 with
      | some err => Except.error (Err.wrap err "error parsing uint".toList)
      | none => Except.ok (Value.uint (wrapUint t.bits (parseUint s).1)) := by
  simp only [unsignedTypes, List.mem_cons, List.mem_singleton, List.not_mem_nil, or_false] at ht
  rcases ht with rfl | rfl | rfl | rfl | rfl <;> rfl

theorem wrapInt_of_le (t : GoType) (ht : t ∈ signedTypes) (n : Nat) (hn : n ≤ t.maxValue) :
    wrapInt t.bits (n : Int) = n := by
  unfold GoType.maxValue at hn
  rw [if_pos ht] at hn
  simp only [signedTypes, List.mem_cons, List.mem_singleton, List.not_mem_nil, or_false] at ht
  rcases ht with rfl | rfl | rfl | rfl | rfl <;>
  · simp only [GoType.bits] at hn ⊢
    unfold wrapInt
    norm_num at hn ⊢
    omega

theorem wrapUint_of_le (t : GoType) (ht : t ∈ unsignedTypes) (n : Nat) (hn : n ≤ t.maxValue) :
    wrapUint t.bits n = n := by
  have hns : t ∉ signedTypes := by
    simp only [unsignedTypes, List.mem_cons, List.mem_singleton, List.not_mem_nil, or_false] at ht
    rcases ht with rfl | rfl | rfl | rfl | rfl <;> decide
  unfold GoType.maxValue at hn
  rw [if_neg hns] at hn
  simp only [unsignedTypes, List.mem_cons, List.mem_singleton, List.not_mem_nil, or_false] at ht
  rcases ht with rfl | rfl | rfl | rfl | rfl <;>
  · simp only [GoType.bits] at hn ⊢
    unfold wrapUint
    norm_num at hn ⊢
    omega

theorem maxValue_lt (t : GoType) (ht : t ∈ signedTypes ∨ t ∈ unsignedTypes) :
    (t ∈ signedTypes → t.maxValue < 2 ^ 63) ∧ t.maxValue < 2 ^ 64 := by
  simp only [signedTypes, unsignedTypes, List.mem_cons, List.mem_singleton, List.not_mem_nil,
    or_false] at ht
  rcases ht with (rfl | rfl | rfl | rfl | rfl) | (rfl | rfl | rfl | rfl | rfl) <;>
  · refine ⟨?_, ?_⟩
    · first
      | (intro _; decide)
      | (intro h; exact absurd h (by decide))
    · decide

/-! ## C4 -/

/-- C4, as the code has it: integer coercion checks the 64-bit range only.  A
decimal operand whose value fits in 64 bits (`int64` for a signed target, `uint64`
for an unsigned one) is accepted whatever the width `w` of the target and the
field is set to the value wrapped to `w` bits; an operand outside the 64-bit range
fails with a range error and nothing is stored.  So an `int8` target given `300`
stores 44, given `-129` stores 127, and a `uint8` target given `256` stores 0. -/
theorem integer_coercion_checks_64_bits (lib : Lib) (t : GoType) (n : Nat) :
    (t ∈ signedTypes →
      (n < 2 ^ 63 →
        parseInto lib t [Nat.toDigits 10 n] =
          Except.ok (Value.int (wrapInt t.bits (n : Int)))) ∧
      (n ≤ 2 ^ 63 →
        parseInto lib t ['-' :: Nat.toDigits 10 n] =
          Except.ok (Value.int (wrapInt t.bits (- (n : Int))))) ∧
      (2 ^ 63 ≤ n →
        parseInto lib t [Nat.toDigits 10 n] =
          Except.error (Err.wrap
            (Err.num "ParseInt".toList (Nat.toDigits 10 n) NumErrKind.ErrRange)
            "error parsing int".toList)) ∧
      (2 ^ 63 < n →
        parseInto lib t ['-' :: Nat.toDigits 10 n] =
          Except.error (Err.wrap
            (Err.num "ParseInt".toList ('-' :: Nat.toDigits 10 n) NumErrKind.ErrRange)
            "error parsing int".toList))) ∧
    (t ∈ unsignedTypes →
      (n < 2 ^ 64 →
        parseInto lib t [Nat.toDigits 10 n] = Except.ok (Value.uint (n % 2 ^ t.bits))) ∧
      (2 ^ 64 ≤ n →
        parseInto lib t [Nat.toDigits 10 n] =
          Except.error (Err.wrap
            (Err.num "ParseUint".toList (Nat.toDigits 10 n) NumErrKind.ErrRange)
            "error parsing uint".toList))) ∧
    parseInto lib GoType.int8 ["300".toList] = Except.ok (Value.int 44) ∧
    parseInto lib GoType.int8 ["-129".toList] = Except.ok (Value.int 127) ∧
    parseInto lib GoType.uint8 ["256".toList] = Except.ok (Value.uint 0) := by
  refine ⟨?_, ?_, rfl, rfl, rfl⟩
  · intro ht
    refine ⟨?_, ?_, ?_, ?_⟩
    · intro hn
      rw [parseInto_signed lib t ht, parseInt_dec, if_pos hn]
    · intro hn
      rw [parseInto_signed lib t ht, parseInt_neg_dec, if_pos hn]
    · intro hn
      rw [parseInto_signed lib t ht, parseInt_dec, if_neg (by omega)]
    · intro hn
      rw [parseInto_signed lib t ht, parseInt_neg_dec, if_neg (by omega)]
  · intro ht
    refine ⟨?_, ?_⟩
    · intro hn
      rw [parseInto_unsigned lib t ht, parseUint_dec, if_pos hn]
      rfl
    · intro hn
      rw [parseInto_unsigned lib t ht, parseUint_dec, if_neg (by omega)]

/-- C4 as stated fails: an `int8` target given `300` or `-129` and a `uint8` target
given `256` are coerced without error, and `--i8=300` sets `Int8` to 44. -/
theorem int8_operand_300_is_stored_wrapped :
    parseInto nullLib GoType.int8 ["300".toList] = Except.ok (Value.int 44) ∧
    parseInto nullLib GoType.int8 ["-129".toList] = Except.ok (Value.int 127) ∧
    parseInto nullLib GoType.uint8 ["256".toList] = Except.ok (Value.uint 0) ∧
    parseArgs nullLib testEnv 2 zeroStore argsRef ["--i8=300".toList] =
      some { err := none,
             store := zeroStore.write { obj := 0, path := [0] } (Value.int 44) } := by
  refine ⟨rfl, rfl, rfl, ?_⟩
  unfold parseArgs
  rw [makeArgMap_args]
  rfl

/-! ## C6 -/

/-- C6: for every integer type `t` and every `n` that `t` can hold, the operand `0x`
followed by the base-16 digits of `n` (in either case) and the operand made of the
base-10 digits of `n` are both coerced to `n`; given inline or as the next token to
a flag of type `t`, each stores `n` and decoding resumes after it.  For the record
`Args`, `--i8=0x2A` and `--i8 42` both set `Int8` to 42. -/
theorem hex_and_decimal_agree (lib : Lib) (t : GoType) (n : Nat) (hx : GoString)
    (ht : t ∈ signedTypes ∨ t ∈ unsignedTypes) (hn : n ≤ t.maxValue)
    (hhx : hx.map asciiLower = Nat.toDigits 16 n) :
    parseInto lib t ["0x".toList ++ hx] = Except.ok (numValue t n) ∧
    parseInto lib t [Nat.toDigits 10 n] = Except.ok (numValue t n) ∧
    (∀ (m : ArgMap) (pre post : List GoString) (fuel : Nat) (st : Store) (p : GoString)
        (rf : Ref), '=' ∉ p → m.get (Trim p "-".toList) = some rf → rf.typ = t →
      parseLoop lib m (pre ++ (p ++ '=' :: ("0x".toList ++ hx)) :: post) (fuel + 1)
          pre.length st =
        parseLoop lib m post fuel 0 (st.write rf.loc (numValue t n)) ∧
      parseLoop lib m (pre ++ (p ++ '=' :: Nat.toDigits 10 n) :: post) (fuel + 1)
          pre.length st =
        parseLoop lib m post fuel 0 (st.write rf.loc (numValue t n)) ∧
      parseLoop lib m (pre ++ p :: ("0x".toList ++ hx) :: post) (fuel + 1) pre.length st =
        parseLoop lib m post fuel 0 (st.write rf.loc (numValue t n)) ∧
      parseLoop lib m (pre ++ p :: Nat.toDigits 10 n :: post) (fuel + 1) pre.length st =
        parseLoop lib m post fuel 0 (st.write rf.loc (numValue t n))) ∧
    (∀ st0 : Store,
      parseArgs lib testEnv 2 st0 argsRef ["--i8=0x2A".toList] =
        some { err := none, store := st0.write { obj := 0, path := [0] } (Value.int 42) } ∧
      parseArgs lib testEnv 2 st0 argsRef ["--i8".toList, "42".toList] =
        some { err := none, store := st0.write { obj := 0, path := [0] } (Value.int 42) }) := by
  have hmax := maxValue_lt t ht
  have hhex : parseInto lib t ["0x".toList ++ hx] = Except.ok (numValue t n) := by
    rcases ht with hs | hu
    · rw [parseInto_signed lib t hs, parseInt_hex n hx hhx (by have := hmax.1 hs; omega)]
      simp only [numValue, if_pos hs, wrapInt_of_le t hs n hn]
    · have hns : t ∉ signedTypes := by
        simp only [unsignedTypes, List.mem_cons, List.mem_singleton, List.not_mem_nil,
          or_false] at hu
        rcases hu with rfl | rfl | rfl | rfl | rfl <;> decide
      rw [parseInto_unsigned lib t hu, parseUint_hex n hx hhx (by have := hmax.2; omega)]
      simp only [numValue, if_neg hns, wrapUint_of_le t hu n hn]
  have hdec : parseInto lib t [Nat.toDigits 10 n] = Except.ok (numValue t n) := by
    rcases ht with hs | hu
    · rw [parseInto_signed lib t hs, parseInt_dec, if_pos (by have := hmax.1 hs; omega)]
      simp only [numValue, if_pos hs, wrapInt_of_le t hs n hn]
    · have hns : t ∉ signedTypes := by
        simp only [unsignedTypes, List.mem_cons, List.mem_singleton, List.not_mem_nil,
          or_false] at hu
        rcases hu with rfl | rfl | rfl | rfl | rfl <;> decide
      rw [parseInto_unsigned lib t hu, parseUint_dec, if_pos (by have := hmax.2; omega)]
      simp only [numValue, if_neg hns, wrapUint_of_le t hu n hn]
  refine ⟨hhex, hdec, ?_, ?_⟩
  · intro m pre post fuel st p rf hp hm hrt
    have hb : rf.typ.Kind ≠ Kind.Bool := by
      rw [hrt]
      simp only [signedTypes, unsignedTypes, List.mem_cons, List.mem_singleton,
        List.not_mem_nil, or_false] at ht
      rcases ht with (rfl | rfl | rfl | rfl | rfl) | (rfl | rfl | rfl | rfl | rfl) <;> decide
    have hs : rf.typ.Kind ≠ Kind.Slice := by
      rw [hrt]
      simp only [signedTypes, unsignedTypes, List.mem_cons, List.mem_singleton,
        List.not_mem_nil, or_false] at ht
      rcases ht with (rfl | rfl | rfl | rfl | rfl) | (rfl | rfl | rfl | rfl | rfl) <;> decide
    have h1 := parseLoop_at_inline lib m pre post fuel st p ("0x".toList ++ hx) rf hp hm hb hs
    have h2 := parseLoop_at_inline lib m pre post fuel st p (Nat.toDigits 10 n) rf hp hm hb hs
    have h3 := parseLoop_at_next lib m pre post fuel st p ("0x".toList ++ hx) rf hp hm hb hs
    have h4 := parseLoop_at_next lib m pre post fuel st p (Nat.toDigits 10 n) rf hp hm hb hs
    rw [hrt, hhex] at h1 h3
    rw [hrt, hdec] at h2 h4
    exact ⟨h1, h2, h3, h4⟩
  · intro st0
    constructor
    · unfold parseArgs
      rw [makeArgMap_args]
      rfl
    · unfold parseArgs
      rw [makeArgMap_args]
      rfl

/-- The hypotheses of `hex_and_decimal_agree` hold for an `int8` target, 42 and the
digits `2A`. -/
theorem hex_and_decimal_agree_witness :
    (GoType.int8 ∈ signedTypes ∨ GoType.int8 ∈ unsignedTypes) ∧
    42 ≤ GoType.int8.maxValue ∧
    "2A".toList.map asciiLower = Nat.toDigits 16 42 ∧
    parseInto nullLib GoType.int8 ["0x".toList ++ "2A".toList] =
      Except.ok (numValue GoType.int8 42) ∧
    parseInto nullLib GoType.int8 [Nat.toDigits 10 42] = Except.ok (numValue GoType.int8 42) :=
  ⟨by decide, by decide, by decide,
    (hex_and_decimal_agree nullLib GoType.int8 42 "2A".toList (by decide) (by decide)
      (by decide)).1,
    (hex_and_decimal_agree nullLib GoType.int8 42 "2A".toList (by decide) (by decide)
      (by decide)).2.1⟩

/-! ## C5 -/

theorem makeArgMap_nil (lib : Lib) :
    makeArgMap lib ptrEnv 2 nilStore ptrRef =
      some (ptrMap, { cells := nilStore.cells, next := 2 }) := by
  rfl

theorem makeArgMap_set (lib : Lib) :
    makeArgMap lib ptrEnv 2 setStore ptrRef = some (ptrMap, setStore) := by
  rfl

/-- C5, on the code: with `Sub` a nil `*SubArgs`, decoding `--sub-int 3` succeeds
but the value goes to a field of object 1, the `SubArgs` that `reflect.New` made in
`makeArgMap`; no cell of the record (object 0) changes and `Sub` is still nil, so
the value cannot be read through the record.  When `Sub` already points to object
1, the same tokens store the value in the `SubArgs` that the record points to. -/
theorem nil_pointer_value_is_detached (lib : Lib) :
    (∃ o : Outcome,
      parseArgs lib ptrEnv 2 nilStore ptrRef ["--sub-int".toList, "3".toList] = some o ∧
      o.err = none ∧
      o.store.read { obj := 0, path := [0] } = some (Value.ptr none) ∧
      (∀ path : List Nat, o.store.read { obj := 0, path := path } =
        nilStore.read { obj := 0, path := path }) ∧
      o.store.read { obj := 1, path := [2] } = some (Value.int 3)) ∧
    (∃ o : Outcome,
      parseArgs lib ptrEnv 2 setStore ptrRef ["--sub-int".toList, "3".toList] = some o ∧
      o.err = none ∧
      o.store.read { obj := 0, path := [0] } = some (Value.ptr (some 1)) ∧
      o.store.read { obj := 1, path := [2] } = some (Value.int 3)) := by
  constructor
  · refine ⟨{ err := none,
              store := Store.write { cells := nilStore.cells, next := 2 }
                { obj := 1, path := [2] } (Value.int 3) }, ?_, rfl, rfl, ?_, rfl⟩
    · unfold parseArgs
      rw [makeArgMap_nil]
      rfl
    · intro path
      simp [Store.read, Store.write]
  · refine ⟨{ err := none,
              store := Store.write setStore { obj := 1, path := [2] } (Value.int 3) },
      ?_, rfl, rfl, rfl⟩
    unfold parseArgs
    rw [makeArgMap_set]
    rfl

/-! ## Mappings -/

theorem lookup_filter_ne (m : ArgMap) (k k1 : GoString) :
    List.lookup k1 (m.filter (fun e => e.1 != k)) = if k1 = k then none else List.lookup k1 m := by
  induction m with
  | nil => simp
  | cons e m ih =>
    obtain ⟨a, r⟩ := e
    by_cases hak : a = k
    · subst hak
      have hf : ((a, r) :: m).filter (fun e => e.1 != a) = m.filter (fun e => e.1 != a) :=
        List.filter_cons_of_neg (by simp)
      rw [hf, ih]
      by_cases h1 : k1 = a
      · simp [h1]
      · have : (k1 == a) = false := by simpa using h1
        simp [h1, List.lookup, this]
    · have hf : ((a, r) :: m).filter (fun e => e.1 != k) =
          (a, r) :: m.filter (fun e => e.1 != k) :=
        List.filter_cons_of_pos (by simpa using hak)
      rw [hf]
      by_cases h1 : k1 = a
      · subst h1
        simp [List.lookup, hak]
      · have : (k1 == a) = false := by simpa using h1
        simp only [List.lookup, this, ih]

theorem ArgMap.get_set (m : ArgMap) (k k1 : GoString) (v : Ref) :
    (m.set k v).get k1 = if k1 = k then some v else m.get k1 := by
  unfold ArgMap.set ArgMap.get
  by_cases h : k1 = k
  · subst h
    simp [List.lookup]
  · have : (k1 == k) = false := by simpa using h
    simp only [List.lookup, this, lookup_filter_ne, if_neg h]

theorem ArgMap.keys_set_nodup (m : ArgMap) (k : GoString) (v : Ref) (h : m.keys.Nodup) :
    (m.set k v).keys.Nodup := by
  unfold ArgMap.set ArgMap.keys
  rw [List.map_cons, List.nodup_cons]
  constructor
  · intro hmem
    obtain ⟨e, he, hek⟩ := List.mem_map.mp hmem
    have := (List.mem_filter.mp he).2
    simp at this
    exact this hek
  · exact List.Nodup.sublist (List.Sublist.map _ (List.filter_sublist _)) h

theorem get_eq_none_of_not_mem_keys (m : ArgMap) (k : GoString) (h : k ∉ m.keys) :
    m.get k = none := by
  unfold ArgMap.get
  rw [List.lookup_eq_none_iff]
  intro e he
  have hne : k ≠ e.1 := by
    intro hk
    apply h
    unfold ArgMap.keys
    rw [hk]
    exact List.mem_map_of_mem _ he
  simpa using hne

theorem mem_keys_of_get (m : ArgMap) (k : GoString) (r : Ref) (h : m.get k = some r) :
    k ∈ m.keys := by
  by_contra hk
  rw [get_eq_none_of_not_mem_keys m k hk] at h
  exact absurd h (by simp)

/-- The mapping after the loop `m[f k] = v` over the bindings of `xm`. -/
theorem get_foldl_set (f : GoString → GoString) (hf : Function.Injective f) :
    ∀ (es : List (GoString × Ref)) (m : ArgMap), ArgMap.keys es |>.Nodup →
      (∀ k r, ArgMap.get es k = some r →
        ArgMap.get (es.foldl (fun acc kv => acc.set (f kv.1) kv.2) m) (f k) = some r) ∧
      (∀ key, (∀ k, k ∈ ArgMap.keys es → key ≠ f k) →
        ArgMap.get (es.foldl (fun acc kv => acc.set (f kv.1) kv.2) m) key = m.get key) := by
  intro es
  induction es with
  | nil =>
    intro m _
    exact ⟨fun k r h => absurd h (by simp [ArgMap.get]), fun key _ => rfl⟩
  | cons e es ih =>
    intro m hnd
    obtain ⟨a, v⟩ := e
    have hnd1 : (ArgMap.keys es).Nodup := (List.nodup_cons.mp hnd).2
    have ha : a ∉ ArgMap.keys es := (List.nodup_cons.mp hnd).1
    obtain ⟨ih1, ih2⟩ := ih (m.set (f a) v) hnd1
    simp only [List.foldl_cons]
    constructor
    · intro k r hk
      by_cases hka : k = a
      · subst hka
        have hr : r = v := by
          have : ArgMap.get ((k, v) :: es) k = some v := by simp [ArgMap.get, List.lookup]
          rw [this] at hk
          exact (Option.some.inj hk).symm
        subst hr
        rw [ih2 (f k) (fun k1 hk1 heq => ha (by rw [hf heq]; exact hk1)), ArgMap.get_set,
          if_pos rfl]
      · have hk' : ArgMap.get es k = some r := by
          have hbeq : (k == a) = false := by simpa using hka
          simpa [ArgMap.get, List.lookup, hbeq] using hk
        exact ih1 k r hk'
    · intro key hkey
      rw [ih2 key (fun k1 hk1 => hkey k1 (List.mem_cons_of_mem _ hk1)), ArgMap.get_set,
        if_neg (hkey a (List.mem_cons_self _ _))]

theorem keys_foldl_set_nodup (f : GoString → GoString) :
    ∀ (es : List (GoString × Ref)) (m : ArgMap), m.keys.Nodup →
      (ArgMap.keys (es.foldl (fun acc kv => acc.set (f kv.1) kv.2) m)).Nodup := by
  intro es
  induction es with
  | nil => intro m h; exact h
  | cons e es ih =>
    intro m h
    exact ih _ (ArgMap.keys_set_nodup m _ _ h)

theorem fieldStep_nodup (lib : Lib) (sub : Store → Ref → Option (ArgMap × Store)) (rv : Ref)
    (i : Nat) (rf : StructField) (m m1 : ArgMap) (st st1 : Store) (hm : m.keys.Nodup)
    (h : fieldStep lib sub rv i rf m st = some (m1, st1)) : m1.keys.Nodup := by
  have hmerge : ∀ (xm : ArgMap) (st2 : Store),
      (if rf.Anonymous = true then some (mergePlain m xm, st2)
        else some (mergeTagged (flagName lib rf) m xm, st2)) = some (m1, st1) →
      m1.keys.Nodup := by
    intro xm st2 h
    by_cases h5 : rf.Anonymous = true
    · rw [if_pos h5] at h
      cases h
      exact keys_foldl_set_nodup id xm m hm
    · rw [if_neg h5] at h
      cases h
      exact keys_foldl_set_nodup _ xm m hm
  unfold fieldStep at h
  by_cases h1 : rf.PkgPath ≠ []
  · rw [if_pos h1] at h
    cases h
    exact hm
  rw [if_neg h1] at h
  by_cases h2 : rf.argTag = "-".toList
  · rw [if_pos h2] at h
    cases h
    exact hm
  rw [if_neg h2] at h
  dsimp only at h
  by_cases h3 : rf.Typ = GoType.time
  · rw [if_pos h3] at h
    cases h
    exact ArgMap.keys_set_nodup m _ _ hm
  rw [if_neg h3] at h
  by_cases h4 : rf.Typ.Kind = Kind.Struct
  · rw [if_pos h4] at h
    cases hs : sub st (rv.Field i rf) with
    | none => rw [hs] at h; exact absurd h (by simp)
    | some r =>
      obtain ⟨xm, st2⟩ := r
      rw [hs] at h
      exact hmerge xm st2 h
  rw [if_neg h4] at h
  by_cases h6 : rf.Typ.Kind = Kind.Ptr ∧ rf.Typ.Elem.Kind = Kind.Struct
  · rw [if_pos h6] at h
    generalize (match st.read (rv.Field i rf).loc with
      | some (Value.ptr (some a)) =>
        (({ typ := rf.Typ.Elem, loc := { obj := a, path := [] } } : Ref), st)
      | _ =>
        (({ typ := rf.Typ.Elem, loc := { obj := st.next, path := [] } } : Ref),
          ({ st with next := st.next + 1 } : Store))) = xv at h
    cases hs : sub xv.2 xv.1 with
    | none => rw [hs] at h; exact absurd h (by simp)
    | some r =>
      obtain ⟨xm, st2⟩ := r
      rw [hs] at h
      exact hmerge xm st2 h
  · rw [if_neg h6] at h
    cases h
    exact ArgMap.keys_set_nodup m _ _ hm

theorem fieldsLoop_nodup (lib : Lib) (sub : Store → Ref → Option (ArgMap × Store)) (rv : Ref) :
    ∀ (fs : List StructField) (i : Nat) (m m1 : ArgMap) (st st1 : Store), m.keys.Nodup →
      fieldsLoop lib sub rv fs i m st = some (m1, st1) → m1.keys.Nodup := by
  intro fs
  induction fs with
  | nil =>
    intro i m m1 st st1 hm h
    simp only [fieldsLoop] at h
    cases h
    exact hm
  | cons rf fs ih =>
    intro i m m1 st st1 hm h
    simp only [fieldsLoop] at h
    cases hs : fieldStep lib sub rv i rf m st with
    | none => rw [hs] at h; exact absurd h (by simp)
    | some r =>
      obtain ⟨m2, st2⟩ := r
      rw [hs] at h
      exact ih (i + 1) m2 m1 st2 st1 (fieldStep_nodup lib sub rv i rf m m2 st st2 hm hs) h

/-- The keys of the mapping that `makeArgMap` returns are distinct. -/
theorem makeArgMap_nodup (lib : Lib) (env : TypeEnv) (fuel : Nat) (st st1 : Store) (rv : Ref)
    (m : ArgMap) (h : makeArgMap lib env fuel st rv = some (m, st1)) : m.keys.Nodup := by
  cases fuel with
  | zero => simp [makeArgMap] at h
  | succ fuel =>
    rw [makeArgMap] at h
    exact fieldsLoop_nodup lib _ rv _ 0 [] m st st1 List.nodup_nil h

/-! ## C7 -/

/-- C7: for a field of `rv` whose type is a sub-record with mapping `xm`, the loop
body of `makeArgMap` adds to `m`: for a named field with flag name `t` (the tag,
which `makeArgMap` trims of outer dashes, else the lower-cased identifier), exactly the keys
`t + "-" + k` for the keys `k` of `xm`, each bound to what `k` is bound to in `xm`;
for an embedded field, exactly the keys `k` themselves; every other key keeps its
binding.  In `Args`, `sub-bool` is bound to `Sub.Bool`; a field `Sub.Count` is
reached as `sub-count` and not as `count`; the field `Bool` of an embedded
`SubArgs` is reached as `bool`. -/
theorem nested_field_keys (lib : Lib) (env : TypeEnv) (fuel : Nat) (st st1 : Store) (rv : Ref)
    (i : Nat) (rf : StructField) (m xm : ArgMap) (hexp : rf.PkgPath = [])
    (htag : rf.argTag ≠ "-".toList) (htime : rf.Typ ≠ GoType.time)
    (hk : rf.Typ.Kind = Kind.Struct)
    (hsub : makeArgMap lib env fuel st (rv.Field i rf) = some (xm, st1)) :
    (∃ m1 : ArgMap,
      fieldStep lib (fun s r => makeArgMap lib env fuel s r) rv i rf m st = some (m1, st1) ∧
      (rf.Anonymous = false →
        (∀ k r, xm.get k = some r →
          m1.get (flagName lib rf ++ "-".toList ++ k) = some r) ∧
        (∀ key, (∀ k, k ∈ xm.keys → key ≠ flagName lib rf ++ "-".toList ++ k) →
          m1.get key = m.get key)) ∧
      (rf.Anonymous = true →
        (∀ k r, xm.get k = some r → m1.get k = some r) ∧
        (∀ key, key ∉ xm.keys → m1.get key = m.get key))) ∧
    (rf.argTag = [] → flagName lib rf = ToLower lib rf.Name) ∧
    (rf.argTag ≠ [] → rf.argTag.head? ≠ some '-' → rf.argTag.getLast? ≠ some '-' →
      flagName lib rf = rf.argTag) ∧
    (∀ st0 : Store, ∃ m0 : ArgMap,
      makeArgMap lib testEnv 2 st0 argsRef = some (m0, st0) ∧
      m0.get "sub-bool".toList =
        some { typ := GoType.bool, loc := { obj := 0, path := [14, 0] } }) ∧
    (∀ st0 : Store, ∃ m0 : ArgMap,
      makeArgMap lib countEnv 2 st0 countRef = some (m0, st0) ∧
      m0.get "sub-count".toList =
        some { typ := GoType.int, loc := { obj := 0, path := [0, 0] } } ∧
      m0.get "count".toList = none) ∧
    (∀ st0 : Store, ∃ m0 : ArgMap,
      makeArgMap lib embedEnv 2 st0 embedRef = some (m0, st0) ∧
      m0.get "bool".toList =
        some { typ := GoType.bool, loc := { obj := 0, path := [0, 0] } }) := by
  have hnd : xm.keys.Nodup := makeArgMap_nodup lib env fuel st st1 _ xm hsub
  refine ⟨?_, fun h0 => if_pos h0,
    fun h0 hh hl => (if_neg h0).trans (Trim_dashes 0 rf.argTag hh hl),
    fun st0 => ⟨argsMap, makeArgMap_args lib st0, by decide!⟩,
    fun st0 => ⟨_, rfl, rfl, rfl⟩, fun st0 => ⟨_, rfl, rfl⟩⟩
  have hstep : fieldStep lib (fun s r => makeArgMap lib env fuel s r) rv i rf m st =
      some (if rf.Anonymous = true then mergePlain m xm
        else mergeTagged (flagName lib rf) m xm, st1) := by
    unfold fieldStep
    rw [if_neg (by simpa using hexp), if_neg htag]
    dsimp only
    rw [if_neg htime, if_pos hk, hsub]
    dsimp only
    by_cases ha : rf.Anonymous = true
    · rw [if_pos ha, if_pos ha]
    · rw [if_neg ha, if_neg ha]
      rfl
  refine ⟨_, hstep, ?_, ?_⟩
  · intro ha
    have hinj : Function.Injective (fun k : GoString => flagName lib rf ++ "-".toList ++ k) :=
      fun a b h => List.append_cancel_left h
    have h := get_foldl_set _ hinj xm m hnd
    simp only [ha, Bool.false_eq_true, if_false]
    exact h
  · intro ha
    have h := get_foldl_set id (fun a b h => h) xm m hnd
    simp only [ha, if_true]
    refine ⟨h.1, fun key hkey => h.2 key (fun k hk heq => hkey (by rw [heq]; exact hk))⟩

/-- The hypotheses of `nested_field_keys` hold for the field `Sub` of the record
`Args`, whose sub-record has five keys. -/
theorem nested_field_keys_witness :
    (exported "Sub" (GoType.struct "argparse.SubArgs".toList) "sub").PkgPath = [] ∧
    (exported "Sub" (GoType.struct "argparse.SubArgs".toList) "sub").argTag ≠ "-".toList ∧
    (exported "Sub" (GoType.struct "argparse.SubArgs".toList) "sub").Typ ≠ GoType.time ∧
    (exported "Sub" (GoType.struct "argparse.SubArgs".toList) "sub").Typ.Kind = Kind.Struct ∧
    makeArgMap nullLib testEnv 1 zeroStore
        (argsRef.Field 14 (exported "Sub" (GoType.struct "argparse.SubArgs".toList) "sub")) =
      some ([ leaf "f32s" (GoType.slice GoType.float32) [14, 4],
              leaf "uints" (GoType.slice GoType.uint16) [14, 3],
              leaf "int" GoType.int [14, 2],
              leaf "string" GoType.string [14, 1],
              leaf "bool" GoType.bool [14, 0] ], zeroStore) ∧
    ∃ m1 : ArgMap,
      fieldStep nullLib (fun s r => makeArgMap nullLib testEnv 1 s r) argsRef 14
          (exported "Sub" (GoType.struct "argparse.SubArgs".toList) "sub") [] zeroStore =
        some (m1, zeroStore) ∧
      m1.get "sub-bool".toList = some (leaf "bool" GoType.bool [14, 0]).2 :=
  ⟨rfl, by decide, by decide, rfl, rfl,
    match (nested_field_keys nullLib testEnv 1 zeroStore zeroStore argsRef 14
      (exported "Sub" (GoType.struct "argparse.SubArgs".toList) "sub") []
      [ leaf "f32s" (GoType.slice GoType.float32) [14, 4],
        leaf "uints" (GoType.slice GoType.uint16) [14, 3],
        leaf "int" GoType.int [14, 2],
        leaf "string" GoType.string [14, 1],
        leaf "bool" GoType.bool [14, 0] ] rfl (by decide) (by decide) rfl rfl).1 with
    | ⟨m1, h1, h2, _⟩ => ⟨m1, h1, (h2 rfl).1 "bool".toList _ (by decide!)⟩⟩

/-! ## C8 -/

theorem fieldsLoop_append (lib : Lib) (sub : Store → Ref → Option (ArgMap × Store)) (rv : Ref)
    (pre rest : List StructField) :
    ∀ (i : Nat) (m : ArgMap) (st : Store),
      fieldsLoop lib sub rv (pre ++ rest) i m st =
        match fieldsLoop lib sub rv pre i m st with
        | none => none
        | some r => fieldsLoop lib sub rv rest (i + pre.length) r.1 r.2 := by
  induction pre with
  | nil => intro i m st; rfl
  | cons rf pre ih =>
    intro i m st
    simp only [List.cons_append, fieldsLoop]
    cases fieldStep lib sub rv i rf m st with
    | none => rfl
    | some r =>
      obtain ⟨m1, st1⟩ := r
      have hlen : i + 1 + pre.length = i + (rf :: pre).length := by
        simp only [List.length_cons]; omega
      have h := ih (i + 1) m1 st1
      rw [hlen] at h
      exact h

/-- C8: a field that is not exported or is tagged `arg:"-"` contributes no key: the
loop body of `makeArgMap` leaves the mapping as it is, so that the mapping of a
record is the one built from the fields before it and the fields after it.  The
mapping of `Args` has no key `ignored`, `Ignored` or `private`, and `--ignored=what`
and `--private=eyes` fail with the unknown-flag error. -/
theorem skipped_fields_contribute_no_key (lib : Lib)
    (sub : Store → Ref → Option (ArgMap × Store)) (rv : Ref) (i : Nat) (rf : StructField)
    (m : ArgMap) (st : Store) (pre post : List StructField)
    (h : rf.PkgPath ≠ [] ∨ rf.argTag = "-".toList) :
    fieldStep lib sub rv i rf m st = some (m, st) ∧
    fieldsLoop lib sub rv (pre ++ rf :: post) i m st =
      (match fieldsLoop lib sub rv pre i m st with
       | none => none
       | some r => fieldsLoop lib sub rv post (i + pre.length + 1) r.1 r.2) ∧
    (∀ st0 : Store, makeArgMap lib testEnv 2 st0 argsRef = some (argsMap, st0)) ∧
    argsMap.get "ignored".toList = none ∧ argsMap.get "Ignored".toList = none ∧
    argsMap.get "private".toList = none ∧
    (∀ st0 : Store,
      parseArgs lib testEnv 2 st0 argsRef ["--ignored=what".toList] =
        some { err := some (Err.errorf "Unknown arg '--ignored'".toList), store := st0 }) ∧
    (∀ st0 : Store,
      parseArgs lib testEnv 2 st0 argsRef ["--private=eyes".toList] =
        some { err := some (Err.errorf "Unknown arg '--private'".toList), store := st0 }) := by
  have hstep : ∀ (m1 : ArgMap) (s1 : Store) (j : Nat),
      fieldStep lib sub rv j rf m1 s1 = some (m1, s1) := by
    intro m1 s1 j
    unfold fieldStep
    by_cases h1 : rf.PkgPath ≠ []
    · rw [if_pos h1]
    · rw [if_neg h1]
      rcases h with h | h
      · exact absurd h h1
      · rw [if_pos h]
  refine ⟨hstep m st i, ?_, makeArgMap_args lib, by decide!, by decide!, by decide!, ?_, ?_⟩
  · rw [fieldsLoop_append]
    cases fieldsLoop lib sub rv pre i m st with
    | none => rfl
    | some r =>
      simp only [fieldsLoop, hstep]
  · intro st0
    unfold parseArgs
    rw [makeArgMap_args]
    rfl
  · intro st0
    unfold parseArgs
    rw [makeArgMap_args]
    rfl

/-- The hypothesis of `skipped_fields_contribute_no_key` holds for the field
`Ignored` of the record `Args`. -/
theorem skipped_fields_contribute_no_key_witness :
    ((exported "Ignored" GoType.string "-").PkgPath ≠ [] ∨
      (exported "Ignored" GoType.string "-").argTag = "-".toList) ∧
    fieldStep nullLib (fun _ _ => none) argsRef 15 (exported "Ignored" GoType.string "-")
      argsMap zeroStore = some (argsMap, zeroStore) :=
  ⟨Or.inr rfl,
    (skipped_fields_contribute_no_key nullLib (fun _ _ => none) argsRef 15
      (exported "Ignored" GoType.string "-") argsMap zeroStore [] [] (Or.inr rfl)).1⟩

/-! ## The loop of `parseArgs` as a sequence of flag occurrences -/

theorem token_SplitN2 (a : GoString) :
    '=' ∉ (SplitN2 '=' a).1 ∧ token (SplitN2 '=' a).1 (SplitN2 '=' a).2 = a := by
  induction a with
  | nil => exact ⟨by simp [SplitN2], rfl⟩
  | cons c cs ih =>
    by_cases hc : c = '='
    · subst hc
      simp [SplitN2, token]
    · obtain ⟨ih1, ih2⟩ := ih
      simp only [SplitN2, if_neg hc]
      refine ⟨?_, ?_⟩
      · intro hmem
        rcases List.mem_cons.mp hmem with h | h
        · exact hc h.symm
        · exact ih1 h
      · cases hs : (SplitN2 '=' cs).2 with
        | none =>
          rw [hs] at ih2
          simp only [token] at ih2 ⊢
          rw [ih2]
        | some v =>
          rw [hs] at ih2
          simp only [token] at ih2 ⊢
          rw [List.cons_append, ih2]

theorem Join_singleton (v : GoString) : Join [v] " ".toList = v := by
  simp [Join, List.intercalate]

/-- One iteration of the loop on the first token of a list. -/
theorem parseLoop_cons (lib : Lib) (m : ArgMap) (a : GoString) (post : List GoString)
    (fuel : Nat) (st : Store) :
    parseLoop lib m (a :: post) (fuel + 1) 0 st =
      match occurrence m a post with
      | none =>
        some { err := some (Err.errorf
                 ("Unknown arg '".toList ++ (SplitN2 '=' a).1 ++ "'".toList)),
               store := st }
      | some (rf, vals, rest) =>
        match occurrenceValue lib rf vals with
        | Except.error err =>
          some { err := some (argErr err (SplitN2 '=' a).1 (Join vals " ".toList) rf.typ),
                 store := st }
        | Except.ok v => parseLoop lib m rest fuel 0 (st.write rf.loc v) := by
  obtain ⟨hp, htok⟩ := token_SplitN2 a
  have hfl : flagOf a = Trim (SplitN2 '=' a).1 "-".toList := rfl
  cases hm : m.get (flagOf a) with
  | none =>
    have h := parseLoop_at_unknown lib m [] post fuel st _ (SplitN2 '=' a).2 hp
      (by rw [← hfl]; exact hm)
    rw [htok] at h
    simp only [occurrence, hm]
    exact h
  | some rf =>
    have hm1 : m.get (Trim (SplitN2 '=' a).1 "-".toList) = some rf := by rw [← hfl]; exact hm
    by_cases hb : rf.typ.Kind = Kind.Bool
    · have h := parseLoop_at_bool lib m [] post fuel st _ (SplitN2 '=' a).2 rf hp hm1 hb
      rw [htok] at h
      simp only [occurrence, hm, if_pos hb, occurrenceValue]
      exact h
    · by_cases hs : rf.typ.Kind = Kind.Slice
      · have h := parseLoop_at_slice lib m [] post fuel st _ (SplitN2 '=' a).2 rf hp hm1 hs
        rw [htok] at h
        simp only [occurrence, hm, if_neg hb, if_pos hs, occurrenceValue]
        exact h
      · simp only [occurrence, hm, if_neg hb, if_neg hs]
        cases hinl : (SplitN2 '=' a).2 with
        | some v =>
          have h := parseLoop_at_inline lib m [] post fuel st _ v rf hp hm1 hb hs
          rw [← hinl, htok] at h
          simp only [occurrenceValue, if_neg hb, Join_singleton]
          exact h
        | none =>
          rw [hinl] at htok
          cases post with
          | nil =>
            have h := parseLoop_at_last lib m [] fuel st _ rf hp hm1 hb hs
            rw [htok] at h
            have hd : ∀ s : Store, parseLoop lib m [] fuel 0 s = some { err := none, store := s } :=
              fun s => parseLoop_done lib m [] fuel 0 s (by simp)
            simp only [occurrenceValue, if_neg hb, Join_singleton, hd]
            exact h
          | cons nxt rest =>
            have h := parseLoop_at_next lib m [] rest fuel st _ nxt rf hp hm1 hb hs
            rw [htok] at h
            simp only [occurrenceValue, if_neg hb, Join_singleton]
            exact h

theorem read_write (st : Store) (l k : Loc) (v : Value) :
    (st.write l v).read k = if k = l then some v else st.read k := rfl

/-! ## C10 -/

/-- C10: flags are applied from left to right and each one overwrites.  After a
successful decoding, every cell holds the value of the last flag occurrence whose
target it is (for a list flag, the values that this occurrence collected, coerced,
and nothing of what the cell held or of earlier occurrences), and its initial
content when no occurrence targets it.  For `Args`, `--ints 1 2 --ints 3` leaves
`Ints = [3]` and `--i8=1 --string a --i8 2` leaves `Int8 = 2`, whatever the record
held before. -/
theorem last_occurrence_wins (lib : Lib) (m : ArgMap) (l : Loc) (fuel : Nat)
    (args : List GoString) (st st1 : Store)
    (h : parseLoop lib m args fuel 0 st = some { err := none, store := st1 }) :
    st1.read l =
      (match lastValue lib m l fuel args with
       | some w => some w
       | none => st.read l) ∧
    (∀ st0 : Store, ∃ s : Store,
      parseArgs lib testEnv 2 st0 argsRef
          ["--ints".toList, "1".toList, "2".toList, "--ints".toList, "3".toList] =
        some { err := none, store := s } ∧
      s.read { obj := 0, path := [13] } = some (Value.slice [Value.int 3])) ∧
    (∀ st0 : Store, ∃ s : Store,
      parseArgs lib testEnv 2 st0 argsRef
          ["--i8=1".toList, "--string".toList, "a".toList, "--i8".toList, "2".toList] =
        some { err := none, store := s } ∧
      s.read { obj := 0, path := [0] } = some (Value.int 2) ∧
      s.read { obj := 0, path := [11] } = some (Value.str "a".toList)) := by
  refine ⟨?_, ?_, ?_⟩
  · induction fuel generalizing args st with
    | zero =>
      cases args with
      | nil =>
        rw [parseLoop_done lib m [] 0 0 st (by simp)] at h
        cases h
        rfl
      | cons a post =>
        rw [parseLoop_zero lib m (a :: post) 0 st a (by simp)] at h
        exact absurd h (by simp)
    | succ fuel ih =>
      cases args with
      | nil =>
        rw [parseLoop_done lib m [] (fuel + 1) 0 st (by simp)] at h
        cases h
        rfl
      | cons a post =>
        rw [parseLoop_cons] at h
        simp only [lastValue]
        cases ho : occurrence m a post with
        | none =>
          rw [ho] at h
          simp at h
        | some r =>
          obtain ⟨rf, vals, rest⟩ := r
          rw [ho] at h
          simp only at h ⊢
          cases hv : occurrenceValue lib rf vals with
          | error e =>
            rw [hv] at h
            simp at h
          | ok v =>
            rw [hv] at h
            simp only at h ⊢
            rw [ih rest (st.write rf.loc v) h]
            cases lastValue lib m l fuel rest with
            | some w => rfl
            | none =>
              simp only [read_write]
              by_cases hl : rf.loc = l
              · rw [if_pos hl, if_pos hl.symm]
              · rw [if_neg hl, if_neg (fun e => hl e.symm)]
  · intro st0
    refine ⟨(st0.write { obj := 0, path := [13] }
      (Value.slice [Value.int 1, Value.int 2])).write { obj := 0, path := [13] }
      (Value.slice [Value.int 3]), ?_, ?_⟩
    · unfold parseArgs
      rw [makeArgMap_args]
      rfl
    · rfl
  · intro st0
    refine ⟨((st0.write { obj := 0, path := [0] } (Value.int 1)).write
      { obj := 0, path := [11] } (Value.str "a".toList)).write { obj := 0, path := [0] }
      (Value.int 2), ?_, ?_, ?_⟩
    · unfold parseArgs
      rw [makeArgMap_args]
      rfl
    · rfl
    · rfl

/-- The hypothesis of `last_occurrence_wins` holds for `--ints 1 2 --ints 3` and the
record `Args`, whose `Ints` ends as `[3]`. -/
theorem last_occurrence_wins_witness :
    parseLoop nullLib argsMap
        ["--ints".toList, "1".toList, "2".toList, "--ints".toList, "3".toList] 5 0 zeroStore =
      some { err := none,
             store := (zeroStore.write { obj := 0, path := [13] }
                 (Value.slice [Value.int 1, Value.int 2])).write
               { obj := 0, path := [13] } (Value.slice [Value.int 3]) } ∧
    ((zeroStore.write { obj := 0, path := [13] }
        (Value.slice [Value.int 1, Value.int 2])).write
      { obj := 0, path := [13] } (Value.slice [Value.int 3])).read { obj := 0, path := [13] } =
      (match lastValue nullLib argsMap { obj := 0, path := [13] } 5
          ["--ints".toList, "1".toList, "2".toList, "--ints".toList, "3".toList] with
       | some w => some w
       | none => zeroStore.read { obj := 0, path := [13] }) :=
  ⟨rfl, (last_occurrence_wins nullLib argsMap { obj := 0, path := [13] } 5
      ["--ints".toList, "1".toList, "2".toList, "--ints".toList, "3".toList] zeroStore _
      rfl).1⟩

/-! ## C18 -/

theorem parseTimeLoop_none (lib : Lib) (v : GoString) (ls : List GoString)
    (h : ∀ l ∈ ls, lib.ParseInLocation l v = none) :
    parseTimeLoop lib v ls =
      Except.error (Err.errorf ("can't parse ".toList ++ v ++ " as a time stamp".toList)) := by
  induction ls with
  | nil => rfl
  | cons l ls ih =>
    have h1 : lib.ParseInLocation l v = none := h l (List.mem_cons_self _ _)
    simp only [parseTimeLoop, h1]
    exact ih (fun l1 hl1 => h l1 (List.mem_cons_of_mem _ hl1))

theorem parseTimeLoop_first (lib : Lib) (v : GoString) (before after : List GoString)
    (l : GoString) (t : Time) (h : ∀ l1 ∈ before, lib.ParseInLocation l1 v = none)
    (hl : lib.ParseInLocation l v = some t) :
    parseTimeLoop lib v (before ++ l :: after) = Except.ok t := by
  induction before with
  | nil => simp only [List.nil_append, parseTimeLoop, hl]
  | cons b before ih =>
    have h1 : lib.ParseInLocation b v = none := h b (List.mem_cons_self _ _)
    simp only [List.cons_append, parseTimeLoop, h1]
    exact ih (fun l1 hl1 => h l1 (List.mem_cons_of_mem _ hl1))

theorem parseTimeLoop_ok_or_none (lib : Lib) (v : GoString) (ls : List GoString) :
    (∃ t, parseTimeLoop lib v ls = Except.ok t) ∨
      ∀ l ∈ ls, lib.ParseInLocation l v = none := by
  induction ls with
  | nil => exact Or.inr (fun l hl => absurd hl (List.not_mem_nil l))
  | cons l ls ih =>
    cases hl : lib.ParseInLocation l v with
    | some t => exact Or.inl ⟨t, by simp only [parseTimeLoop, hl]⟩
    | none =>
      rcases ih with ⟨t, ht⟩ | hn
      · exact Or.inl ⟨t, by simp only [parseTimeLoop, hl]; exact ht⟩
      · refine Or.inr (fun l1 hl1 => ?_)
        rcases List.mem_cons.mp hl1 with h | h
        · rw [h]; exact hl
        · exact hn l1 h

/-- C18: `parseTime` tries its layouts in order and returns the result of the
earliest layout of the list under which `v` parses: what the later layouts do with
`v` does not change the result.  It fails exactly when `v` parses under no layout,
and the error is then `can't parse v as a time stamp`, with `v` as given.  When no
layout parses `2019-10-30T19:43:21`, `--time 2019-10-30T19:43:21` fails with that
error for this string. -/
theorem parseTime_first_layout_wins (lib : Lib) (v : GoString) :
    (∀ (before after : List GoString) (l : GoString) (t : Time),
      layouts = before ++ l :: after → (∀ l1 ∈ before, lib.ParseInLocation l1 v = none) →
      lib.ParseInLocation l v = some t →
      parseTime lib v = Except.ok t ∧
      ∀ lib1 : Lib, (∀ l1 ∈ before, lib1.ParseInLocation l1 v = none) →
        lib1.ParseInLocation l v = some t → parseTime lib1 v = Except.ok t) ∧
    ((∀ l ∈ layouts, lib.ParseInLocation l v = none) ↔
      ∃ e, parseTime lib v = Except.error e) ∧
    ((∀ l ∈ layouts, lib.ParseInLocation l v = none) →
      parseTime lib v =
        Except.error (Err.errorf ("can't parse ".toList ++ v ++ " as a time stamp".toList))) ∧
    ((∀ l ∈ layouts, lib.ParseInLocation l "2019-10-30T19:43:21".toList = none) →
      ∀ st0 : Store,
        parseArgs lib testEnv 2 st0 argsRef ["--time".toList, "2019-10-30T19:43:21".toList] =
          some { err := some (argErr
                   (Err.wrap (Err.errorf
                     "can't parse 2019-10-30T19:43:21 as a time stamp".toList)
                     "error parsing time".toList)
                   "--time".toList "2019-10-30T19:43:21".toList GoType.time),
                 store := st0 }) := by
  refine ⟨?_, ?_, ?_, ?_⟩
  · intro before after l t hls hb hl
    refine ⟨?_, ?_⟩
    · unfold parseTime
      rw [hls]
      exact parseTimeLoop_first lib v before after l t hb hl
    · intro lib1 hb1 hl1
      unfold parseTime
      rw [hls]
      exact parseTimeLoop_first lib1 v before after l t hb1 hl1
  · constructor
    · intro h
      exact ⟨_, parseTimeLoop_none lib v layouts h⟩
    · rintro ⟨e, he⟩
      rcases parseTimeLoop_ok_or_none lib v layouts with ⟨t, ht⟩ | hn
      · unfold parseTime at he
        rw [ht] at he
        exact absurd he (by simp)
      · exact hn
  · intro h
    exact parseTimeLoop_none lib v layouts h
  · intro h st0
    have hp : parseInto lib GoType.time ["2019-10-30T19:43:21".toList] =
        Except.error (Err.wrap (Err.errorf
          "can't parse 2019-10-30T19:43:21 as a time stamp".toList)
          "error parsing time".toList) := by
      have h1 := parseTimeLoop_none lib "2019-10-30T19:43:21".toList layouts h
      have h2 : parseInto lib GoType.time ["2019-10-30T19:43:21".toList] =
          match parseTime lib "2019-10-30T19:43:21".toList with
          | Except.error err => Except.error (Err.wrap err "error parsing time".toList)
          | Except.ok tm => Except.ok (Value.time tm) := rfl
      rw [h2]
      unfold parseTime
      rw [h1]
      rfl
    unfold parseArgs
    rw [makeArgMap_args]
    have hstep := parseLoop_at_next lib argsMap [] [] 1 st0 "--time".toList
      "2019-10-30T19:43:21".toList (leaf "time" GoType.time [20]).2 (by decide) (by decide!)
      (by decide) (by decide)
    have hty : (leaf "time" GoType.time [20]).2.typ = GoType.time := rfl
    rw [hty, hp] at hstep
    exact hstep

/-! ## `parseInto` on lists -/

theorem parseInto_slice (lib : Lib) (e : GoType) (vals : List GoString) :
    parseInto lib (GoType.slice e) vals =
      match parseElems (fun sv => parseInto lib e [sv]) 0 vals with
      | Except.error err => Except.error err
      | Except.ok xs => Except.ok (Value.slice xs) := by
  rw [parseInto]
  simp [GoType.Kind]

theorem parseElems_ok (f : GoString → Except Err Value) (vals : List GoString)
    (xs : List Value) (h : List.Forall₂ (fun v x => f v = Except.ok x) vals xs) :
    ∀ i : Nat, parseElems f i vals = Except.ok xs := by
  induction h with
  | nil => intro i; rfl
  | cons hv _ ih =>
    intro i
    simp only [parseElems, hv, ih (i + 1)]

theorem parseElems_error (f : GoString → Except Err Value) (good rest : List GoString)
    (xs : List Value) (v : GoString) (err : Err)
    (h : List.Forall₂ (fun v x => f v = Except.ok x) good xs) (hv : f v = Except.error err) :
    ∀ i : Nat, parseElems f i (good ++ v :: rest) =
      Except.error (Err.wrap err
        ("error parsing list element ".toList ++ Nat.toDigits 10 (i + good.length))) := by
  induction h with
  | nil =>
    intro i
    simp only [List.nil_append, parseElems, hv, List.length_nil, Nat.add_zero]
  | @cons a b l1 l2 hg _ ih =>
    intro i
    have hlen : i + 1 + l1.length = i + (a :: l1).length := by
      simp only [List.length_cons]; omega
    have h1 := ih (i + 1)
    rw [hlen] at h1
    rw [List.cons_append, parseElems]
    simp only [hg]
    rw [h1]

/-! ## C14 -/

/-- C14: coercion to a list applies the coercion of the element type to each value on
its own.  When every value is coerced, the result is the list of the coerced values
in the same order, one per value (the empty list for no value).  Otherwise it fails
at the first value that fails, the error is that of the value wrapped with
`error parsing list element i` for its index `i`, and `parseArgs` leaves the
store as it was: no partly filled list is stored.  `--sub-uints=10,15,-20` fails
at element 2. -/
theorem list_coercion_elementwise (lib : Lib) (e : GoType) :
    (∀ (vals : List GoString) (xs : List Value),
      List.Forall₂ (fun v x => parseInto lib e [v] = Except.ok x) vals xs →
      parseInto lib (GoType.slice e) vals = Except.ok (Value.slice xs) ∧
      xs.length = vals.length) ∧
    parseInto lib (GoType.slice e) [] = Except.ok (Value.slice []) ∧
    (∀ (good rest : List GoString) (xs : List Value) (v : GoString) (err : Err),
      List.Forall₂ (fun v x => parseInto lib e [v] = Except.ok x) good xs →
      parseInto lib e [v] = Except.error err →
      parseInto lib (GoType.slice e) (good ++ v :: rest) =
        Except.error (Err.wrap err
          ("error parsing list element ".toList ++ Nat.toDigits 10 good.length)) ∧
      ∀ (m : ArgMap) (pre post : List GoString) (fuel : Nat) (st : Store) (p : GoString)
          (inl : Option GoString) (rf : Ref), '=' ∉ p → m.get (Trim p "-".toList) = some rf →
        rf.typ = GoType.slice e →
        inlineValues inl ++ post.takeWhile (fun a => !endsList m a) = good ++ v :: rest →
        parseLoop lib m (pre ++ token p inl :: post) (fuel + 1) pre.length st =
          some { err := some (argErr (Err.wrap err
                   ("error parsing list element ".toList ++ Nat.toDigits 10 good.length))
                   p (Join (good ++ v :: rest) " ".toList) (GoType.slice e)),
                 store := st }) ∧
    (∀ st0 : Store,
      parseArgs lib testEnv 2 st0 argsRef ["--sub-uints=10,15,-20".toList] =
        some { err := some (argErr
                 (Err.wrap (Err.wrap
                   (Err.num "ParseUint".toList "-20".toList NumErrKind.ErrSyntax)
                   "error parsing uint".toList) "error parsing list element 2".toList)
                 "--sub-uints".toList "10 15 -20".toList (GoType.slice GoType.uint16)),
               store := st0 }) := by
  refine ⟨?_, ?_, ?_, ?_⟩
  · intro vals xs h
    refine ⟨?_, h.length_eq.symm⟩
    rw [parseInto_slice, parseElems_ok _ vals xs h 0]
  · rw [parseInto_slice]
    rfl
  · intro good rest xs v err h hv
    have hfail : parseInto lib (GoType.slice e) (good ++ v :: rest) =
        Except.error (Err.wrap err
          ("error parsing list element ".toList ++ Nat.toDigits 10 good.length)) := by
      rw [parseInto_slice, parseElems_error _ good rest xs v err h hv 0, Nat.zero_add]
    refine ⟨hfail, ?_⟩
    intro m pre post fuel st p inl rf hp hm hrt hvals
    have hk : rf.typ.Kind = Kind.Slice := by rw [hrt]; rfl
    rw [parseLoop_at_slice lib m pre post fuel st p inl rf hp hm hk, hvals, hrt, hfail]
  · intro st0
    unfold parseArgs
    rw [makeArgMap_args]
    rfl

/-! ## C12 -/

theorem argErr_Error (lib : Lib) (err : Err) (p vals : GoString) (t : GoType) :
    (argErr err p vals t).Error lib =
      "error parsing arg ".toList ++ p ++ " (".toList ++ vals ++ ") into ".toList ++
        t.typeName ++ ": ".toList ++ err.Error lib := by
  simp [argErr, Err.Error]

/-- C12: when the coercion of the values of a flag fails with `err`, `parseArgs`
returns an error whose message is `error parsing arg F (V) into T`, then `: ` and
the message of `err`, where `F` is the flag part of the token as typed, `V` is the
value, or the values joined by one space, and `T` is the name of the type of the
target.  For `Args`, `--i8=junk` gives `error parsing arg --i8 (junk) into int8`
and `--sub-uints=10,15,-20` gives
`error parsing arg --sub-uints (10 15 -20) into []uint16`. -/
theorem coercion_error_message (lib : Lib) (m : ArgMap) (pre : List GoString) (fuel : Nat)
    (st : Store) (p : GoString) (rf : Ref) (err : Err) (hp : '=' ∉ p)
    (hm : m.get (Trim p "-".toList) = some rf) :
    (∀ (inl : Option GoString) (post : List GoString), rf.typ.Kind = Kind.Slice →
      parseInto lib rf.typ (inlineValues inl ++ post.takeWhile (fun a => !endsList m a)) =
        Except.error err →
      ∃ e : Err,
        parseLoop lib m (pre ++ token p inl :: post) (fuel + 1) pre.length st =
          some { err := some e, store := st } ∧
        e.Error lib =
          "error parsing arg ".toList ++ p ++ " (".toList ++
            Join (inlineValues inl ++ post.takeWhile (fun a => !endsList m a)) " ".toList ++
            ") into ".toList ++ rf.typ.typeName ++ ": ".toList ++ err.Error lib) ∧
    (rf.typ.Kind ≠ Kind.Bool → rf.typ.Kind ≠ Kind.Slice →
      (∀ (v : GoString) (post : List GoString), parseInto lib rf.typ [v] = Except.error err →
        ∃ e : Err,
          (parseLoop lib m (pre ++ (p ++ '=' :: v) :: post) (fuel + 1) pre.length st =
              some { err := some e, store := st } ∧
            parseLoop lib m (pre ++ p :: v :: post) (fuel + 1) pre.length st =
              some { err := some e, store := st }) ∧
          e.Error lib =
            "error parsing arg ".toList ++ p ++ " (".toList ++ v ++ ") into ".toList ++
              rf.typ.typeName ++ ": ".toList ++ err.Error lib) ∧
      (parseInto lib rf.typ [[]] = Except.error err →
        ∃ e : Err,
          parseLoop lib m (pre ++ [p]) (fuel + 1) pre.length st =
            some { err := some e, store := st } ∧
          e.Error lib =
            "error parsing arg ".toList ++ p ++ " () into ".toList ++
              rf.typ.typeName ++ ": ".toList ++ err.Error lib)) ∧
    (∀ st0 : Store, ∃ e : Err,
      parseArgs lib testEnv 2 st0 argsRef ["--i8=junk".toList] =
        some { err := some e, store := st0 } ∧
      e.Error lib =
        "error parsing arg --i8 (junk) into int8: error parsing int: ".toList ++
          ("strconv.ParseInt: parsing ".toList ++ lib.Quote "junk".toList ++
            ": invalid syntax".toList)) ∧
    (∀ st0 : Store, ∃ e : Err,
      parseArgs lib testEnv 2 st0 argsRef ["--sub-uints=10,15,-20".toList] =
        some { err := some e, store := st0 } ∧
      e.Error lib =
        ("error parsing arg --sub-uints (10 15 -20) into []uint16: ".toList ++
          "error parsing list element 2: error parsing uint: ".toList) ++
          ("strconv.ParseUint: parsing ".toList ++ lib.Quote "-20".toList ++
            ": invalid syntax".toList)) := by
  refine ⟨?_, ?_, ?_, ?_⟩
  · intro inl post hk hfail
    refine ⟨_, ?_, argErr_Error lib err p _ rf.typ⟩
    rw [parseLoop_at_slice lib m pre post fuel st p inl rf hp hm hk, hfail]
  · intro hb hs
    refine ⟨?_, ?_⟩
    · intro v post hfail
      refine ⟨_, ⟨?_, ?_⟩, argErr_Error lib err p v rf.typ⟩
      · have h := parseLoop_at_inline lib m pre post fuel st p v rf hp hm hb hs
        rw [hfail] at h
        exact h
      · have h := parseLoop_at_next lib m pre post fuel st p v rf hp hm hb hs
        rw [hfail] at h
        exact h
    · intro hfail
      refine ⟨argErr err p [] rf.typ, ?_, ?_⟩
      · have h := parseLoop_at_last lib m pre fuel st p rf hp hm hb hs
        rw [hfail] at h
        exact h
      · rw [argErr_Error]
        simp
  · intro st0
    refine ⟨argErr (Err.wrap (Err.num "ParseInt".toList "junk".toList NumErrKind.ErrSyntax)
      "error parsing int".toList) "--i8".toList "junk".toList GoType.int8, ?_, ?_⟩
    · unfold parseArgs
      rw [makeArgMap_args]
      rfl
    · simp [argErr, Err.Error, GoType.typeName]
  · intro st0
    refine ⟨argErr (Err.wrap (Err.wrap
      (Err.num "ParseUint".toList "-20".toList NumErrKind.ErrSyntax)
      "error parsing uint".toList) "error parsing list element 2".toList)
      "--sub-uints".toList "10 15 -20".toList (GoType.slice GoType.uint16), ?_, ?_⟩
    · unfold parseArgs
      rw [makeArgMap_args]
      rfl
    · simp [argErr, Err.Error, GoType.typeName]

/-- The hypotheses of `coercion_error_message` hold for the flag `--i8` of `Args`;
with the value `junk` the message starts with
`error parsing arg --i8 (junk) into int8`. -/
theorem coercion_error_message_witness :
    '=' ∉ "--i8".toList ∧
    argsMap.get (Trim "--i8".toList "-".toList) = some (leaf "i8" GoType.int8 [0]).2 ∧
    ∃ e : Err,
      (parseLoop nullLib argsMap ([] ++ ("--i8".toList ++ '=' :: "junk".toList) :: [])
            (0 + 1) ([] : List GoString).length zeroStore =
          some { err := some e, store := zeroStore } ∧
        parseLoop nullLib argsMap ([] ++ "--i8".toList :: "junk".toList :: [])
            (0 + 1) ([] : List GoString).length zeroStore =
          some { err := some e, store := zeroStore }) ∧
      e.Error nullLib =
        "error parsing arg ".toList ++ "--i8".toList ++ " (".toList ++ "junk".toList ++
          ") into ".toList ++ (leaf "i8" GoType.int8 [0]).2.typ.typeName ++ ": ".toList ++
          (Err.wrap (Err.num "ParseInt".toList "junk".toList NumErrKind.ErrSyntax)
            "error parsing int".toList).Error nullLib :=
  ⟨by decide, by decide!,
    ((coercion_error_message nullLib argsMap [] 0 zeroStore "--i8".toList
      (leaf "i8" GoType.int8 [0]).2
      (Err.wrap (Err.num "ParseInt".toList "junk".toList NumErrKind.ErrSyntax)
        "error parsing int".toList) (by decide) (by decide!)).2.1 (by decide) (by decide)).1
      "junk".toList [] rfl⟩

/-! ## C19 -/

theorem parseInto_arity (lib : Lib) (t : GoType) (vals : List GoString)
    (hk : t.Kind ≠ Kind.Slice) (hl : vals.length ≠ 1) :
    parseInto lib t vals = Except.error (arityErr vals.length) := by
  cases t <;>
    first
    | exact absurd rfl hk
    | (unfold parseInto; rw [if_pos ⟨hk, hl⟩]; rfl)

theorem cause_ne_arity_of_head (msg : GoString) (n : Nat)
    (h : ¬ ("can't s".toList <+: msg)) : (Err.errorf msg).cause ≠ arityErr n := by
  intro he
  apply h
  have : msg = "can't set a scalar to ".toList ++ Nat.toDigits 10 n ++ " values".toList := by
    simpa [Err.cause, arityErr] using he
  rw [this]
  exact ⟨"et a scalar to ".toList ++ Nat.toDigits 10 n ++ " values".toList, by simp⟩

/-- A call of `parseInto` with one value never ends in the arity error. -/
theorem parseInto_one_not_arity (lib : Lib) (t : GoType) :
    ∀ (v : GoString) (e : Err), parseInto lib t [v] = Except.error e →
      ∀ n : Nat, e.cause ≠ arityErr n := by
  induction t with
  | slice el ih =>
    intro v e he n
    rw [parseInto_slice] at he
    simp only [parseElems] at he
    cases hv : parseInto lib el [v] with
    | error e1 =>
      rw [hv] at he
      simp only [Except.error.injEq] at he
      rw [← he]
      exact ih v e1 hv n
    | ok x =>
      rw [hv] at he
      simp at he
  | time =>
    intro v e he n
    have h2 : parseInto lib GoType.time [v] =
        match parseTime lib v with
        | Except.error err => Except.error (Err.wrap err "error parsing time".toList)
        | Except.ok tm => Except.ok (Value.time tm) := rfl
    rw [h2] at he
    rcases parseTimeLoop_ok_or_none lib v layouts with ⟨tm, htm⟩ | hn
    · unfold parseTime at he
      rw [htm] at he
      simp at he
    · unfold parseTime at he
      rw [parseTimeLoop_none lib v layouts hn] at he
      simp only [Except.error.injEq] at he
      rw [← he]
      exact cause_ne_arity_of_head _ n (by
        rintro ⟨r, hr⟩
        simp at hr)
  | string =>
    intro v e he n
    have h2 : parseInto lib GoType.string [v] = Except.ok (Value.str v) := rfl
    rw [h2] at he
    simp at he
  | float32 =>
    intro v e he n
    have h2 : parseInto lib GoType.float32 [v] =
        match (lib.ParseFloat v).2 with
        | some k => Except.error
            (Err.wrap (Err.num "ParseFloat".toList v k) "error parsing float".toList)
        | none => Except.ok (Value.float (lib.toFloat32 (lib.ParseFloat v).1)) := rfl
    rw [h2] at he
    cases hf : (lib.ParseFloat v).2 with
    | none => rw [hf] at he; simp at he
    | some k =>
      rw [hf] at he
      simp only [Except.error.injEq] at he
      rw [← he]
      simp [Err.cause, arityErr]
  | float64 =>
    intro v e he n
    have h2 : parseInto lib GoType.float64 [v] =
        match (lib.ParseFloat v).2 with
        | some k => Except.error
            (Err.wrap (Err.num "ParseFloat".toList v k) "error parsing float".toList)
        | none => Except.ok (Value.float (lib.ParseFloat v).1) := rfl
    rw [h2] at he
    cases hf : (lib.ParseFloat v).2 with
    | none => rw [hf] at he; simp at he
    | some k =>
      rw [hf] at he
      simp only [Except.error.injEq] at he
      rw [← he]
      simp [Err.cause, arityErr]
  | int | int8 | int16 | int32 | int64 =>
    intro v e he n
    rw [parseInto_signed lib _ (by decide)] at he
    cases hf : (parseInt v).2 with
    | none => rw [hf] at he; simp at he
    | some k =>
      rw [hf] at he
      simp only [Except.error.injEq] at he
      rw [← he]
      have hk : ∃ fn inp kind, k = Err.num fn inp kind := by
        unfold parseInt at hf
        split_ifs at hf
        · cases h3 : (ParseInt (List.drop 2 v) 16 64).2 with
          | none => rw [h3] at hf; simp at hf
          | some kk => rw [h3] at hf; simp at hf; exact ⟨_, _, _, hf.symm⟩
        · cases h3 : (ParseInt v 10 64).2 with
          | none => rw [h3] at hf; simp at hf
          | some kk => rw [h3] at hf; simp at hf; exact ⟨_, _, _, hf.symm⟩
      obtain ⟨fn, inp, kind, rfl⟩ := hk
      simp [Err.cause, arityErr]
  | uint | uint8 | uint16 | uint32 | uint64 =>
    intro v e he n
    rw [parseInto_unsigned lib _ (by decide)] at he
    cases hf : (parseUint v).2 with
    | none => rw [hf] at he; simp at he
    | some k =>
      rw [hf] at he
      simp only [Except.error.injEq] at he
      rw [← he]
      have hk : ∃ fn inp kind, k = Err.num fn inp kind := by
        unfold parseUint at hf
        split_ifs at hf
        · cases h3 : (ParseUint (List.drop 2 v) 16 64).2 with
          | none => rw [h3] at hf; simp at hf
          | some kk => rw [h3] at hf; simp at hf; exact ⟨_, _, _, hf.symm⟩
        · cases h3 : (ParseUint v 10 64).2 with
          | none => rw [h3] at hf; simp at hf
          | some kk => rw [h3] at hf; simp at hf; exact ⟨_, _, _, hf.symm⟩
      obtain ⟨fn, inp, kind, rfl⟩ := hk
      simp [Err.cause, arityErr]
  | bool =>
    intro v e he n
    have h2 : parseInto lib GoType.bool [v] = Except.error (unsupportedErr GoType.bool) := rfl
    rw [h2] at he
    simp only [Except.error.injEq] at he
    rw [← he]
    exact cause_ne_arity_of_head _ n (by rintro ⟨r, hr⟩; simp at hr)
  | map k v0 _ _ =>
    intro v e he n
    have h2 : parseInto lib (GoType.map k v0) [v] =
        Except.error (unsupportedErr (GoType.map k v0)) := rfl
    rw [h2] at he
    simp only [Except.error.injEq] at he
    rw [← he]
    exact cause_ne_arity_of_head _ n (by rintro ⟨r, hr⟩; simp at hr)
  | ptr el _ =>
    intro v e he n
    have h2 : parseInto lib (GoType.ptr el) [v] =
        Except.error (unsupportedErr (GoType.ptr el)) := rfl
    rw [h2] at he
    simp only [Except.error.injEq] at he
    rw [← he]
    exact cause_ne_arity_of_head _ n (by rintro ⟨r, hr⟩; simp at hr)
  | struct name =>
    intro v e he n
    have h2 : parseInto lib (GoType.struct name) [v] =
        Except.error (unsupportedErr (GoType.struct name)) := rfl
    rw [h2] at he
    simp only [Except.error.injEq] at he
    rw [← he]
    exact cause_ne_arity_of_head _ n (by rintro ⟨r, hr⟩; simp at hr)

theorem parseElems_error_cause (f : GoString → Except Err Value) (vals : List GoString) :
    ∀ (i : Nat) (e : Err), parseElems f i vals = Except.error e →
      ∃ v e1, v ∈ vals ∧ f v = Except.error e1 ∧ e.cause = e1.cause := by
  induction vals with
  | nil => intro i e h; simp [parseElems] at h
  | cons v vals ih =>
    intro i e h
    simp only [parseElems] at h
    cases hv : f v with
    | error e1 =>
      rw [hv] at h
      simp only [Except.error.injEq] at h
      exact ⟨v, e1, List.mem_cons_self _ _, hv, by rw [← h]; rfl⟩
    | ok x =>
      rw [hv] at h
      simp only at h
      cases hr : parseElems f (i + 1) vals with
      | error e2 =>
        rw [hr] at h
        simp only [Except.error.injEq] at h
        obtain ⟨v1, e1, hmem, hf, hc⟩ := ih (i + 1) e2 hr
        exact ⟨v1, e1, List.mem_cons_of_mem _ hmem, hf, by rw [← h]; exact hc⟩
      | ok xs =>
        rw [hr] at h
        simp at h

theorem parseInto_not_arity (lib : Lib) (t : GoType) (vals : List GoString)
    (h : t.Kind = Kind.Slice ∨ vals.length = 1) (e : Err)
    (he : parseInto lib t vals = Except.error e) (n : Nat) : e.cause ≠ arityErr n := by
  by_cases hk : t.Kind = Kind.Slice
  · cases t with
    | slice el =>
      rw [parseInto_slice] at he
      cases hr : parseElems (fun sv => parseInto lib el [sv]) 0 vals with
      | error e2 =>
        rw [hr] at he
        simp only [Except.error.injEq] at he
        obtain ⟨v1, e1, _, hf, hc⟩ := parseElems_error_cause _ vals 0 e2 hr
        rw [← he, hc]
        exact parseInto_one_not_arity lib el v1 e1 hf n
      | ok xs =>
        rw [hr] at he
        simp at he
    | _ => simp [GoType.Kind] at hk
  · have hl : vals.length = 1 := by
      rcases h with h | h
      · exact absurd h hk
      · exact h
    match vals, hl with
    | [v], _ => exact parseInto_one_not_arity lib t v e he n

theorem occurrence_arity (m : ArgMap) (a : GoString) (post : List GoString) (rf : Ref)
    (vals rest : List GoString) (h : occurrence m a post = some (rf, vals, rest)) :
    rf.typ.Kind = Kind.Bool ∨ rf.typ.Kind = Kind.Slice ∨ vals.length = 1 := by
  unfold occurrence at h
  cases hm : m.get (flagOf a) with
  | none => rw [hm] at h; simp at h
  | some r =>
    rw [hm] at h
    simp only at h
    by_cases hb : r.typ.Kind = Kind.Bool
    · rw [if_pos hb] at h
      simp only [Option.some.injEq, Prod.mk.injEq] at h
      rw [← h.1]
      exact Or.inl hb
    · rw [if_neg hb] at h
      by_cases hs : r.typ.Kind = Kind.Slice
      · rw [if_pos hs] at h
        simp only [Option.some.injEq, Prod.mk.injEq] at h
        rw [← h.1]
        exact Or.inr (Or.inl hs)
      · rw [if_neg hs] at h
        refine Or.inr (Or.inr ?_)
        cases hi : (SplitN2 '=' a).2 with
        | some v =>
          rw [hi] at h
          simp only [Option.some.injEq, Prod.mk.injEq] at h
          rw [← h.2.1]
          rfl
        | none =>
          rw [hi] at h
          cases post with
          | nil =>
            simp only [Option.some.injEq, Prod.mk.injEq] at h
            rw [← h.2.1]
            rfl
          | cons nxt rest1 =>
            simp only [Option.some.injEq, Prod.mk.injEq] at h
            rw [← h.2.1]
            rfl

theorem parseLoop_not_arity (lib : Lib) (m : ArgMap) :
    ∀ (fuel : Nat) (args : List GoString) (st : Store) (o : Outcome) (e : Err),
      parseLoop lib m args fuel 0 st = some o → o.err = some e →
      ∀ n : Nat, e.cause ≠ arityErr n := by
  intro fuel
  induction fuel with
  | zero =>
    intro args st o e h he n
    cases args with
    | nil =>
      rw [parseLoop_done lib m [] 0 0 st (by simp)] at h
      cases h
      simp at he
    | cons a post =>
      rw [parseLoop_zero lib m (a :: post) 0 st a (by simp)] at h
      simp at h
  | succ fuel ih =>
    intro args st o e h he n
    cases args with
    | nil =>
      rw [parseLoop_done lib m [] (fuel + 1) 0 st (by simp)] at h
      cases h
      simp at he
    | cons a post =>
      rw [parseLoop_cons] at h
      cases ho : occurrence m a post with
      | none =>
        rw [ho] at h
        simp only [Option.some.injEq] at h
        rw [← h] at he
        simp only [Option.some.injEq] at he
        rw [← he]
        exact cause_ne_arity_of_head _ n (by rintro ⟨r, hr⟩; simp at hr)
      | some r =>
        obtain ⟨rf, vals, rest⟩ := r
        rw [ho] at h
        simp only at h
        cases hv : occurrenceValue lib rf vals with
        | ok v =>
          rw [hv] at h
          exact ih rest _ o e h he n
        | error err =>
          rw [hv] at h
          simp only [Option.some.injEq] at h
          rw [← h] at he
          simp only [Option.some.injEq] at he
          rw [← he]
          have hc : (argErr err (SplitN2 '=' a).1 (Join vals " ".toList) rf.typ).cause =
              err.cause := rfl
          rw [hc]
          unfold occurrenceValue at hv
          by_cases hb : rf.typ.Kind = Kind.Bool
          · rw [if_pos hb] at hv
            simp at hv
          · rw [if_neg hb] at hv
            rcases occurrence_arity m a post rf vals rest ho with h1 | h1
            · exact absurd h1 hb
            · exact parseInto_not_arity lib rf.typ vals h1 err hv n

/-- C19: every call of `parseInto` that `parseArgs` makes passes exactly one value
unless the target is a list, and the calls for the elements of a list pass one
value each; so the arity error, which `parseInto` returns for a target that is
not a list and a number of values other than one, is never the cause of an error
that `parseArgs` returns.  A scalar flag without operand is coerced from the
empty string: for `Args`, `--i8` alone fails with a syntax error of
`strconv.ParseInt` on the empty string. -/
theorem arity_error_unreachable (lib : Lib) :
    (∀ (m : ArgMap) (a : GoString) (post : List GoString) (rf : Ref)
        (vals rest : List GoString), occurrence m a post = some (rf, vals, rest) →
      rf.typ.Kind = Kind.Bool ∨ rf.typ.Kind = Kind.Slice ∨ vals.length = 1) ∧
    (∀ (e : GoType) (vals : List GoString),
      parseInto lib (GoType.slice e) vals =
        match parseElems (fun sv => parseInto lib e [sv]) 0 vals with
        | Except.error err => Except.error err
        | Except.ok xs => Except.ok (Value.slice xs)) ∧
    (∀ (t : GoType) (vals : List GoString), t.Kind ≠ Kind.Slice → vals.length ≠ 1 →
      parseInto lib t vals = Except.error (arityErr vals.length)) ∧
    (∀ (m : ArgMap) (args : List GoString) (fuel : Nat) (st : Store) (o : Outcome) (e : Err),
      parseLoop lib m args fuel 0 st = some o → o.err = some e →
      ∀ n : Nat, e.cause ≠ arityErr n) ∧
    (∀ (env : TypeEnv) (fuel : Nat) (st : Store) (rv : Ref) (args : List GoString)
        (o : Outcome) (e : Err),
      parseArgs lib env fuel st rv args = some o → o.err = some e →
      ∀ n : Nat, e.cause ≠ arityErr n) ∧
    (∀ st0 : Store,
      parseArgs lib testEnv 2 st0 argsRef ["--i8".toList] =
        some { err := some (argErr
                 (Err.wrap (Err.num "ParseInt".toList [] NumErrKind.ErrSyntax)
                   "error parsing int".toList) "--i8".toList [] GoType.int8),
               store := st0 }) := by
  refine ⟨occurrence_arity, parseInto_slice lib, parseInto_arity lib,
    fun m args fuel => parseLoop_not_arity lib m fuel args, ?_, ?_⟩
  · intro env fuel st rv args o e h he n
    unfold parseArgs at h
    cases hm : makeArgMap lib env fuel st rv with
    | none => rw [hm] at h; simp at h
    | some r =>
      obtain ⟨m, st1⟩ := r
      rw [hm] at h
      exact parseLoop_not_arity lib m _ args st1 o e h he n
  · intro st0
    unfold parseArgs
    rw [makeArgMap_args]
    rfl

/-! ## `strconv.ParseUint` and `strconv.ParseInt` on malformed numerals -/

theorem parseUintLoop_error (base bitSize : Nat) (cs : GoString) :
    ∀ acc : Nat, (∃ c ∈ cs, isDigitOf base c = false) →
      (parseUintLoop base bitSize cs acc).2 ≠ none := by
  induction cs with
  | nil => intro acc h; obtain ⟨c, hc, _⟩ := h; exact absurd hc (List.not_mem_nil c)
  | cons c cs ih =>
    intro acc h
    rw [parseUintLoop]
    cases hd : digitOf c with
    | none => simp
    | some d =>
      simp only
      by_cases h1 : d ≥ base
      · rw [if_pos h1]; simp
      · rw [if_neg h1]
        split_ifs
        · simp
        · simp
        · apply ih
          obtain ⟨c1, hc1, hbad⟩ := h
          rcases List.mem_cons.mp hc1 with he | he
          · subst he
            simp [isDigitOf, hd] at hbad
            omega
          · exact ⟨c1, he, hbad⟩

theorem parseUintLoop_range_value (base bitSize : Nat) (cs : GoString) :
    ∀ acc : Nat, (parseUintLoop base bitSize cs acc).2 = some NumErrKind.ErrRange →
      (parseUintLoop base bitSize cs acc).1 = 2 ^ bitSize - 1 := by
  induction cs with
  | nil => intro acc h; simp [parseUintLoop] at h
  | cons c cs ih =>
    intro acc h
    rw [parseUintLoop] at h ⊢
    cases hd : digitOf c with
    | none => rw [hd] at h; simp at h
    | some d =>
      rw [hd] at h
      simp only at h ⊢
      by_cases h1 : d ≥ base
      · rw [if_pos h1] at h; simp at h
      · rw [if_neg h1] at h ⊢
        by_cases h2 : acc ≥ maxUint64 / base + 1
        · rw [if_pos h2]
        · rw [if_neg h2] at h ⊢
          by_cases h3 : (acc * base % 2 ^ 64 + d) % 2 ^ 64 < acc * base % 2 ^ 64 ∨
              (acc * base % 2 ^ 64 + d) % 2 ^ 64 > 2 ^ bitSize - 1
          · rw [if_pos h3]
          · rw [if_neg h3] at h ⊢
            exact ih _ h

theorem ParseUint_error (base : Nat) (s : GoString)
    (h : s = [] ∨ ∃ c ∈ s, isDigitOf base c = false) :
    (ParseUint s base 64).2 ≠ none ∧
      ((ParseUint s base 64).2 = some NumErrKind.ErrRange →
        (ParseUint s base 64).1 = 2 ^ 64 - 1) := by
  unfold ParseUint
  by_cases hs : s = []
  · rw [if_pos hs]
    simp
  · rw [if_neg hs]
    rcases h with h | h
    · exact absurd h hs
    · exact ⟨parseUintLoop_error base 64 s 0 h, parseUintLoop_range_value base 64 s 0⟩

theorem ParseInt_error (base : Nat) (s : GoString)
    (h : dropSign s = [] ∨ ∃ c ∈ dropSign s, isDigitOf base c = false) :
    (ParseInt s base 64).2 ≠ none := by
  cases s with
  | nil => simp [ParseInt]
  | cons c cs =>
    have hds : (if c = '+' ∨ c = '-' then cs else c :: cs) = dropSign (c :: cs) := rfl
    obtain ⟨hne, hval⟩ := ParseUint_error base (dropSign (c :: cs)) h
    unfold ParseInt
    simp only [hds]
    by_cases hsyn : (ParseUint (dropSign (c :: cs)) base 64).2 = some NumErrKind.ErrSyntax
    · rw [if_pos hsyn]
      simp
    · rw [if_neg hsyn]
      have hr : (ParseUint (dropSign (c :: cs)) base 64).2 = some NumErrKind.ErrRange := by
        cases hk : (ParseUint (dropSign (c :: cs)) base 64).2 with
        | none => exact absurd hk hne
        | some k =>
          cases k with
          | ErrSyntax => exact absurd hk hsyn
          | ErrRange => rfl
      have hv := hval hr
      by_cases hneg : c = '-'
      · have h1 : ¬ (¬ c = '-' ∧
            (ParseUint (dropSign (c :: cs)) base 64).1 ≥ 2 ^ (64 - 1)) := fun hh => hh.1 hneg
        have h2 : c = '-' ∧ (ParseUint (dropSign (c :: cs)) base 64).1 > 2 ^ (64 - 1) := by
          refine ⟨hneg, ?_⟩
          rw [hv]
          norm_num
        rw [if_neg h1, if_pos h2]
        simp
      · have h1 : ¬ c = '-' ∧
            (ParseUint (dropSign (c :: cs)) base 64).1 ≥ 2 ^ (64 - 1) := by
          refine ⟨hneg, ?_⟩
          rw [hv]
          norm_num
        rw [if_pos h1]
        simp

theorem parseUint_eq (v : GoString) :
    parseUint v =
      ((ParseUint (numeralBody v) (numeralBase v) 64).1,
        (ParseUint (numeralBody v) (numeralBase v) 64).2.map
          (Err.num "ParseUint".toList (numeralBody v))) := by
  unfold parseUint numeralBody numeralBase
  split_ifs <;> rfl

theorem parseInt_eq (v : GoString) :
    parseInt v =
      ((ParseInt (numeralBody v) (numeralBase v) 64).1,
        (ParseInt (numeralBody v) (numeralBase v) 64).2.map
          (Err.num "ParseInt".toList (numeralBody v))) := by
  unfold parseInt numeralBody numeralBase
  split_ifs <;> rfl

theorem parseInto_malformed_unsigned (lib : Lib) (t : GoType) (ht : t ∈ unsignedTypes)
    (v : GoString) (h : malformedUnsigned v) :
    ∃ k, parseInto lib t [v] =
      Except.error (Err.wrap (Err.num "ParseUint".toList (numeralBody v) k)
        "error parsing uint".toList) := by
  have hne := (ParseUint_error (numeralBase v) (numeralBody v) h).1
  rw [parseInto_unsigned lib t ht, parseUint_eq]
  cases hk : (ParseUint (numeralBody v) (numeralBase v) 64).2 with
  | none => exact absurd hk hne
  | some k => exact ⟨k, rfl⟩

theorem parseInto_malformed_signed (lib : Lib) (t : GoType) (ht : t ∈ signedTypes)
    (v : GoString) (h : malformedSigned v) :
    ∃ k, parseInto lib t [v] =
      Except.error (Err.wrap (Err.num "ParseInt".toList (numeralBody v) k)
        "error parsing int".toList) := by
  have hne := ParseInt_error (numeralBase v) (numeralBody v) h
  rw [parseInto_signed lib t ht, parseInt_eq]
  cases hk : (ParseInt (numeralBody v) (numeralBase v) 64).2 with
  | none => exact absurd hk hne
  | some k => exact ⟨k, rfl⟩

theorem signed_kind (t : GoType) (ht : t ∈ signedTypes) :
    t.Kind ≠ Kind.Bool ∧ t.Kind ≠ Kind.Slice := by
  simp only [signedTypes, List.mem_cons, List.mem_singleton, List.not_mem_nil, or_false] at ht
  rcases ht with h | h | h | h | h <;> subst h <;> exact ⟨by decide, by decide⟩

theorem unsigned_kind (t : GoType) (ht : t ∈ unsignedTypes) :
    t.Kind ≠ Kind.Bool ∧ t.Kind ≠ Kind.Slice := by
  simp only [unsignedTypes, List.mem_cons, List.mem_singleton, List.not_mem_nil, or_false] at ht
  rcases ht with h | h | h | h | h <;> subst h <;> exact ⟨by decide, by decide⟩

/-- A scalar flag whose one-value coercion fails makes the loop return the wrapped
error with the store unchanged, whether the value is inline or the next token. -/
theorem parseLoop_scalar_error (lib : Lib) (m : ArgMap) (pre : List GoString) (fuel : Nat)
    (st : Store) (p v : GoString) (rf : Ref) (err : Err) (hp : '=' ∉ p)
    (hm : m.get (Trim p "-".toList) = some rf) (hb : rf.typ.Kind ≠ Kind.Bool)
    (hs : rf.typ.Kind ≠ Kind.Slice) (hfail : parseInto lib rf.typ [v] = Except.error err)
    (post : List GoString) :
    parseLoop lib m (pre ++ (p ++ '=' :: v) :: post) (fuel + 1) pre.length st =
        some { err := some (argErr err p v rf.typ), store := st } ∧
      parseLoop lib m (pre ++ p :: v :: post) (fuel + 1) pre.length st =
        some { err := some (argErr err p v rf.typ), store := st } := by
  refine ⟨?_, ?_⟩
  · have h := parseLoop_at_inline lib m pre post fuel st p v rf hp hm hb hs
    rw [hfail] at h
    exact h
  · have h := parseLoop_at_next lib m pre post fuel st p v rf hp hm hb hs
    rw [hfail] at h
    exact h

theorem malformedSigned_nil : malformedSigned [] := Or.inl rfl

theorem malformedUnsigned_nil : malformedUnsigned [] := Or.inl rfl

theorem malformedUnsigned_minus (r : GoString) : malformedUnsigned ('-' :: r) := by
  refine Or.inr ⟨'-', ?_, ?_⟩
  · have hb : numeralBody ('-' :: r) = '-' :: r := by
      simp [numeralBody, HasPrefix, List.isPrefixOf]
    rw [hb]
    exact List.mem_cons_self _ _
  · have hb : numeralBase ('-' :: r) = 10 := by
      simp [numeralBase, HasPrefix, List.isPrefixOf]
    rw [hb]
    decide

/-! ## C13 -/

/-- C13: for a signed or unsigned integer-typed scalar flag, the loop of `parseArgs`
returns an error and leaves the store, and with it the target field, as it was when
the operand is not a well-formed numeral for the kind.  The operand is read in base
16 after a leading `0x` and in base 10 otherwise; it is malformed when, apart from one
leading sign for the signed kinds, it has no digit or has a character that is not a
digit of that base.  The empty operand is malformed for both kinds, and for the
unsigned kinds so is every operand that begins with `-`.  The operand may be inline,
the next token, or missing (the flag is the last token, which gives the empty
operand).  On `Args`, `--i8=junk` and `-u32=-10` both fail. -/
theorem malformed_integer_operand_fails (lib : Lib) (m : ArgMap) (pre : List GoString)
    (fuel : Nat) (st : Store) (p : GoString) (rf : Ref) (hp : '=' ∉ p)
    (hm : m.get (Trim p "-".toList) = some rf) :
    (rf.typ ∈ signedTypes → ∀ v : GoString, malformedSigned v →
      ∃ e : Err, ∀ post : List GoString,
        parseLoop lib m (pre ++ (p ++ '=' :: v) :: post) (fuel + 1) pre.length st =
            some { err := some e, store := st } ∧
          parseLoop lib m (pre ++ p :: v :: post) (fuel + 1) pre.length st =
            some { err := some e, store := st }) ∧
    (rf.typ ∈ unsignedTypes → ∀ v : GoString, malformedUnsigned v →
      ∃ e : Err, ∀ post : List GoString,
        parseLoop lib m (pre ++ (p ++ '=' :: v) :: post) (fuel + 1) pre.length st =
            some { err := some e, store := st } ∧
          parseLoop lib m (pre ++ p :: v :: post) (fuel + 1) pre.length st =
            some { err := some e, store := st }) ∧
    (rf.typ ∈ signedTypes ∨ rf.typ ∈ unsignedTypes →
      ∃ e : Err, parseLoop lib m (pre ++ [p]) (fuel + 1) pre.length st =
        some { err := some e, store := st }) ∧
    (malformedSigned [] ∧ malformedUnsigned [] ∧
      ∀ r : GoString, malformedUnsigned ('-' :: r)) ∧
    (∀ st0 : Store, ∃ e : Err,
      parseArgs lib testEnv 2 st0 argsRef ["--i8=junk".toList] =
        some { err := some e, store := st0 }) ∧
    (∀ st0 : Store, ∃ e : Err,
      parseArgs lib testEnv 2 st0 argsRef ["-u32=-10".toList] =
        some { err := some e, store := st0 }) := by
  refine ⟨?_, ?_, ?_, ⟨malformedSigned_nil, malformedUnsigned_nil, malformedUnsigned_minus⟩,
    ?_, ?_⟩
  · intro ht v hv
    obtain ⟨k, hk⟩ := parseInto_malformed_signed lib rf.typ ht v hv
    obtain ⟨hb, hs⟩ := signed_kind rf.typ ht
    exact ⟨_, parseLoop_scalar_error lib m pre fuel st p v rf _ hp hm hb hs hk⟩
  · intro ht v hv
    obtain ⟨k, hk⟩ := parseInto_malformed_unsigned lib rf.typ ht v hv
    obtain ⟨hb, hs⟩ := unsigned_kind rf.typ ht
    exact ⟨_, parseLoop_scalar_error lib m pre fuel st p v rf _ hp hm hb hs hk⟩
  · intro ht
    rcases ht with ht | ht
    · obtain ⟨k, hk⟩ := parseInto_malformed_signed lib rf.typ ht [] malformedSigned_nil
      obtain ⟨hb, hs⟩ := signed_kind rf.typ ht
      have h := parseLoop_at_last lib m pre fuel st p rf hp hm hb hs
      rw [hk] at h
      exact ⟨_, h⟩
    · obtain ⟨k, hk⟩ := parseInto_malformed_unsigned lib rf.typ ht [] malformedUnsigned_nil
      obtain ⟨hb, hs⟩ := unsigned_kind rf.typ ht
      have h := parseLoop_at_last lib m pre fuel st p rf hp hm hb hs
      rw [hk] at h
      exact ⟨_, h⟩
  · intro st0
    refine ⟨argErr (Err.wrap (Err.num "ParseInt".toList "junk".toList NumErrKind.ErrSyntax)
      "error parsing int".toList) "--i8".toList "junk".toList GoType.int8, ?_⟩
    unfold parseArgs
    rw [makeArgMap_args]
    rfl
  · intro st0
    refine ⟨argErr (Err.wrap (Err.num "ParseUint".toList "-10".toList NumErrKind.ErrSyntax)
      "error parsing uint".toList) "-u32".toList "-10".toList GoType.uint32, ?_⟩
    unfold parseArgs
    rw [makeArgMap_args]
    rfl

/-- The hypotheses of `malformed_integer_operand_fails` hold for the flag `--i8` of
`Args`, and `junk` is malformed for a signed kind: `--i8=junk` and `--i8 junk` fail with
the store unchanged. -/
theorem malformed_integer_operand_fails_witness :
    '=' ∉ "--i8".toList ∧
    argsMap.get (Trim "--i8".toList "-".toList) = some (leaf "i8" GoType.int8 [0]).2 ∧
    malformedSigned "junk".toList ∧
    ∃ e : Err, ∀ post : List GoString,
      parseLoop nullLib argsMap ([] ++ ("--i8".toList ++ '=' :: "junk".toList) :: post)
          (0 + 1) ([] : List GoString).length zeroStore =
          some { err := some e, store := zeroStore } ∧
        parseLoop nullLib argsMap ([] ++ "--i8".toList :: "junk".toList :: post)
          (0 + 1) ([] : List GoString).length zeroStore =
          some { err := some e, store := zeroStore } :=
  ⟨by decide, by decide!, Or.inr ⟨'j', by decide, by decide⟩,
    (malformed_integer_operand_fails nullLib argsMap [] 0 zeroStore "--i8".toList
      (leaf "i8" GoType.int8 [0]).2 (by decide) (by decide!)).1 (by decide) "junk".toList
      (Or.inr ⟨'j', by decide, by decide⟩)⟩

/-! ## C15 -/

theorem wrapInt_of_range (t : GoType) (ht : t ∈ signedTypes) (v : Int)
    (hlo : t.minValue ≤ v) (hhi : v ≤ t.maxValue) : wrapInt t.bits v = v := by
  unfold GoType.maxValue at hhi
  unfold GoType.minValue at hlo
  rw [if_pos ht] at hhi hlo
  simp only [signedTypes, List.mem_cons, List.mem_singleton, List.not_mem_nil, or_false] at ht
  rcases ht with rfl | rfl | rfl | rfl | rfl <;>
  · simp only [GoType.bits] at hhi hlo ⊢
    unfold wrapInt
    norm_num at hhi hlo ⊢
    omega

theorem minValue_ge (t : GoType) (ht : t ∈ signedTypes ∨ t ∈ unsignedTypes) :
    - 2 ^ 63 ≤ t.minValue ∧ (t ∈ unsignedTypes → t.minValue = 0) := by
  simp only [signedTypes, unsignedTypes, List.mem_cons, List.mem_singleton, List.not_mem_nil,
    or_false] at ht
  rcases ht with (rfl | rfl | rfl | rfl | rfl) | (rfl | rfl | rfl | rfl | rfl) <;>
  · refine ⟨by decide, ?_⟩
    first
    | (intro _; decide)
    | (intro h; exact absurd h (by decide))

/-- Coercing the base-10 rendering of a value of an integer type gives the value. -/
theorem parseInto_formatInt (lib : Lib) (t : GoType) (v : Int)
    (ht : t ∈ signedTypes ∨ t ∈ unsignedTypes) (hlo : t.minValue ≤ v)
    (hhi : v ≤ t.maxValue) :
    parseInto lib t [formatInt v] = Except.ok (intValue t v) := by
  obtain ⟨h63, h64⟩ := maxValue_lt t ht
  obtain ⟨hmin, hmin0⟩ := minValue_ge t ht
  rcases ht with ht | ht
  · have hw := wrapInt_of_range t ht v hlo hhi
    have h63a := h63 ht
    cases v with
    | ofNat n =>
      have hn : n < 2 ^ 63 := by
        have : (n : Int) ≤ (t.maxValue : Int) := hhi
        omega
      have hp := parseInt_dec n
      rw [if_pos hn] at hp
      rw [parseInto_signed lib t ht]
      simp only [formatInt, hp, intValue, if_pos ht]
      rw [show ((n : Nat) : Int) = Int.ofNat n from rfl] at *
      rw [hw]
    | negSucc n =>
      have hn : n + 1 ≤ 2 ^ 63 := by
        have h1 : Int.negSucc n = - ((n : Int) + 1) := Int.negSucc_eq n
        rw [h1] at hlo
        omega
      have hp := parseInt_neg_dec (n + 1)
      rw [if_pos hn] at hp
      have h1 : - (((n + 1 : Nat)) : Int) = Int.negSucc n := by
        rw [Int.negSucc_eq]
        push_cast
        rfl
      rw [h1] at hp
      rw [parseInto_signed lib t ht]
      simp only [formatInt, hp, intValue, if_pos ht]
      rw [hw]
  · have hns : t ∉ signedTypes := by
      simp only [unsignedTypes, List.mem_cons, List.mem_singleton, List.not_mem_nil,
        or_false] at ht
      rcases ht with rfl | rfl | rfl | rfl | rfl <;> decide
    have h0 := hmin0 ht
    rw [h0] at hlo
    cases v with
    | ofNat n =>
      have hle : n ≤ t.maxValue := by
        have : (n : Int) ≤ (t.maxValue : Int) := hhi
        omega
      have hn : n < 2 ^ 64 := by omega
      have hp := parseUint_dec n
      rw [if_pos hn] at hp
      rw [parseInto_unsigned lib t ht]
      simp only [formatInt, hp, intValue, if_neg hns]
      rw [wrapUint_of_le t ht n hle]
      rfl
    | negSucc n =>
      exact absurd hlo (by simp [Int.negSucc_not_nonneg])

theorem parseInto_string (lib : Lib) (s : GoString) :
    parseInto lib GoType.string [s] = Except.ok (Value.str s) := rfl

/-- C15: round trip for the integer and string kinds.  For every signed or unsigned
integer type `t` and every value `v` of that type (from its minimum to its maximum),
coercing the base-10 rendering of `v` into a target of type `t` succeeds and gives
exactly `v`, and a flag of that type given the rendering inline or as the next token
(also when it is negative and so starts with `-`) stores `v`; the minimum and the
maximum of each type are such values.  For every string `s`, coercing `s` into a
string target gives `s` verbatim, inline or as the next token.  On `Args`,
`--i64 -4` stores -4. -/
theorem integer_and_string_round_trip (lib : Lib) (t : GoType) (v : Int)
    (ht : t ∈ signedTypes ∨ t ∈ unsignedTypes) (hlo : t.minValue ≤ v)
    (hhi : v ≤ t.maxValue) :
    parseInto lib t [formatInt v] = Except.ok (intValue t v) ∧
    (∀ (m : ArgMap) (pre post : List GoString) (fuel : Nat) (st : Store) (p : GoString)
        (rf : Ref), '=' ∉ p → m.get (Trim p "-".toList) = some rf → rf.typ = t →
      parseLoop lib m (pre ++ (p ++ '=' :: formatInt v) :: post) (fuel + 1) pre.length st =
        parseLoop lib m post fuel 0 (st.write rf.loc (intValue t v)) ∧
      parseLoop lib m (pre ++ p :: formatInt v :: post) (fuel + 1) pre.length st =
        parseLoop lib m post fuel 0 (st.write rf.loc (intValue t v))) ∧
    (parseInto lib t [formatInt t.minValue] = Except.ok (intValue t t.minValue) ∧
      parseInto lib t [formatInt t.maxValue] = Except.ok (intValue t t.maxValue)) ∧
    (∀ s : GoString, parseInto lib GoType.string [s] = Except.ok (Value.str s)) ∧
    (∀ (s : GoString) (m : ArgMap) (pre post : List GoString) (fuel : Nat) (st : Store)
        (p : GoString) (rf : Ref), '=' ∉ p → m.get (Trim p "-".toList) = some rf →
        rf.typ = GoType.string →
      parseLoop lib m (pre ++ (p ++ '=' :: s) :: post) (fuel + 1) pre.length st =
        parseLoop lib m post fuel 0 (st.write rf.loc (Value.str s)) ∧
      parseLoop lib m (pre ++ p :: s :: post) (fuel + 1) pre.length st =
        parseLoop lib m post fuel 0 (st.write rf.loc (Value.str s))) ∧
    (formatInt (-128) = "-128".toList ∧
      parseInto lib GoType.int8 ["-128".toList] = Except.ok (Value.int (-128)) ∧
      parseInto lib GoType.int8 ["127".toList] = Except.ok (Value.int 127) ∧
      parseInto lib GoType.int64 ["-9223372036854775808".toList] =
        Except.ok (Value.int (-9223372036854775808)) ∧
      parseInto lib GoType.int64 ["9223372036854775807".toList] =
        Except.ok (Value.int 9223372036854775807) ∧
      parseInto lib GoType.uint64 ["18446744073709551615".toList] =
        Except.ok (Value.uint 18446744073709551615)) ∧
    (∀ st0 : Store,
      parseArgs lib testEnv 2 st0 argsRef ["--i64".toList, "-4".toList] =
        some { err := none,
               store := st0.write (leaf "i64" GoType.int64 [3]).2.loc (Value.int (-4)) }) := by
  have hmm : t.minValue ≤ (t.maxValue : Int) := le_trans hlo hhi
  refine ⟨parseInto_formatInt lib t v ht hlo hhi, ?_,
    ⟨parseInto_formatInt lib t _ ht (le_refl _) hmm,
      parseInto_formatInt lib t _ ht hmm (le_refl _)⟩,
    parseInto_string lib, ?_, ⟨by decide, rfl, rfl, rfl, rfl, rfl⟩, ?_⟩
  · intro m pre post fuel st p rf hp hm hrt
    have hk : rf.typ.Kind ≠ Kind.Bool ∧ rf.typ.Kind ≠ Kind.Slice := by
      rw [hrt]
      rcases ht with ht | ht
      · exact signed_kind t ht
      · exact unsigned_kind t ht
    have hv := parseInto_formatInt lib t v ht hlo hhi
    rw [← hrt] at hv
    refine ⟨?_, ?_⟩
    · have h := parseLoop_at_inline lib m pre post fuel st p (formatInt v) rf hp hm hk.1 hk.2
      rw [hv] at h
      rw [← hrt]
      exact h
    · have h := parseLoop_at_next lib m pre post fuel st p (formatInt v) rf hp hm hk.1 hk.2
      rw [hv] at h
      rw [← hrt]
      exact h
  · intro s m pre post fuel st p rf hp hm hrt
    have hb : rf.typ.Kind ≠ Kind.Bool := by rw [hrt]; decide
    have hs : rf.typ.Kind ≠ Kind.Slice := by rw [hrt]; decide
    have hv : parseInto lib rf.typ [s] = Except.ok (Value.str s) := by rw [hrt]; rfl
    refine ⟨?_, ?_⟩
    · have h := parseLoop_at_inline lib m pre post fuel st p s rf hp hm hb hs
      rw [hv] at h
      exact h
    · have h := parseLoop_at_next lib m pre post fuel st p s rf hp hm hb hs
      rw [hv] at h
      exact h
  · intro st0
    unfold parseArgs
    rw [makeArgMap_args]
    rfl

/-- The hypotheses of `integer_and_string_round_trip` hold for `int8` and -128, its
minimum: the rendering `-128` coerces to -128. -/
theorem integer_and_string_round_trip_witness :
    (GoType.int8 ∈ signedTypes ∨ GoType.int8 ∈ unsignedTypes) ∧
    GoType.int8.minValue ≤ (-128 : Int) ∧
    (-128 : Int) ≤ GoType.int8.maxValue ∧
    parseInto nullLib GoType.int8 [formatInt (-128)] =
      Except.ok (intValue GoType.int8 (-128)) :=
  ⟨by decide, by decide, by decide,
    (integer_and_string_round_trip nullLib GoType.int8 (-128) (by decide) (by decide)
      (by decide)).1⟩

/-! ## `strings.Trim` with the cutset `-` -/

theorem dropWhile_dashes (k : Nat) (f : GoString) (hh : f.head? ≠ some '-') :
    (dashes k ++ f).dropWhile (fun c => "-".toList.contains c) = f := by
  induction k with
  | zero =>
    cases f with
    | nil => rfl
    | cons c cs =>
      have : c ≠ '-' := fun e => hh (by simp [e])
      simp [dashes, List.dropWhile, this]
  | succ k ih => simpa [dashes, List.replicate_succ, List.dropWhile] using ih

theorem Trim_outer_dashes (j k : Nat) (f : GoString) (hh : f.head? ≠ some '-')
    (hl : f.getLast? ≠ some '-') :
    Trim (dashes j ++ f ++ dashes k) "-".toList = f := by
  cases f with
  | nil =>
    have h := Trim_dashes (j + k) [] (by simp) (by simp)
    have e : dashes j ++ [] ++ dashes k = List.replicate (j + k) '-' ++ [] := by
      rw [List.append_nil, List.append_nil, List.replicate_add]
      rfl
    rw [e]
    exact h
  | cons c cs =>
    have hc : c ≠ '-' := fun e => hh (by simp [e])
    have h1 : (dashes j ++ (c :: cs) ++ dashes k).dropWhile
        (fun c => "-".toList.contains c) = (c :: cs) ++ dashes k := by
      rw [List.append_assoc]
      exact dropWhile_dashes j _ (by simp [hc])
    have h2 : ((c :: cs) ++ dashes k).reverse.dropWhile (fun c => "-".toList.contains c) =
        (c :: cs).reverse := by
      rw [List.reverse_append]
      have hr : (dashes k).reverse = dashes k := by simp [dashes]
      rw [hr]
      apply dropWhile_dashes
      rw [← List.getLast?_eq_head?_reverse]
      exact hl
    unfold Trim
    rw [h1, h2, List.reverse_reverse]

theorem takeWhile_dashes (l : GoString) :
    l.takeWhile (fun c => "-".toList.contains c) =
      dashes (l.takeWhile (fun c => "-".toList.contains c)).length := by
  apply List.eq_replicate_of_mem
  intro b hb
  have := List.mem_takeWhile_imp hb
  simpa using this

/-- `Trim` with the cutset `-` removes a run of dashes at each end and nothing else. -/
theorem Trim_decompose (p : GoString) :
    ∃ j k : Nat, p = dashes j ++ Trim p "-".toList ++ dashes k := by
  let P : Char → Bool := fun c => "-".toList.contains c
  refine ⟨(p.takeWhile P).length, ((p.dropWhile P).reverse.takeWhile P).length, ?_⟩
  have h1 : p = p.takeWhile P ++ p.dropWhile P := (List.takeWhile_append_dropWhile P p).symm
  have h2 : (p.dropWhile P).reverse =
      (p.dropWhile P).reverse.takeWhile P ++ (p.dropWhile P).reverse.dropWhile P :=
    (List.takeWhile_append_dropWhile P _).symm
  have h3 : p.dropWhile P =
      ((p.dropWhile P).reverse.dropWhile P).reverse ++
        ((p.dropWhile P).reverse.takeWhile P).reverse := by
    have := congrArg List.reverse h2
    rw [List.reverse_reverse, List.reverse_append] at this
    exact this
  have h4 : ((p.dropWhile P).reverse.takeWhile P).reverse =
      dashes ((p.dropWhile P).reverse.takeWhile P).length := by
    have h := takeWhile_dashes (p.dropWhile P).reverse
    have h5 := congrArg List.reverse h
    rw [h5]
    exact List.reverse_replicate _ _
  have h6 : Trim p "-".toList = ((p.dropWhile P).reverse.dropWhile P).reverse := rfl
  rw [h6, ← h4, List.append_assoc, ← h3, ← takeWhile_dashes]
  exact h1

theorem not_mem_dashes (j k : Nat) (f : GoString) (hf : '=' ∉ f) :
    '=' ∉ dashes j ++ f ++ dashes k := by
  intro h
  rcases List.mem_append.mp h with h | h
  · rcases List.mem_append.mp h with h | h
    · have := List.eq_of_mem_replicate h
      exact absurd this (by decide)
    · exact hf h
  · have := List.eq_of_mem_replicate h
    exact absurd this (by decide)

theorem occurrence_token (m : ArgMap) (p q : GoString) (inl : Option GoString)
    (post : List GoString) (hp : '=' ∉ p) (hq : '=' ∉ q)
    (ht : Trim p "-".toList = Trim q "-".toList) :
    occurrence m (token p inl) post = occurrence m (token q inl) post := by
  unfold occurrence
  rw [flagOf_token p inl hp, flagOf_token q inl hq, SplitN2_token p inl hp,
    SplitN2_token q inl hq, ht]

/-! ## C16 -/

/-- C16, as the code has it: the name looked up in the mapping is the flag part (the
text before the first `=`) with its leading and its trailing `-` characters stripped
and nothing else changed.  A flag part is a run of dashes, the name looked up, and a
run of dashes.  Tokens that differ only in the number of dashes at either end of the
flag part have the same occurrence (target, values and remaining tokens) and the same
effect, except that the error messages quote the flag part as typed; a flag part whose
stripped text is not a key gives the unknown-flag error.  On `Args`, `-i8=5`,
`--i8=5`, `---i8=5`, `--i8-=5` and `--i8- 5` all store 5 in `Int8`, and `--i8x=5` is
an unknown flag. -/
theorem flag_part_dashes_stripped (lib : Lib) :
    (∀ a : GoString, flagOf a = Trim (SplitN2 '=' a).1 "-".toList) ∧
    (∀ p : GoString, ∃ j k : Nat, p = dashes j ++ Trim p "-".toList ++ dashes k) ∧
    (∀ (j k : Nat) (f : GoString), f.head? ≠ some '-' → f.getLast? ≠ some '-' →
      Trim (dashes j ++ f ++ dashes k) "-".toList = f) ∧
    (∀ (m : ArgMap) (j k : Nat) (f : GoString) (inl : Option GoString)
        (post : List GoString) (fuel : Nat) (st : Store),
      '=' ∉ f → f.head? ≠ some '-' → f.getLast? ≠ some '-' →
      occurrence m (token (dashes j ++ f ++ dashes k) inl) post =
        occurrence m (token f inl) post ∧
      parseLoop lib m (token (dashes j ++ f ++ dashes k) inl :: post) (fuel + 1) 0 st =
        match occurrence m (token f inl) post with
        | none =>
          some { err := some (Err.errorf
                   ("Unknown arg '".toList ++ (dashes j ++ f ++ dashes k) ++ "'".toList)),
                 store := st }
        | some (rf, vals, rest) =>
          match occurrenceValue lib rf vals with
          | Except.error err =>
            some { err := some (argErr err (dashes j ++ f ++ dashes k)
                     (Join vals " ".toList) rf.typ),
                   store := st }
          | Except.ok v => parseLoop lib m rest fuel 0 (st.write rf.loc v)) ∧
    (∀ (m : ArgMap) (pre post : List GoString) (fuel : Nat) (st : Store) (p : GoString)
        (inl : Option GoString), '=' ∉ p → m.get (Trim p "-".toList) = none →
      parseLoop lib m (pre ++ token p inl :: post) (fuel + 1) pre.length st =
        some { err := some (Err.errorf ("Unknown arg '".toList ++ p ++ "'".toList)),
               store := st }) ∧
    (∀ st0 : Store,
      parseArgs lib testEnv 2 st0 argsRef ["-i8=5".toList] =
        some { err := none,
               store := st0.write (leaf "i8" GoType.int8 [0]).2.loc (Value.int 5) } ∧
      parseArgs lib testEnv 2 st0 argsRef ["--i8=5".toList] =
        some { err := none,
               store := st0.write (leaf "i8" GoType.int8 [0]).2.loc (Value.int 5) } ∧
      parseArgs lib testEnv 2 st0 argsRef ["---i8=5".toList] =
        some { err := none,
               store := st0.write (leaf "i8" GoType.int8 [0]).2.loc (Value.int 5) } ∧
      parseArgs lib testEnv 2 st0 argsRef ["--i8-=5".toList] =
        some { err := none,
               store := st0.write (leaf "i8" GoType.int8 [0]).2.loc (Value.int 5) } ∧
      parseArgs lib testEnv 2 st0 argsRef ["--i8-".toList, "5".toList] =
        some { err := none,
               store := st0.write (leaf "i8" GoType.int8 [0]).2.loc (Value.int 5) } ∧
      parseArgs lib testEnv 2 st0 argsRef ["--i8x=5".toList] =
        some { err := some (Err.errorf "Unknown arg '--i8x'".toList), store := st0 }) := by
  refine ⟨fun _ => rfl, Trim_decompose, Trim_outer_dashes, ?_, ?_, ?_⟩
  · intro m j k f inl post fuel st hf hh hl
    have hp := not_mem_dashes j k f hf
    have ht : Trim (dashes j ++ f ++ dashes k) "-".toList = Trim f "-".toList := by
      rw [Trim_outer_dashes j k f hh hl]
      have h := Trim_outer_dashes 0 0 f hh hl
      simp only [dashes, List.replicate_zero, List.nil_append, List.append_nil] at h
      exact h.symm
    have ho := occurrence_token m _ f inl post hp hf ht
    refine ⟨ho, ?_⟩
    rw [parseLoop_cons, ho, SplitN2_token _ inl hp]
  · intro m pre post fuel st p inl hp hm
    exact parseLoop_at_unknown lib m pre post fuel st p inl hp hm
  · intro st0
    unfold parseArgs
    rw [makeArgMap_args]
    exact ⟨rfl, rfl, rfl, rfl, rfl, rfl⟩

/-- C16, counterexample: on `Args`, where `i8` is a key and `i8-` is not, the token
`--i8-=5` is not an unknown flag: its flag part `--i8-` is looked up as `i8` and the
call stores 5 in `Int8`. -/
theorem trailing_dash_resolves :
    argsMap.get "i8-".toList = none ∧
    flagOf "--i8-=5".toList = "i8".toList ∧
    parseArgs nullLib testEnv 2 zeroStore argsRef ["--i8-=5".toList] =
      some { err := none,
             store := zeroStore.write (leaf "i8" GoType.int8 [0]).2.loc (Value.int 5) } := by
  refine ⟨by decide!, by decide!, ?_⟩
  unfold parseArgs
  rw [makeArgMap_args]
  rfl

/-! ## Fields that `makeArgMap` binds as they are -/

/-- A field that is exported, not tagged `-`, and whose type is neither a struct nor
a pointer is bound under its flag name, whatever the recursive call does. -/
theorem fieldStep_leaf (lib : Lib) (sub : Store → Ref → Option (ArgMap × Store)) (rv : Ref)
    (i : Nat) (rf : StructField) (m : ArgMap) (st : Store) (h1 : rf.PkgPath = [])
    (h2 : rf.argTag ≠ "-".toList) (h4 : rf.Typ.Kind ≠ Kind.Struct)
    (h5 : rf.Typ.Kind ≠ Kind.Ptr) :
    fieldStep lib sub rv i rf m st = some (m.set (flagName lib rf) (rv.Field i rf), st) := by
  have h3 : rf.Typ ≠ GoType.time := by
    intro h
    rw [h] at h4
    exact h4 rfl
  have h6 : ¬ (rf.Typ.Kind = Kind.Ptr ∧ rf.Typ.Elem.Kind = Kind.Struct) := fun h => h5 h.1
  unfold fieldStep
  rw [if_neg (not_not.mpr h1), if_neg h2]
  dsimp only
  rw [if_neg h3, if_neg h4, if_neg h6]
  rfl

theorem set_get_isSome (m : ArgMap) (k k1 : GoString) (v : Ref)
    (h : (m.get k).isSome = true) : ((m.set k1 v).get k).isSome = true := by
  rw [ArgMap.get_set]
  by_cases hk : k = k1
  · rw [if_pos hk]; rfl
  · rw [if_neg hk]; exact h

theorem foldl_set_get_isSome (f : GoString → GoString) (k : GoString) :
    ∀ (es : List (GoString × Ref)) (m : ArgMap), (m.get k).isSome = true →
      ((es.foldl (fun acc kv => acc.set (f kv.1) kv.2) m).get k).isSome = true := by
  intro es
  induction es with
  | nil => intro m h; exact h
  | cons e es ih =>
    intro m h
    exact ih _ (set_get_isSome m k _ _ h)

/-- The loop body of `makeArgMap` removes no key. -/
theorem fieldStep_get_isSome (lib : Lib) (sub : Store → Ref → Option (ArgMap × Store))
    (rv : Ref) (i : Nat) (rf : StructField) (m m1 : ArgMap) (st st1 : Store) (k : GoString)
    (hm : (m.get k).isSome = true)
    (h : fieldStep lib sub rv i rf m st = some (m1, st1)) : (m1.get k).isSome = true := by
  have hmerge : ∀ (xm : ArgMap) (st2 : Store),
      (if rf.Anonymous = true then some (mergePlain m xm, st2)
        else some (mergeTagged (flagName lib rf) m xm, st2)) = some (m1, st1) →
      (m1.get k).isSome = true := by
    intro xm st2 h
    by_cases h5 : rf.Anonymous = true
    · rw [if_pos h5] at h
      cases h
      exact foldl_set_get_isSome id k xm m hm
    · rw [if_neg h5] at h
      cases h
      exact foldl_set_get_isSome _ k xm m hm
  unfold fieldStep at h
  by_cases h1 : rf.PkgPath ≠ []
  · rw [if_pos h1] at h
    cases h
    exact hm
  rw [if_neg h1] at h
  by_cases h2 : rf.argTag = "-".toList
  · rw [if_pos h2] at h
    cases h
    exact hm
  rw [if_neg h2] at h
  dsimp only at h
  by_cases h3 : rf.Typ = GoType.time
  · rw [if_pos h3] at h
    cases h
    exact set_get_isSome m k _ _ hm
  rw [if_neg h3] at h
  by_cases h4 : rf.Typ.Kind = Kind.Struct
  · rw [if_pos h4] at h
    cases hs : sub st (rv.Field i rf) with
    | none => rw [hs] at h; exact absurd h (by simp)
    | some r =>
      obtain ⟨xm, st2⟩ := r
      rw [hs] at h
      exact hmerge xm st2 h
  rw [if_neg h4] at h
  by_cases h6 : rf.Typ.Kind = Kind.Ptr ∧ rf.Typ.Elem.Kind = Kind.Struct
  · rw [if_pos h6] at h
    generalize (match st.read (rv.Field i rf).loc with
      | some (Value.ptr (some a)) =>
        (({ typ := rf.Typ.Elem, loc := { obj := a, path := [] } } : Ref), st)
      | _ =>
        (({ typ := rf.Typ.Elem, loc := { obj := st.next, path := [] } } : Ref),
          ({ st with next := st.next + 1 } : Store))) = xv at h
    cases hs : sub xv.2 xv.1 with
    | none => rw [hs] at h; exact absurd h (by simp)
    | some r =>
      obtain ⟨xm, st2⟩ := r
      rw [hs] at h
      exact hmerge xm st2 h
  · rw [if_neg h6] at h
    cases h
    exact set_get_isSome m k _ _ hm

theorem fieldsLoop_get_isSome (lib : Lib) (sub : Store → Ref → Option (ArgMap × Store))
    (rv : Ref) (k : GoString) :
    ∀ (fs : List StructField) (i : Nat) (m m1 : ArgMap) (st st1 : Store),
      (m.get k).isSome = true →
      fieldsLoop lib sub rv fs i m st = some (m1, st1) → (m1.get k).isSome = true := by
  intro fs
  induction fs with
  | nil =>
    intro i m m1 st st1 hm h
    simp only [fieldsLoop] at h
    cases h
    exact hm
  | cons rf fs ih =>
    intro i m m1 st st1 hm h
    simp only [fieldsLoop] at h
    cases hs : fieldStep lib sub rv i rf m st with
    | none => rw [hs] at h; exact absurd h (by simp)
    | some r =>
      obtain ⟨m2, st2⟩ := r
      rw [hs] at h
      exact ih (i + 1) m2 m1 st2 st1
        (fieldStep_get_isSome lib sub rv i rf m m2 st st2 k hm hs) h

/-- A record all of whose fields have a type that is neither a struct nor a pointer
is mapped without a recursive call. -/
theorem fieldsLoop_flat (lib : Lib) (sub : Store → Ref → Option (ArgMap × Store)) (rv : Ref) :
    ∀ (fs : List StructField) (i : Nat) (m : ArgMap) (st : Store),
      (∀ f ∈ fs, f.Typ.Kind ≠ Kind.Struct ∧ f.Typ.Kind ≠ Kind.Ptr) →
      ∃ m1, fieldsLoop lib sub rv fs i m st = some (m1, st) := by
  intro fs
  induction fs with
  | nil => intro i m st _; exact ⟨m, rfl⟩
  | cons rf fs ih =>
    intro i m st hfs
    have hrest : ∀ f ∈ fs, f.Typ.Kind ≠ Kind.Struct ∧ f.Typ.Kind ≠ Kind.Ptr :=
      fun f hf => hfs f (List.mem_cons_of_mem _ hf)
    obtain ⟨h4, h5⟩ := hfs rf (List.mem_cons_self _ _)
    have hstep : ∃ m2, fieldStep lib sub rv i rf m st = some (m2, st) := by
      by_cases h1 : rf.PkgPath = []
      · by_cases h2 : rf.argTag = "-".toList
        · refine ⟨m, ?_⟩
          unfold fieldStep
          rw [if_neg (not_not.mpr h1), if_pos h2]
        · exact ⟨_, fieldStep_leaf lib sub rv i rf m st h1 h2 h4 h5⟩
      · refine ⟨m, ?_⟩
        unfold fieldStep
        rw [if_pos h1]
    obtain ⟨m2, hm2⟩ := hstep
    obtain ⟨m1, hm1⟩ := ih (i + 1) m2 st hrest
    refine ⟨m1, ?_⟩
    simp only [fieldsLoop, hm2]
    exact hm1

/-! ## Mappings that agree on the tokens -/

theorem collect_congr (m m1 : ArgMap) (args : List GoString)
    (h : ∀ a ∈ args, m.get (flagOf a) = m1.get (flagOf a)) :
    ∀ (fuel i : Nat) (vals : List GoString),
      collect m args fuel i vals = collect m1 args fuel i vals := by
  intro fuel
  induction fuel with
  | zero => intro i vals; rfl
  | succ fuel ih =>
    intro i vals
    rw [collect, collect]
    cases ha : args[i]? with
    | none => rfl
    | some a =>
      have hmem : a ∈ args := List.getElem?_mem ha
      simp only [h a hmem, ih]

/-- The loop of `parseArgs` looks up the mapping at the flag names of the tokens only. -/
theorem parseLoop_congr (lib : Lib) (m m1 : ArgMap) (args : List GoString)
    (h : ∀ a ∈ args, m.get (flagOf a) = m1.get (flagOf a)) :
    ∀ (fuel i : Nat) (st : Store),
      parseLoop lib m args fuel i st = parseLoop lib m1 args fuel i st := by
  intro fuel
  induction fuel with
  | zero =>
    intro i st
    cases ha : args[i]? with
    | none => rw [parseLoop_done _ _ _ _ _ _ ha, parseLoop_done _ _ _ _ _ _ ha]
    | some a => rw [parseLoop_zero _ _ _ _ _ a ha, parseLoop_zero _ _ _ _ _ a ha]
  | succ fuel ih =>
    intro i st
    cases ha : args[i]? with
    | none => rw [parseLoop_done _ _ _ _ _ _ ha, parseLoop_done _ _ _ _ _ _ ha]
    | some a =>
      have hg := h a (List.getElem?_mem ha)
      cases hm : m.get (flagOf a) with
      | none =>
        have hm1 : m1.get (flagOf a) = none := by rw [← hg]; exact hm
        rw [parseLoop_unknown lib m args fuel i st a ha hm,
          parseLoop_unknown lib m1 args fuel i st a ha hm1]
      | some rf =>
        have hm1 : m1.get (flagOf a) = some rf := by rw [← hg]; exact hm
        by_cases hb : rf.typ.Kind = Kind.Bool
        · rw [parseLoop_bool lib m args fuel i st a rf ha hm hb,
            parseLoop_bool lib m1 args fuel i st a rf ha hm1 hb]
          exact ih _ _
        · by_cases hs : rf.typ.Kind = Kind.Slice
          · have hops : sliceOperands m args i a = sliceOperands m1 args i a := by
              unfold sliceOperands
              rw [collect_congr m m1 args h]
            rw [parseLoop_slice lib m args fuel i st a rf ha hm hs,
              parseLoop_slice lib m1 args fuel i st a rf ha hm1 hs, hops]
            cases parseInto lib rf.typ (sliceOperands m1 args i a).1 with
            | error err => rfl
            | ok v => exact ih _ _
          · rw [parseLoop_scalar lib m args fuel i st a rf ha hm hb hs,
              parseLoop_scalar lib m1 args fuel i st a rf ha hm1 hb hs]
            cases parseInto lib rf.typ [(scalarOperand args i a).1] with
            | error err => rfl
            | ok v => exact ih _ _

/-! ## Unsupported types -/

theorem parseInto_map (lib : Lib) (k v : GoType) (x : GoString) :
    parseInto lib (GoType.map k v) [x] = Except.error (unsupportedErr (GoType.map k v)) := by
  unfold parseInto
  simp [GoType.Kind, unsupportedErr]

theorem parseInto_struct (lib : Lib) (name x : GoString) :
    parseInto lib (GoType.struct name) [x] =
      Except.error (unsupportedErr (GoType.struct name)) := by
  unfold parseInto
  simp [GoType.Kind, unsupportedErr]

theorem parseInto_slice_struct (lib : Lib) (name : GoString) (vals : List GoString)
    (hv : vals ≠ []) :
    parseInto lib (GoType.slice (GoType.struct name)) vals =
      Except.error (Err.wrap (unsupportedErr (GoType.struct name))
        "error parsing list element 0".toList) := by
  cases vals with
  | nil => exact absurd rfl hv
  | cons x rest =>
    rw [parseInto_slice]
    simp only [parseElems, parseInto_struct]
    rfl

/-! ## C11 -/

/-- C11: a field of an unsupported type is rejected only when a value is supplied,
never at mapping time.  The loop body of `makeArgMap` binds an exported map-typed
field under its flag name whatever the rest of the record is, so the mapping that
`makeArgMap` returns for a record with such a field contains the flag name, and a
record whose fields are all of leaf types is always mapped.  A token list in which no
token names the flag has the outcome it has for the mapping without the flag.  A
token that names the map-typed flag, with an inline operand, with the next token as
operand or as the last token, fails with the store unchanged and the message ends in
`don't know how to parse into map[K]V`; a list flag whose element type is a record
fails with that error naming the element type, for list element 0, when it is given
at least one operand.  On `Args`: `--map=k:v,foo:bar`, `--map` and `--subs abc` fail
so, and `--i8=5` succeeds. -/
theorem unsupported_type_rejected_on_value (lib : Lib) :
    (∀ (sub : Store → Ref → Option (ArgMap × Store)) (rv : Ref) (i : Nat) (rf : StructField)
        (m : ArgMap) (st : Store) (k v : GoType),
      rf.PkgPath = [] → rf.argTag ≠ "-".toList → rf.Typ = GoType.map k v →
      fieldStep lib sub rv i rf m st =
        some (m.set (flagName lib rf) (rv.Field i rf), st)) ∧
    (∀ (env : TypeEnv) (fuel : Nat) (st st1 : Store) (rv : Ref) (pre post : List StructField)
        (rf : StructField) (k v : GoType) (m : ArgMap),
      fieldsOf env rv.typ = pre ++ rf :: post →
      rf.PkgPath = [] → rf.argTag ≠ "-".toList → rf.Typ = GoType.map k v →
      makeArgMap lib env fuel st rv = some (m, st1) →
      (m.get (flagName lib rf)).isSome = true) ∧
    (∀ (env : TypeEnv) (st : Store) (rv : Ref),
      (∀ f ∈ fieldsOf env rv.typ, f.Typ.Kind ≠ Kind.Struct ∧ f.Typ.Kind ≠ Kind.Ptr) →
      ∃ m, makeArgMap lib env 1 st rv = some (m, st)) ∧
    (∀ (m : ArgMap) (name : GoString) (args : List GoString) (fuel i : Nat) (st : Store),
      (∀ a ∈ args, flagOf a ≠ name) →
      parseLoop lib m args fuel i st =
        parseLoop lib (m.filter (fun e => e.1 != name)) args fuel i st) ∧
    (∀ (m : ArgMap) (pre : List GoString) (fuel : Nat) (st : Store) (p : GoString) (rf : Ref)
        (k v : GoType),
      '=' ∉ p → m.get (Trim p "-".toList) = some rf → rf.typ = GoType.map k v →
      (∀ (x : GoString) (post : List GoString),
        parseLoop lib m (pre ++ (p ++ '=' :: x) :: post) (fuel + 1) pre.length st =
            some { err := some (argErr (unsupportedErr rf.typ) p x rf.typ), store := st } ∧
          parseLoop lib m (pre ++ p :: x :: post) (fuel + 1) pre.length st =
            some { err := some (argErr (unsupportedErr rf.typ) p x rf.typ), store := st }) ∧
      parseLoop lib m (pre ++ [p]) (fuel + 1) pre.length st =
        some { err := some (argErr (unsupportedErr rf.typ) p [] rf.typ), store := st } ∧
      ∀ x : GoString, (argErr (unsupportedErr rf.typ) p x rf.typ).Error lib =
        "error parsing arg ".toList ++ p ++ " (".toList ++ x ++ ") into ".toList ++
          rf.typ.typeName ++ ": ".toList ++
          ("don't know how to parse into map[".toList ++ k.typeName ++ "]".toList ++
            v.typeName)) ∧
    (∀ (m : ArgMap) (pre post : List GoString) (fuel : Nat) (st : Store) (p : GoString)
        (inl : Option GoString) (rf : Ref) (name : GoString),
      '=' ∉ p → m.get (Trim p "-".toList) = some rf →
      rf.typ = GoType.slice (GoType.struct name) →
      inlineValues inl ++ post.takeWhile (fun a => !endsList m a) ≠ [] →
      parseLoop lib m (pre ++ token p inl :: post) (fuel + 1) pre.length st =
        some { err := some (argErr
                 (Err.wrap (unsupportedErr (GoType.struct name))
                   "error parsing list element 0".toList) p
                 (Join (inlineValues inl ++ post.takeWhile (fun a => !endsList m a))
                   " ".toList) rf.typ),
               store := st } ∧
      (Err.wrap (unsupportedErr (GoType.struct name))
          "error parsing list element 0".toList).Error lib =
        "error parsing list element 0: don't know how to parse into ".toList ++ name) ∧
    (∀ st0 : Store,
      makeArgMap lib testEnv 2 st0 argsRef = some (argsMap, st0) ∧
      argsMap.get "map".toList =
        some (leaf "map" (GoType.map GoType.string GoType.string) [17]).2 ∧
      (∃ e : Err,
        parseArgs lib testEnv 2 st0 argsRef ["--map=k:v,foo:bar".toList] =
          some { err := some e, store := st0 } ∧
        e.Error lib =
          ("error parsing arg --map (k:v,foo:bar) into map[string]string: ".toList ++
            "don't know how to parse into map[string]string".toList)) ∧
      (∃ e : Err,
        parseArgs lib testEnv 2 st0 argsRef ["--map".toList] =
          some { err := some e, store := st0 } ∧
        e.Error lib =
          ("error parsing arg --map () into map[string]string: ".toList ++
            "don't know how to parse into map[string]string".toList)) ∧
      (∃ e : Err,
        parseArgs lib testEnv 2 st0 argsRef ["--subs".toList, "abc".toList] =
          some { err := some e, store := st0 } ∧
        e.Error lib =
          ("error parsing arg --subs (abc) into []argparse.SubArgs: ".toList ++
            "error parsing list element 0: ".toList ++
            "don't know how to parse into argparse.SubArgs".toList)) ∧
      parseArgs lib testEnv 2 st0 argsRef ["--i8=5".toList] =
        some { err := none,
               store := st0.write (leaf "i8" GoType.int8 [0]).2.loc (Value.int 5) } ∧
      parseArgs lib testEnv 2 st0 argsRef [] = some { err := none, store := st0 }) := by
  refine ⟨?_, ?_, ?_, ?_, ?_, ?_, ?_⟩
  · intro sub rv i rf m st k v h1 h2 ht
    exact fieldStep_leaf lib sub rv i rf m st h1 h2 (by rw [ht]; simp [GoType.Kind]) (by rw [ht]; simp [GoType.Kind])
  · intro env fuel st st1 rv pre post rf k v m hfs h1 h2 ht hmk
    cases fuel with
    | zero => simp [makeArgMap] at hmk
    | succ fuel =>
      rw [makeArgMap, hfs, fieldsLoop_append] at hmk
      cases hpre : fieldsLoop lib (fun st1 rv1 => makeArgMap lib env fuel st1 rv1) rv pre 0 []
          st with
      | none => rw [hpre] at hmk; exact absurd hmk (by simp)
      | some r =>
        rw [hpre] at hmk
        simp only [fieldsLoop] at hmk
        rw [fieldStep_leaf lib _ rv _ rf r.1 r.2 h1 h2 (by rw [ht]; simp [GoType.Kind])
          (by rw [ht]; simp [GoType.Kind])] at hmk
        simp only at hmk
        refine fieldsLoop_get_isSome lib _ rv _ post _ _ m _ st1 ?_ hmk
        rw [ArgMap.get_set, if_pos rfl]
        rfl
  · intro env st rv hflat
    rw [makeArgMap]
    exact fieldsLoop_flat lib _ rv _ 0 [] st hflat
  · intro m name args fuel i st hno
    apply parseLoop_congr
    intro a ha
    unfold ArgMap.get
    rw [lookup_filter_ne, if_neg (hno a ha)]
  · intro m pre fuel st p rf k v hp hm ht
    have hb : rf.typ.Kind ≠ Kind.Bool := by rw [ht]; simp [GoType.Kind]
    have hs : rf.typ.Kind ≠ Kind.Slice := by rw [ht]; simp [GoType.Kind]
    have hfail : ∀ x, parseInto lib rf.typ [x] = Except.error (unsupportedErr rf.typ) := by
      intro x
      rw [ht]
      exact parseInto_map lib k v x
    refine ⟨?_, ?_, ?_⟩
    · intro x post
      exact parseLoop_scalar_error lib m pre fuel st p x rf _ hp hm hb hs (hfail x) post
    · have h := parseLoop_at_last lib m pre fuel st p rf hp hm hb hs
      rw [hfail []] at h
      exact h
    · intro x
      rw [argErr_Error, ht]
      rfl
  · intro m pre post fuel st p inl rf name hp hm ht hne
    have hk : rf.typ.Kind = Kind.Slice := by rw [ht]; rfl
    refine ⟨?_, rfl⟩
    have h := parseLoop_at_slice lib m pre post fuel st p inl rf hp hm hk
    have hfail := parseInto_slice_struct lib name _ hne
    rw [← ht] at hfail
    rw [hfail] at h
    exact h
  · intro st0
    refine ⟨makeArgMap_args lib st0, by decide!, ?_, ?_, ?_, ?_, ?_⟩
    · refine ⟨argErr (unsupportedErr (GoType.map GoType.string GoType.string))
        "--map".toList "k:v,foo:bar".toList (GoType.map GoType.string GoType.string), ?_, ?_⟩
      · unfold parseArgs
        rw [makeArgMap_args]
        rfl
      · rfl
    · refine ⟨argErr (unsupportedErr (GoType.map GoType.string GoType.string))
        "--map".toList [] (GoType.map GoType.string GoType.string), ?_, ?_⟩
      · unfold parseArgs
        rw [makeArgMap_args]
        rfl
      · rfl
    · refine ⟨argErr (Err.wrap (unsupportedErr (GoType.struct "argparse.SubArgs".toList))
          "error parsing list element 0".toList)
        "--subs".toList "abc".toList
        (GoType.slice (GoType.struct "argparse.SubArgs".toList)), ?_, ?_⟩
      · unfold parseArgs
        rw [makeArgMap_args]
        rfl
      · simp [argErr, Err.Error, unsupportedErr, GoType.typeName]
    · unfold parseArgs
      rw [makeArgMap_args]
      rfl
    · unfold parseArgs
      rw [makeArgMap_args]
      rfl

/-! ## Last write wins -/

theorem lookup_append_eq (k : GoString) (l1 l2 : List (GoString × Ref)) :
    List.lookup k (l1 ++ l2) =
      match List.lookup k l1 with
      | some r => some r
      | none => List.lookup k l2 := by
  induction l1 with
  | nil => rfl
  | cons e l1 ih =>
    obtain ⟨a, v⟩ := e
    by_cases h : k = a
    · subst h
      simp [List.lookup]
    · have hb : (k == a) = false := by simpa using h
      simp only [List.cons_append, List.lookup, hb]
      exact ih

theorem lastWrite_append (w w2 : List (GoString × Ref)) (k : GoString) :
    lastWrite (w ++ w2) k =
      match lastWrite w2 k with
      | some r => some r
      | none => lastWrite w k := by
  unfold lastWrite
  rw [List.reverse_append, lookup_append_eq]

theorem lastWrite_snoc (w : List (GoString × Ref)) (k1 k : GoString) (v : Ref) :
    lastWrite (w ++ [(k1, v)]) k = if k = k1 then some v else lastWrite w k := by
  rw [lastWrite_append]
  by_cases h : k = k1
  · subst h
    simp [lastWrite, List.lookup]
  · have hb : (k == k1) = false := by simpa using h
    simp [lastWrite, List.lookup, hb, h]

theorem lookup_map_inj (f : GoString → GoString) (hf : Function.Injective f) (k : GoString) :
    ∀ l : List (GoString × Ref),
      List.lookup (f k) (l.map (fun kv => (f kv.1, kv.2))) = List.lookup k l := by
  intro l
  induction l with
  | nil => rfl
  | cons e l ih =>
    obtain ⟨a, v⟩ := e
    by_cases h : k = a
    · subst h
      simp [List.lookup]
    · have hb : (k == a) = false := by simpa using h
      have hfb : (f k == f a) = false := by
        have : f k ≠ f a := fun e => h (hf e)
        simpa using this
      simp only [List.map_cons, List.lookup, hb, hfb]
      exact ih

theorem lookup_map_none (f : GoString → GoString) (key : GoString) (hk : ∀ k, key ≠ f k) :
    ∀ l : List (GoString × Ref),
      List.lookup key (l.map (fun kv => (f kv.1, kv.2))) = none := by
  intro l
  induction l with
  | nil => rfl
  | cons e l ih =>
    obtain ⟨a, v⟩ := e
    have hb : (key == f a) = false := by simpa using hk a
    simp only [List.map_cons, List.lookup, hb]
    exact ih

theorem lastWrite_map_inj (f : GoString → GoString) (hf : Function.Injective f)
    (w : List (GoString × Ref)) (k : GoString) :
    lastWrite (w.map (fun kv => (f kv.1, kv.2))) (f k) = lastWrite w k := by
  unfold lastWrite
  rw [← List.map_reverse]
  exact lookup_map_inj f hf k _

theorem lastWrite_map_none (f : GoString → GoString) (w : List (GoString × Ref))
    (key : GoString) (hk : ∀ k, key ≠ f k) :
    lastWrite (w.map (fun kv => (f kv.1, kv.2))) key = none := by
  unfold lastWrite
  rw [← List.map_reverse]
  exact lookup_map_none f key hk _

theorem get_isSome_of_mem_keys (m : ArgMap) (k : GoString) (h : k ∈ m.keys) :
    ∃ r, m.get k = some r := by
  induction m with
  | nil => exact absurd h (List.not_mem_nil k)
  | cons e m ih =>
    obtain ⟨a, v⟩ := e
    by_cases hka : k = a
    · subst hka
      exact ⟨v, by simp [ArgMap.get, List.lookup]⟩
    · have hb : (k == a) = false := by simpa using hka
      have hmem : k ∈ ArgMap.keys m := by
        unfold ArgMap.keys at h ⊢
        rw [List.map_cons, List.mem_cons] at h
        rcases h with h | h
        · exact absurd h hka
        · exact h
      obtain ⟨r, hr⟩ := ih hmem
      refine ⟨r, ?_⟩
      unfold ArgMap.get at hr ⊢
      simp only [List.lookup, hb]
      exact hr

theorem get_eq_some_iff (m : ArgMap) (hm : m.keys.Nodup) (k : GoString) (r : Ref) :
    m.get k = some r ↔ (k, r) ∈ m := by
  induction m with
  | nil => simp [ArgMap.get]
  | cons e m ih =>
    obtain ⟨a, v⟩ := e
    have hnd : (ArgMap.keys m).Nodup := (List.nodup_cons.mp hm).2
    have hna : a ∉ ArgMap.keys m := (List.nodup_cons.mp hm).1
    by_cases hka : k = a
    · subst hka
      have hl : ArgMap.get ((k, v) :: m) k = some v := by simp [ArgMap.get, List.lookup]
      rw [hl]
      constructor
      · intro h
        cases h
        exact List.mem_cons_self _ _
      · intro h
        rcases List.mem_cons.mp h with h | h
        · cases h
          rfl
        · exfalso
          apply hna
          exact List.mem_map_of_mem Prod.fst h
    · have hb : (k == a) = false := by simpa using hka
      have hl : ArgMap.get ((a, v) :: m) k = ArgMap.get m k := by
        unfold ArgMap.get
        simp only [List.lookup, hb]
      rw [hl, ih hnd]
      constructor
      · intro h
        exact List.mem_cons_of_mem _ h
      · intro h
        rcases List.mem_cons.mp h with h | h
        · cases h
          exact absurd rfl hka
        · exact h

/-- The lookups in a map do not depend on the order in which its bindings are listed. -/
theorem perm_get (es xm : ArgMap) (hp : es.Perm xm) (hx : xm.keys.Nodup) :
    es.keys.Nodup ∧ ∀ k, es.get k = xm.get k := by
  have hes : es.keys.Nodup := by
    unfold ArgMap.keys at hx ⊢
    exact (List.Perm.nodup_iff (List.Perm.map Prod.fst hp)).mpr hx
  refine ⟨hes, ?_⟩
  intro k
  apply Option.ext
  intro r
  rw [Option.mem_def, Option.mem_def, get_eq_some_iff es hes, get_eq_some_iff xm hx]
  exact hp.mem_iff

/-- The loop `m[f k] = v` over the bindings `es` writes, for each key, what comes last
under that key in the fields already seen followed by the fields of `es` renamed. -/
theorem merge_lastWrite (f : GoString → GoString) (hf : Function.Injective f)
    (es : ArgMap) (xw w : List (GoString × Ref)) (m : ArgMap) (hes : es.keys.Nodup)
    (hx : ∀ k, es.get k = lastWrite xw k) (hm : ∀ k, m.get k = lastWrite w k) (key : GoString) :
    ArgMap.get (es.foldl (fun acc kv => acc.set (f kv.1) kv.2) m) key =
      lastWrite (w ++ xw.map (fun kv => (f kv.1, kv.2))) key := by
  obtain ⟨hin, hout⟩ := get_foldl_set f hf es m hes
  rw [lastWrite_append]
  by_cases hk : ∃ k, key = f k
  · obtain ⟨k, rfl⟩ := hk
    rw [lastWrite_map_inj f hf]
    cases hg : es.get k with
    | some r =>
      rw [← hx k, hg]
      exact hin k r hg
    | none =>
      rw [← hx k, hg]
      simp only
      rw [← hm]
      apply hout
      intro k1 hk1 he
      have := hf he
      subst this
      obtain ⟨r, hr⟩ := get_isSome_of_mem_keys es k hk1
      rw [hr] at hg
      exact absurd hg (by simp)
  · have hk1 : ∀ k, key ≠ f k := fun k e => hk ⟨k, e⟩
    rw [lastWrite_map_none f xw key hk1]
    simp only
    rw [← hm]
    exact hout key (fun k _ => hk1 k)

theorem map_pair_id (xw : List (GoString × Ref)) :
    xw.map (fun kv => (id kv.1, kv.2)) = xw := by
  induction xw with
  | nil => rfl
  | cons e xw ih => simp

/-- One field: the mapping and the list of reachable fields stay in agreement. -/
theorem fieldStep_lastWrite (lib : Lib) (subM : Store → Ref → Option (ArgMap × Store))
    (subW : Store → Ref → Option (List (GoString × Ref) × Store))
    (hsub : ∀ st r, (subM st r = none ∧ subW st r = none) ∨
      ∃ es xw st1, subM st r = some (es, st1) ∧ subW st r = some (xw, st1) ∧
        (ArgMap.keys es).Nodup ∧ ∀ k, ArgMap.get es k = lastWrite xw k)
    (rv : Ref) (i : Nat) (rf : StructField) (m : ArgMap) (w : List (GoString × Ref))
    (st : Store) (hm : ∀ k, m.get k = lastWrite w k) :
    (fieldStep lib subM rv i rf m st = none ∧ reachStep lib subW rv i rf w st = none) ∨
      ∃ m1 w1 st1, fieldStep lib subM rv i rf m st = some (m1, st1) ∧
        reachStep lib subW rv i rf w st = some (w1, st1) ∧
        ∀ k, ArgMap.get m1 k = lastWrite w1 k := by
  have hset : ∀ k, ArgMap.get (m.set (flagName lib rf) (rv.Field i rf)) k =
      lastWrite (w ++ [(flagName lib rf, rv.Field i rf)]) k := by
    intro k
    rw [ArgMap.get_set, lastWrite_snoc, hm]
  have hinj : Function.Injective (fun k : GoString => flagName lib rf ++ "-".toList ++ k) :=
    fun a b h => List.append_cancel_left h
  have hmerge : ∀ (st2 : Store) (r : Ref),
      ((match subM st2 r with
        | none => none
        | some (xm, st1) =>
          if rf.Anonymous = true then some (mergePlain m xm, st1)
          else some (mergeTagged (flagName lib rf) m xm, st1)) = none ∧
       (match subW st2 r with
        | none => none
        | some (xw, st1) =>
          if rf.Anonymous = true then some (w ++ xw, st1)
          else some (w ++ xw.map
            (fun kv => (flagName lib rf ++ "-".toList ++ kv.1, kv.2)), st1)) = none) ∨
      ∃ m1 w1 st1,
        (match subM st2 r with
          | none => none
          | some (xm, st1) =>
            if rf.Anonymous = true then some (mergePlain m xm, st1)
            else some (mergeTagged (flagName lib rf) m xm, st1)) = some (m1, st1) ∧
        (match subW st2 r with
          | none => none
          | some (xw, st1) =>
            if rf.Anonymous = true then some (w ++ xw, st1)
            else some (w ++ xw.map
              (fun kv => (flagName lib rf ++ "-".toList ++ kv.1, kv.2)), st1)) =
          some (w1, st1) ∧
        ∀ k, ArgMap.get m1 k = lastWrite w1 k := by
    intro st2 r
    rcases hsub st2 r with ⟨h1, h2⟩ | ⟨es, xw, st1, h1, h2, hnd, hx⟩
    · left
      rw [h1, h2]
      exact ⟨rfl, rfl⟩
    · right
      rw [h1, h2]
      by_cases ha : rf.Anonymous = true
      · refine ⟨mergePlain m es, w ++ xw, st1, by simp only [if_pos ha],
          by simp only [if_pos ha], ?_⟩
        intro k
        have h := merge_lastWrite id Function.injective_id es xw w m hnd hx hm k
        rw [map_pair_id] at h
        exact h
      · refine ⟨mergeTagged (flagName lib rf) m es,
          w ++ xw.map (fun kv => (flagName lib rf ++ "-".toList ++ kv.1, kv.2)), st1,
          by simp only [if_neg ha], by simp only [if_neg ha], ?_⟩
        intro k
        exact merge_lastWrite _ hinj es xw w m hnd hx hm k
  unfold fieldStep reachStep
  by_cases h1 : rf.PkgPath ≠ []
  · rw [if_pos h1, if_pos h1]
    exact Or.inr ⟨m, w, st, rfl, rfl, hm⟩
  rw [if_neg h1, if_neg h1]
  by_cases h2 : rf.argTag = "-".toList
  · rw [if_pos h2, if_pos h2]
    exact Or.inr ⟨m, w, st, rfl, rfl, hm⟩
  rw [if_neg h2, if_neg h2]
  dsimp only
  by_cases h3 : rf.Typ = GoType.time
  · rw [if_pos h3, if_pos h3]
    exact Or.inr ⟨_, _, st, rfl, rfl, hset⟩
  rw [if_neg h3, if_neg h3]
  by_cases h4 : rf.Typ.Kind = Kind.Struct
  · rw [if_pos h4, if_pos h4]
    exact hmerge st (rv.Field i rf)
  rw [if_neg h4, if_neg h4]
  by_cases h6 : rf.Typ.Kind = Kind.Ptr ∧ rf.Typ.Elem.Kind = Kind.Struct
  · rw [if_pos h6, if_pos h6]
    exact hmerge _ _
  · rw [if_neg h6, if_neg h6]
    exact Or.inr ⟨_, _, st, rfl, rfl, hset⟩

theorem fieldsLoop_lastWrite (lib : Lib) (subM : Store → Ref → Option (ArgMap × Store))
    (subW : Store → Ref → Option (List (GoString × Ref) × Store))
    (hsub : ∀ st r, (subM st r = none ∧ subW st r = none) ∨
      ∃ es xw st1, subM st r = some (es, st1) ∧ subW st r = some (xw, st1) ∧
        (ArgMap.keys es).Nodup ∧ ∀ k, ArgMap.get es k = lastWrite xw k)
    (rv : Ref) :
    ∀ (fs : List StructField) (i : Nat) (m : ArgMap) (w : List (GoString × Ref)) (st : Store),
      (∀ k, m.get k = lastWrite w k) →
      (fieldsLoop lib subM rv fs i m st = none ∧ reachLoop lib subW rv fs i w st = none) ∨
        ∃ m1 w1 st1, fieldsLoop lib subM rv fs i m st = some (m1, st1) ∧
          reachLoop lib subW rv fs i w st = some (w1, st1) ∧
          ∀ k, ArgMap.get m1 k = lastWrite w1 k := by
  intro fs
  induction fs with
  | nil =>
    intro i m w st hm
    exact Or.inr ⟨m, w, st, rfl, rfl, hm⟩
  | cons rf fs ih =>
    intro i m w st hm
    simp only [fieldsLoop, reachLoop]
    rcases fieldStep_lastWrite lib subM subW hsub rv i rf m w st hm with
      ⟨h1, h2⟩ | ⟨m1, w1, st1, h1, h2, hm1⟩
    · left
      rw [h1, h2]
      exact ⟨rfl, rfl⟩
    · rw [h1, h2]
      exact ih (i + 1) m1 w1 st1 hm1

theorem makeArgMapOrd_nodup (lib : Lib) (env : TypeEnv)
    (ord : Ref → ArgMap → List (GoString × Ref)) (fuel : Nat) (st st1 : Store) (rv : Ref)
    (m : ArgMap) (h : makeArgMapOrd lib env ord fuel st rv = some (m, st1)) :
    m.keys.Nodup := by
  cases fuel with
  | zero => simp [makeArgMapOrd] at h
  | succ fuel =>
    rw [makeArgMapOrd] at h
    exact fieldsLoop_nodup lib _ rv _ 0 [] m st st1 List.nodup_nil h

/-- Whatever the order of iteration over the merged maps, each key of the mapping is
bound to the field that comes last under that name in depth-first declaration order. -/
theorem makeArgMapOrd_lastWrite (lib : Lib) (env : TypeEnv)
    (ord : Ref → ArgMap → List (GoString × Ref)) (hord : ∀ rv xm, (ord rv xm).Perm xm) :
    ∀ (fuel : Nat) (st : Store) (rv : Ref),
      (makeArgMapOrd lib env ord fuel st rv = none ∧
          reachableFields lib env fuel st rv = none) ∨
        ∃ m w st1, makeArgMapOrd lib env ord fuel st rv = some (m, st1) ∧
          reachableFields lib env fuel st rv = some (w, st1) ∧
          ∀ k, ArgMap.get m k = lastWrite w k := by
  intro fuel
  induction fuel with
  | zero => intro st rv; exact Or.inl ⟨rfl, rfl⟩
  | succ fuel ih =>
    intro st rv
    rw [makeArgMapOrd, reachableFields]
    refine fieldsLoop_lastWrite lib _ _ ?_ rv _ 0 [] [] st (fun k => rfl)
    intro st2 r
    rcases ih st2 r with ⟨h1, h2⟩ | ⟨m, w, st1, h1, h2, hm⟩
    · left
      simp only [h1, h2, and_self]
    · right
      have hnd := makeArgMapOrd_nodup lib env ord fuel st2 st1 r m h1
      obtain ⟨hes, hget⟩ := perm_get (ord r m) m (hord r m) hnd
      refine ⟨ord r m, w, st1, by simp only [h1], h2, hes, ?_⟩
      intro k
      rw [hget, hm]

theorem makeArgMapOrd_id (lib : Lib) (env : TypeEnv) :
    ∀ (fuel : Nat) (st : Store) (rv : Ref),
      makeArgMapOrd lib env (fun _ xm => xm) fuel st rv = makeArgMap lib env fuel st rv := by
  intro fuel
  induction fuel with
  | zero => intro st rv; rfl
  | succ fuel ih =>
    intro st rv
    rw [makeArgMapOrd, makeArgMap]
    congr 1
    funext st1 rv1
    rw [ih]
    cases makeArgMap lib env fuel st1 rv1 with
    | none => rfl
    | some r => rfl

theorem reachableFields_dup (lib : Lib) (st : Store) :
    reachableFields lib dupEnv 1 st (recordRef "main.Dup") =
      some ([ ("x".toList, { typ := GoType.int, loc := { obj := 0, path := [0] } }),
              ("x".toList, { typ := GoType.int, loc := { obj := 0, path := [1] } }) ], st) := by
  rfl

theorem reachableFields_subFirst (lib : Lib) (st : Store) :
    reachableFields lib dupEnv 2 st (recordRef "main.SubFirst") =
      some ([ (leaf "sub-bool" GoType.bool [0, 0]),
              (leaf "sub-string" GoType.string [0, 1]),
              (leaf "sub-int" GoType.int [0, 2]),
              (leaf "sub-uints" (GoType.slice GoType.uint16) [0, 3]),
              (leaf "sub-f32s" (GoType.slice GoType.float32) [0, 4]),
              (leaf "sub-int" GoType.int [1]) ], st) := by
  simp [reachableFields, reachLoop, reachStep, fieldsOf, dupEnv, testEnv, subArgsFields,
    exported, ToLower, asciiLower, Trim, recordRef, Ref.Field, GoType.Kind, leaf]

theorem reachableFields_subLast (lib : Lib) (st : Store) :
    reachableFields lib dupEnv 2 st (recordRef "main.SubLast") =
      some ([ (leaf "sub-int" GoType.int [0]),
              (leaf "sub-bool" GoType.bool [1, 0]),
              (leaf "sub-string" GoType.string [1, 1]),
              (leaf "sub-int" GoType.int [1, 2]),
              (leaf "sub-uints" (GoType.slice GoType.uint16) [1, 3]),
              (leaf "sub-f32s" (GoType.slice GoType.float32) [1, 4]) ], st) := by
  simp [reachableFields, reachLoop, reachStep, fieldsOf, dupEnv, testEnv, subArgsFields,
    exported, ToLower, asciiLower, Trim, recordRef, Ref.Field, GoType.Kind, leaf]

/-- When the walk of the reachable fields returns `w`, the mapping is returned for
every order of iteration and binds each key to the last field of `w` under it. -/
theorem makeArgMapOrd_of_reachable (lib : Lib) (env : TypeEnv)
    (ord : Ref → ArgMap → List (GoString × Ref)) (hord : ∀ rv xm, (ord rv xm).Perm xm)
    (fuel : Nat) (st st1 : Store) (rv : Ref) (w : List (GoString × Ref))
    (hw : reachableFields lib env fuel st rv = some (w, st1)) :
    ∃ m, makeArgMapOrd lib env ord fuel st rv = some (m, st1) ∧
      ∀ k, ArgMap.get m k = lastWrite w k := by
  rcases makeArgMapOrd_lastWrite lib env ord hord fuel st rv with
    ⟨_, h2⟩ | ⟨m, w1, st2, h1, h2, hm⟩
  · rw [hw] at h2
    exact absurd h2 (by simp)
  · rw [hw] at h2
    cases h2
    exact ⟨m, h1, hm⟩

/-! ## C17 -/

/-- C17: `makeArgMap` is a function of the record, and its result does not depend on
the order in which `range` yields the bindings of the maps merged for nested and
embedded sub-records.  `makeArgMapOrd` is `makeArgMap` with that order as a parameter
(`makeArgMap` is the instance that ranges in list order); for any two orders that
yield each binding once, the calls return together, with the same store, the same
keys and the same field for each key.  For every such order each key is bound to the
field that comes last under that name among the reachable fields in depth-first
declaration order (last write wins).  A record with two fields tagged `x` binds `x`
to the second; with `Sub SubArgs` tagged `sub` before a field tagged `sub-int`, the
key `sub-int` is bound to the latter, and to `Sub.Int` when `Sub` is declared
last. -/
theorem makeArgMap_order_independent (lib : Lib) (env : TypeEnv) :
    (∀ (fuel : Nat) (st : Store) (rv : Ref),
      makeArgMapOrd lib env (fun _ xm => xm) fuel st rv = makeArgMap lib env fuel st rv) ∧
    (∀ ord1 ord2 : Ref → ArgMap → List (GoString × Ref),
      (∀ rv xm, (ord1 rv xm).Perm xm) → (∀ rv xm, (ord2 rv xm).Perm xm) →
      ∀ (fuel : Nat) (st : Store) (rv : Ref),
        (makeArgMapOrd lib env ord1 fuel st rv = none ∧
            makeArgMapOrd lib env ord2 fuel st rv = none) ∨
          ∃ m1 m2 st1, makeArgMapOrd lib env ord1 fuel st rv = some (m1, st1) ∧
            makeArgMapOrd lib env ord2 fuel st rv = some (m2, st1) ∧
            (∀ k, ArgMap.get m1 k = ArgMap.get m2 k) ∧
            (∀ k, k ∈ ArgMap.keys m1 ↔ k ∈ ArgMap.keys m2)) ∧
    (∀ ord : Ref → ArgMap → List (GoString × Ref), (∀ rv xm, (ord rv xm).Perm xm) →
      ∀ (fuel : Nat) (st st1 : Store) (rv : Ref) (m : ArgMap),
        makeArgMapOrd lib env ord fuel st rv = some (m, st1) →
        ∃ w, reachableFields lib env fuel st rv = some (w, st1) ∧
          ∀ k, ArgMap.get m k = lastWrite w k) ∧
    (∀ ord : Ref → ArgMap → List (GoString × Ref), (∀ rv xm, (ord rv xm).Perm xm) →
      ∀ st0 : Store,
        (∃ m, makeArgMapOrd lib dupEnv ord 1 st0 (recordRef "main.Dup") = some (m, st0) ∧
          ArgMap.get m "x".toList =
            some { typ := GoType.int, loc := { obj := 0, path := [1] } }) ∧
        (∃ m, makeArgMapOrd lib dupEnv ord 2 st0 (recordRef "main.SubFirst") =
            some (m, st0) ∧
          ArgMap.get m "sub-int".toList =
            some { typ := GoType.int, loc := { obj := 0, path := [1] } }) ∧
        (∃ m, makeArgMapOrd lib dupEnv ord 2 st0 (recordRef "main.SubLast") =
            some (m, st0) ∧
          ArgMap.get m "sub-int".toList =
            some { typ := GoType.int, loc := { obj := 0, path := [1, 2] } })) := by
  refine ⟨makeArgMapOrd_id lib env, ?_, ?_, ?_⟩
  · intro ord1 ord2 h1 h2 fuel st rv
    rcases makeArgMapOrd_lastWrite lib env ord1 h1 fuel st rv with
      ⟨ha, hw⟩ | ⟨m1, w, st1, ha, hw, hm1⟩
    · rcases makeArgMapOrd_lastWrite lib env ord2 h2 fuel st rv with
        ⟨hb, _⟩ | ⟨m2, w2, st2, _, hw2, _⟩
      · exact Or.inl ⟨ha, hb⟩
      · rw [hw] at hw2
        exact absurd hw2 (by simp)
    · obtain ⟨m2, hb, hm2⟩ := makeArgMapOrd_of_reachable lib env ord2 h2 fuel st st1 rv w hw
      have hget : ∀ k, ArgMap.get m1 k = ArgMap.get m2 k := fun k => by rw [hm1, hm2]
      refine Or.inr ⟨m1, m2, st1, ha, hb, hget, ?_⟩
      intro k
      constructor
      · intro hk
        obtain ⟨r, hr⟩ := get_isSome_of_mem_keys m1 k hk
        rw [hget] at hr
        exact mem_keys_of_get m2 k r hr
      · intro hk
        obtain ⟨r, hr⟩ := get_isSome_of_mem_keys m2 k hk
        rw [← hget] at hr
        exact mem_keys_of_get m1 k r hr
  · intro ord hord fuel st st1 rv m hmk
    rcases makeArgMapOrd_lastWrite lib env ord hord fuel st rv with
      ⟨ha, _⟩ | ⟨m1, w, st2, ha, hw, hm1⟩
    · rw [hmk] at ha
      exact absurd ha (by simp)
    · rw [hmk] at ha
      cases ha
      exact ⟨w, hw, hm1⟩
  · intro ord hord st0
    refine ⟨?_, ?_, ?_⟩
    · obtain ⟨m, h1, hm⟩ := makeArgMapOrd_of_reachable lib dupEnv ord hord 1 st0 st0 _ _
        (reachableFields_dup lib st0)
      refine ⟨m, h1, ?_⟩
      rw [hm]
      decide
    · obtain ⟨m, h1, hm⟩ := makeArgMapOrd_of_reachable lib dupEnv ord hord 2 st0 st0 _ _
        (reachableFields_subFirst lib st0)
      refine ⟨m, h1, ?_⟩
      rw [hm]
      decide
    · obtain ⟨m, h1, hm⟩ := makeArgMapOrd_of_reachable lib dupEnv ord hord 2 st0 st0 _ _
        (reachableFields_subLast lib st0)
      refine ⟨m, h1, ?_⟩
      rw [hm]
      decide

/-! ## Termination -/

/-- The loop body of `makeArgMap` for a field that points to a struct does not return
when the recursive call does not. -/
theorem fieldStep_ptr_none (lib : Lib) (sub : Store → Ref → Option (ArgMap × Store))
    (rv : Ref) (i : Nat) (rf : StructField) (m : ArgMap) (st : Store) (h1 : rf.PkgPath = [])
    (h2 : rf.argTag ≠ "-".toList) (e : GoType) (ht : rf.Typ = GoType.ptr e)
    (he : e.Kind = Kind.Struct)
    (hsub : ∀ (st1 : Store) (r : Ref), r.typ = e → sub st1 r = none) :
    fieldStep lib sub rv i rf m st = none := by
  have h3 : rf.Typ ≠ GoType.time := by rw [ht]; simp
  have h4 : rf.Typ.Kind ≠ Kind.Struct := by rw [ht]; simp [GoType.Kind]
  have h6 : rf.Typ.Kind = Kind.Ptr ∧ rf.Typ.Elem.Kind = Kind.Struct := by
    rw [ht]
    exact ⟨rfl, he⟩
  have hel : rf.Typ.Elem = e := by rw [ht]; rfl
  unfold fieldStep
  rw [if_neg (not_not.mpr h1), if_neg h2]
  dsimp only
  rw [if_neg h3, if_neg h4, if_pos h6]
  have hxv : ∀ xv : Ref × Store, xv.1.typ = e →
      (match sub xv.2 xv.1 with
        | none => none
        | some (xm, st1) =>
          if rf.Anonymous = true then some (mergePlain m xm, st1)
          else some (mergeTagged
            (if rf.argTag = [] then ToLower lib rf.Name else Trim rf.argTag "-".toList)
            m xm, st1)) = none := by
    intro xv hx
    rw [hsub xv.2 xv.1 hx]
  apply hxv
  split <;> exact hel

theorem makeArgMap_node (lib : Lib) :
    ∀ (fuel : Nat) (st : Store) (rv : Ref), rv.typ = GoType.struct "main.Node".toList →
      makeArgMap lib nodeEnv fuel st rv = none := by
  intro fuel
  induction fuel with
  | zero => intro st rv _; rfl
  | succ fuel ih =>
    intro st rv hrv
    rw [makeArgMap, hrv]
    have hf : fieldsOf nodeEnv (GoType.struct "main.Node".toList) =
        [ exported "Next" (GoType.ptr (GoType.struct "main.Node".toList)) "" ] := by
      decide
    rw [hf]
    simp only [fieldsLoop]
    rw [fieldStep_ptr_none lib _ rv 0 _ [] st rfl (by decide)
      (GoType.struct "main.Node".toList) rfl rfl (fun st1 r hr => ih st1 r hr)]

theorem makeArgMap_ping_pong (lib : Lib) :
    ∀ (fuel : Nat) (st : Store) (rv : Ref),
      rv.typ = GoType.struct "main.Ping".toList ∨ rv.typ = GoType.struct "main.Pong".toList →
      makeArgMap lib nodeEnv fuel st rv = none := by
  intro fuel
  induction fuel with
  | zero => intro st rv _; rfl
  | succ fuel ih =>
    intro st rv hrv
    rcases hrv with hrv | hrv
    · rw [makeArgMap, hrv]
      have hf : fieldsOf nodeEnv (GoType.struct "main.Ping".toList) =
          [ exported "Pong" (GoType.ptr (GoType.struct "main.Pong".toList)) "" ] := by
        decide
      rw [hf]
      simp only [fieldsLoop]
      rw [fieldStep_ptr_none lib _ rv 0 _ [] st rfl (by decide)
        (GoType.struct "main.Pong".toList) rfl rfl (fun st1 r hr => ih st1 r (Or.inr hr))]
    · rw [makeArgMap, hrv]
      have hf : fieldsOf nodeEnv (GoType.struct "main.Pong".toList) =
          [ exported "Ping" (GoType.ptr (GoType.struct "main.Ping".toList)) "" ] := by
        decide
      rw [hf]
      simp only [fieldsLoop]
      rw [fieldStep_ptr_none lib _ rv 0 _ [] st rfl (by decide)
        (GoType.struct "main.Ping".toList) rfl rfl (fun st1 r hr => ih st1 r (Or.inl hr))]

/-- The loop body of `makeArgMap` returns when the recursive calls it makes return. -/
theorem fieldStep_total (lib : Lib) (sub : Store → Ref → Option (ArgMap × Store)) (rv : Ref)
    (i : Nat) (rf : StructField) (m : ArgMap) (st : Store)
    (hsub : ∀ (st1 : Store) (r : Ref), rf.PkgPath = [] → rf.argTag ≠ "-".toList →
      (rf.Typ ≠ GoType.time ∧ rf.Typ.Kind = Kind.Struct ∧ r.typ = rf.Typ) ∨
        (rf.Typ.Kind = Kind.Ptr ∧ rf.Typ.Elem.Kind = Kind.Struct ∧ r.typ = rf.Typ.Elem) →
      (sub st1 r).isSome = true) :
    (fieldStep lib sub rv i rf m st).isSome = true := by
  have hmerge : ∀ (st2 : Store) (r : Ref), (sub st2 r).isSome = true →
      (match sub st2 r with
        | none => none
        | some (xm, st1) =>
          if rf.Anonymous = true then some (mergePlain m xm, st1)
          else some (mergeTagged
            (if rf.argTag = [] then ToLower lib rf.Name else Trim rf.argTag "-".toList)
            m xm, st1)).isSome = true := by
    intro st2 r hr
    cases hs : sub st2 r with
    | none => rw [hs] at hr; exact absurd hr (by simp)
    | some x =>
      obtain ⟨xm, st1⟩ := x
      simp only
      split <;> rfl
  unfold fieldStep
  by_cases h1 : rf.PkgPath ≠ []
  · rw [if_pos h1]; rfl
  rw [if_neg h1]
  by_cases h2 : rf.argTag = "-".toList
  · rw [if_pos h2]; rfl
  rw [if_neg h2]
  dsimp only
  by_cases h3 : rf.Typ = GoType.time
  · rw [if_pos h3]; rfl
  rw [if_neg h3]
  by_cases h4 : rf.Typ.Kind = Kind.Struct
  · rw [if_pos h4]
    exact hmerge st _ (hsub st _ (not_not.mp h1) h2 (Or.inl ⟨h3, h4, rfl⟩))
  rw [if_neg h4]
  by_cases h6 : rf.Typ.Kind = Kind.Ptr ∧ rf.Typ.Elem.Kind = Kind.Struct
  · rw [if_pos h6]
    apply hmerge
    refine hsub _ _ (not_not.mp h1) h2 (Or.inr ⟨h6.1, h6.2, ?_⟩)
    split <;> rfl
  · rw [if_neg h6]; rfl

theorem fieldsLoop_total (lib : Lib) (sub : Store → Ref → Option (ArgMap × Store)) (rv : Ref) :
    ∀ (fs : List StructField) (i : Nat) (m : ArgMap) (st : Store),
      (∀ rf ∈ fs, ∀ (st1 : Store) (r : Ref), rf.PkgPath = [] → rf.argTag ≠ "-".toList →
        (rf.Typ ≠ GoType.time ∧ rf.Typ.Kind = Kind.Struct ∧ r.typ = rf.Typ) ∨
          (rf.Typ.Kind = Kind.Ptr ∧ rf.Typ.Elem.Kind = Kind.Struct ∧ r.typ = rf.Typ.Elem) →
        (sub st1 r).isSome = true) →
      (fieldsLoop lib sub rv fs i m st).isSome = true := by
  intro fs
  induction fs with
  | nil => intro i m st _; rfl
  | cons rf fs ih =>
    intro i m st hsub
    have hstep := fieldStep_total lib sub rv i rf m st (hsub rf (List.mem_cons_self _ _))
    simp only [fieldsLoop]
    cases hs : fieldStep lib sub rv i rf m st with
    | none => rw [hs] at hstep; exact absurd hstep (by simp)
    | some x =>
      obtain ⟨m1, st1⟩ := x
      exact ih (i + 1) m1 st1 (fun f hf => hsub f (List.mem_cons_of_mem _ hf))

theorem kind_struct_cases (t : GoType) (h : t.Kind = Kind.Struct) :
    t = GoType.time ∨ ∃ n, t = GoType.struct n := by
  cases t <;> first
    | exact Or.inl rfl
    | exact Or.inr ⟨_, rfl⟩
    | simp [GoType.Kind] at h

theorem kind_ptr_cases (t : GoType) (h : t.Kind = Kind.Ptr) : ∃ e, t = GoType.ptr e := by
  cases t <;> first
    | exact ⟨_, rfl⟩
    | simp [GoType.Kind] at h

/-- The function `makeArgMap` returns on the records of a schema without recursion:
when `rank` decreases from each struct type to the struct types of its mapped fields
and of the targets of its mapped pointer fields, `rank + 2` levels of recursion
suffice. -/
theorem makeArgMap_total (lib : Lib) (env : TypeEnv) (rank : GoString → Nat)
    (hrank : ∀ (name : GoString) (f : StructField), f ∈ env name → f.PkgPath = [] →
      f.argTag ≠ "-".toList → ∀ n : GoString,
      f.Typ = GoType.struct n ∨ f.Typ = GoType.ptr (GoType.struct n) → rank n < rank name) :
    ∀ (fuel : Nat) (st : Store) (rv : Ref), 0 < fuel →
      (∀ n, rv.typ = GoType.struct n → rank n + 1 < fuel) →
      (makeArgMap lib env fuel st rv).isSome = true := by
  intro fuel
  induction fuel with
  | zero => intro st rv h0 _; exact absurd h0 (by decide)
  | succ fuel ih =>
    intro st rv _ hrv
    rw [makeArgMap]
    apply fieldsLoop_total
    intro rf hrf st1 r hp htag hr
    have hname : ∃ name, rv.typ = GoType.struct name ∧ rf ∈ env name := by
      cases hty : rv.typ with
      | struct name =>
        rw [hty] at hrf
        exact ⟨name, rfl, hrf⟩
      | time =>
        rw [hty] at hrf
        exfalso
        simp only [fieldsOf, timeFields, List.mem_cons, List.mem_singleton,
          List.not_mem_nil, or_false] at hrf
        rcases hrf with h | h | h <;> (rw [h] at hp; simp at hp)
      | _ =>
        rw [hty] at hrf
        exact absurd hrf (List.not_mem_nil rf)
    obtain ⟨name, hty, hmem⟩ := hname
    have hfuel : rank name < fuel := by
      have := hrv name hty
      omega
    have hstruct : ∀ n, r.typ = GoType.struct n →
        (rf.Typ = GoType.struct n ∨ rf.Typ = GoType.ptr (GoType.struct n)) →
        (makeArgMap lib env fuel st1 r).isSome = true := by
      intro n hrn hcase
      have hlt := hrank name rf hmem hp htag n hcase
      refine ih st1 r (by omega) ?_
      intro n1 hn1
      rw [hrn] at hn1
      cases hn1
      omega
    rcases hr with ⟨h3, h4, hrt⟩ | ⟨hk, hek, hrt⟩
    · rcases kind_struct_cases rf.Typ h4 with h | ⟨n, hn⟩
      · exact absurd h h3
      · exact hstruct n (by rw [hrt, hn]) (Or.inl hn)
    · obtain ⟨e, he⟩ := kind_ptr_cases rf.Typ hk
      have hel : rf.Typ.Elem = e := by rw [he]; rfl
      rw [hel] at hek hrt
      rcases kind_struct_cases e hek with h | ⟨n, hn⟩
      · refine ih st1 r (by omega) ?_
        intro n1 hn1
        rw [hrt, h] at hn1
        exact absurd hn1 (by simp)
      · exact hstruct n (by rw [hrt, hn]) (Or.inr (by rw [he, hn]))

/-! ## The loop over the tokens -/

theorem listRun_length_le (m : ArgMap) (args : List GoString) (i : Nat) :
    (listRun m args i).length ≤ args.length - i := by
  unfold listRun
  have h := (List.takeWhile_sublist (fun a => !endsList m a) (l := args.drop i)).length_le
  rw [List.length_drop] at h
  exact h

/-- The index after a list flag at index `i`: beyond `i` and within the tokens. -/
theorem sliceOperands_bounds (m : ArgMap) (args : List GoString) (i : Nat) (a : GoString)
    (hi : i < args.length) :
    i < (sliceOperands m args i a).2 ∧ (sliceOperands m args i a).2 ≤ args.length := by
  rw [sliceOperands_eq]
  have h := listRun_length_le m args (i + 1)
  simp only
  omega

/-- The index after a scalar flag at index `i`: beyond `i` and within the tokens. -/
theorem scalarOperand_bounds (args : List GoString) (i : Nat) (a : GoString)
    (hi : i < args.length) :
    i < (scalarOperand args i a).2 ∧ (scalarOperand args i a).2 ≤ args.length := by
  unfold scalarOperand
  cases (SplitN2 '=' a).2 with
  | some inl => simp only; omega
  | none =>
    cases hn : args[i + 1]? with
    | some nxt =>
      have hlt : i + 1 < args.length := by
        by_contra hge
        rw [List.getElem?_eq_none (by omega)] at hn
        exact absurd hn (by simp)
      simp only
      omega
    | none => simp only; omega

/-- The loop of `parseArgs` returns within one iteration per remaining token. -/
theorem parseLoop_total (lib : Lib) (m : ArgMap) (args : List GoString) :
    ∀ (fuel i : Nat) (st : Store), args.length - i ≤ fuel →
      (parseLoop lib m args fuel i st).isSome = true := by
  intro fuel
  induction fuel with
  | zero =>
    intro i st h
    rw [parseLoop_done lib m args 0 i st (List.getElem?_eq_none (by omega))]
    rfl
  | succ fuel ih =>
    intro i st h
    cases ha : args[i]? with
    | none => rw [parseLoop_done lib m args _ i st ha]; rfl
    | some a =>
      have hi : i < args.length := by
        by_contra hge
        rw [List.getElem?_eq_none (by omega)] at ha
        exact absurd ha (by simp)
      cases hm : m.get (flagOf a) with
      | none => rw [parseLoop_unknown lib m args fuel i st a ha hm]; rfl
      | some rf =>
        by_cases hb : rf.typ.Kind = Kind.Bool
        · rw [parseLoop_bool lib m args fuel i st a rf ha hm hb]
          exact ih _ _ (by omega)
        · by_cases hs : rf.typ.Kind = Kind.Slice
          · rw [parseLoop_slice lib m args fuel i st a rf ha hm hs]
            have hbd := sliceOperands_bounds m args i a hi
            cases parseInto lib rf.typ (sliceOperands m args i a).1 with
            | error err => rfl
            | ok v => exact ih _ _ (by omega)
          · rw [parseLoop_scalar lib m args fuel i st a rf ha hm hb hs]
            have hbd := scalarOperand_bounds args i a hi
            cases parseInto lib rf.typ [(scalarOperand args i a).1] with
            | error err => rfl
            | ok v => exact ih _ _ (by omega)

/-! ## C20 -/

/-- C20, on the code: `makeArgMap` does not terminate on a record whose type has a
pointer field to its own type or to a mutually recursive type.  For
`type Node struct { Next *Node }` no depth of recursion suffices, whatever the store
holds: a nil `Next` is replaced by a fresh zero `Node`, whose `Next` is nil again, and
a `Next` that is set is followed; the same holds for `Ping` and `Pong` that point to
each other.  So `parseArgs` does not return on such a record, for any tokens.  On a
schema without recursion (the struct types are ranked so that the rank decreases
along the mapped struct and pointer-to-struct fields) `makeArgMap` returns.  The loop
of `parseArgs` over `n` tokens moves its index forward at each flag and never beyond
`n`, and it returns within `n` iterations; `parseArgs` returns whenever `makeArgMap`
does. -/
theorem makeArgMap_diverges_on_recursive_type (lib : Lib) :
    (∀ (fuel : Nat) (st : Store) (rv : Ref), rv.typ = GoType.struct "main.Node".toList →
      makeArgMap lib nodeEnv fuel st rv = none) ∧
    (∀ (fuel : Nat) (st : Store) (rv : Ref),
      rv.typ = GoType.struct "main.Ping".toList ∨ rv.typ = GoType.struct "main.Pong".toList →
      makeArgMap lib nodeEnv fuel st rv = none) ∧
    (∀ (fuel : Nat) (st : Store) (args : List GoString),
      parseArgs lib nodeEnv fuel st (recordRef "main.Node") args = none) ∧
    (∀ (env : TypeEnv) (rank : GoString → Nat),
      (∀ (name : GoString) (f : StructField), f ∈ env name → f.PkgPath = [] →
        f.argTag ≠ "-".toList → ∀ n : GoString,
        f.Typ = GoType.struct n ∨ f.Typ = GoType.ptr (GoType.struct n) →
        rank n < rank name) →
      ∀ (st : Store) (rv : Ref) (n : GoString), rv.typ = GoType.struct n →
        (makeArgMap lib env (rank n + 2) st rv).isSome = true) ∧
    (∀ (m : ArgMap) (args : List GoString) (i : Nat) (a : GoString), i < args.length →
      (i < (scalarOperand args i a).2 ∧ (scalarOperand args i a).2 ≤ args.length) ∧
      (i < (sliceOperands m args i a).2 ∧ (sliceOperands m args i a).2 ≤ args.length)) ∧
    (∀ (m : ArgMap) (args : List GoString) (st : Store),
      (parseLoop lib m args args.length 0 st).isSome = true) ∧
    (∀ (env : TypeEnv) (fuel : Nat) (st : Store) (rv : Ref) (args : List GoString),
      (makeArgMap lib env fuel st rv).isSome = true →
      (parseArgs lib env fuel st rv args).isSome = true) := by
  refine ⟨makeArgMap_node lib, makeArgMap_ping_pong lib, ?_, ?_, ?_, ?_, ?_⟩
  · intro fuel st args
    unfold parseArgs
    rw [makeArgMap_node lib fuel st (recordRef "main.Node") rfl]
  · intro env rank hrank st rv n hrv
    refine makeArgMap_total lib env rank hrank (rank n + 2) st rv (by omega) ?_
    intro n1 hn1
    rw [hrv] at hn1
    cases hn1
    omega
  · intro m args i a hi
    exact ⟨scalarOperand_bounds args i a hi, sliceOperands_bounds m args i a hi⟩
  · intro m args st
    exact parseLoop_total lib m args args.length 0 st (by omega)
  · intro env fuel st rv args h
    unfold parseArgs
    cases hm : makeArgMap lib env fuel st rv with
    | none => rw [hm] at h; exact absurd h (by simp)
    | some r =>
      obtain ⟨m, st1⟩ := r
      exact parseLoop_total lib m args args.length 0 st1 (by omega)

end Argparse
